import Mathlib

/-! # mygola: routing, request context and view rendering

A shallow embedding of `pkg/routing/router.go`, `pkg/gola/context.go` and
`pkg/view/template.go`, together with the part of Go's standard `regexp`
package that `Router.AddRoute` and `Router.ServeHTTP` call.

Go strings are Lean strings, read as lists of characters where the code
scans them; a Go `map[string]T` is an association list in which a key occurs
once, and the maps that a session and its store share are references to such
lists in a heap; a pointer that the code allows to be nil is an `Option`; a
Go function that can abort (a run-time panic) returns `Except` or an outcome
with an `aborted` case. The state of the response writer that a context
refers to is passed to each operation and returned by it.
-/

namespace Mygola

/-! ## Part 1. Definitions -/

/-! ### Go's `regexp` package (the fragment used by the router)

`AddRoute` hands the text of a route template to `regexp.MustCompile`, and
`ServeHTTP` calls `FindStringSubmatch` on the result. The model follows the
documented behaviour of the package: the parser is the stack parser of
`regexp/syntax` under the `Perl` flags, and matching is leftmost-first, the
match that a backtracking search finds first.

The parser interprets literals, `.`, `^`, `$`, capture groups, alternation,
bracket expressions with single characters and ranges, the repetitions `*`,
`+`, `?` and their non-greedy forms, a backslash before punctuation, and
quoted text `\Q...\E`. Other syntax (groups opening with `(?`, counted
repetition, a backslash before a letter or digit, named classes, escapes in
bracket expressions) is reported as `outsideModel` and nothing is stated about it.
-/

namespace Regexp

/-- The backslash character. -/
def chBackslash : Char := Char.ofNat 92

/-- The opening brace character. -/
def chLBrace : Char := Char.ofNat 123

/-- The newline character. -/
def chNewline : Char := Char.ofNat 10

/-- Abstract syntax of a parsed regular expression (Go's `syntax.Regexp`,
restricted to the operators the modelled fragment produces). -/
inductive Regex where
  | empty : Regex
  | lit (c : Char) : Regex
  | anyNotNL : Regex
  | cls (neg : Bool) (ranges : List (Char × Char)) : Regex
  | beginText : Regex
  | endText : Regex
  | cat (a b : Regex) : Regex
  | alt (a b : Regex) : Regex
  | star (greedy : Bool) (r : Regex) : Regex
  | plus (greedy : Bool) (r : Regex) : Regex
  | quest (greedy : Bool) (r : Regex) : Regex
  | capture (idx : Nat) (r : Regex) : Regex
  deriving DecidableEq, Repr

/-- Why `regexp.Compile` did not produce a program: `invalid` is a syntax
error reported by Go (on which `MustCompile` aborts); `outsideModel` marks
syntax that Go may accept but that this model does not interpret (named
classes, flags, counted repetition, escapes by letter or digit). -/
inductive RegexError where
  | invalid : RegexError
  | outsideModel : RegexError
  deriving DecidableEq, Repr

/-- An entry of the parser stack (Go's `parser.stack`): a parsed
expression, an open parenthesis with its capture index, or a vertical bar. -/
inductive Item where
  | re (r : Regex) : Item
  | lparen (cap : Nat) : Item
  | vbar : Item
  deriving DecidableEq, Repr

/-- State of the parser between two tokens. `skip` counts characters that
the previous token has already consumed by looking ahead. -/
structure PState where
  stack : List Item
  ncap : Nat
  lastRepeat : Bool
  skip : Nat
  deriving DecidableEq, Repr

/-- Pops the expressions above the topmost marker, oldest first. -/
def popRegexes : List Item → List Regex → List Regex × List Item
  | Item.re r :: s, acc => popRegexes s (r :: acc)
  | s, acc => (acc, s)

/-- Concatenation of a list of expressions (Go's `parser.concat`). -/
def mkCat (rs : List Regex) : Regex :=
  rs.foldr Regex.cat Regex.empty

/-- Folds the alternatives below the top of the stack into one alternation
(Go's `parser.alternate`). -/
def popAlts : List Item → Regex → Regex × List Item
  | Item.vbar :: Item.re r :: s, acc => popAlts s (Regex.alt r acc)
  | s, acc => (acc, s)

/-- Collapses the stack down to the nearest open parenthesis (or the bottom):
the concatenation of the topmost expressions, alternated with the
alternatives recorded before it. -/
def collapse (stack : List Item) : Regex × List Item :=
  let p := popRegexes stack []
  popAlts p.2 (mkCat p.1)

/-- The text quoted by `\Q`: everything up to the next `\E` (or the end of
the pattern), and the number of characters that it and the `\E` occupy. -/
def cutQuote : List Char → List Char × Nat
  | [] => ([], 0)
  | c :: t =>
    if c = chBackslash ∧ t.head? = some 'E' then ([], 2)
    else ((c :: (cutQuote t).1), (cutQuote t).2 + 1)

/-- The items of a bracket expression after `[` or `[^` (Go's
`parser.parseClass` loop): single characters and ranges `lo-hi`, until the
closing `]`; a `]` in first position is a literal. Returns the ranges and
the number of characters consumed, the closing `]` included. -/
def parseClassItems : List Char → Bool → List (Char × Char) → Nat →
    Except RegexError (List (Char × Char) × Nat)
  | [], _, _, _ => Except.error RegexError.invalid
  | c :: d :: h :: t2, first, acc, n =>
    if c = ']' ∧ first = false then Except.ok (acc.reverse, n + 1)
    else if c = chBackslash then Except.error RegexError.outsideModel
    else if c = '[' ∧ d = ':' then Except.error RegexError.outsideModel
    else if d = '-' ∧ h ≠ ']' then
      if h = chBackslash then Except.error RegexError.outsideModel
      else if h.toNat < c.toNat then Except.error RegexError.invalid
      else parseClassItems t2 false ((c, h) :: acc) (n + 3)
    else parseClassItems (d :: h :: t2) false ((c, c) :: acc) (n + 1)
  | c :: t, first, acc, n =>
    if c = ']' ∧ first = false then Except.ok (acc.reverse, n + 1)
    else if c = chBackslash then Except.error RegexError.outsideModel
    else if c = '[' ∧ t.head? = some ':' then Except.error RegexError.outsideModel
    else parseClassItems t false ((c, c) :: acc) (n + 1)

/-- Pushes one expression (Go's `parser.push` of a literal or operator). -/
def pushRe (st : PState) (r : Regex) (skip : Nat) : PState :=
  { stack := Item.re r :: st.stack, ncap := st.ncap, lastRepeat := false, skip := skip }

/-- Applies a repetition operator to the top of the stack (Go's
`parser.repeat`): a following `?` makes it non-greedy; a repetition right
after a repetition, or with nothing to repeat, is a syntax error. -/
def applyRepeat (mk : Bool → Regex → Regex) (rest : List Char) (st : PState) :
    Except RegexError PState :=
  let lazy := rest.head? = some '?'
  if st.lastRepeat then Except.error RegexError.invalid
  else
    match st.stack with
    | Item.re r :: s =>
      Except.ok { stack := Item.re (mk (!decide lazy) r) :: s, ncap := st.ncap,
                  lastRepeat := true, skip := if lazy then 1 else 0 }
    | _ => Except.error RegexError.invalid

/-- One token of the pattern (one iteration of the loop of Go's
`syntax.parse` under the `Perl` flags that `regexp.Compile` passes): `c` is
the current character and `rest` the text after it. -/
def step (c : Char) (rest : List Char) (st : PState) : Except RegexError PState :=
  if c = '(' then
    if rest.head? = some '?' then Except.error RegexError.outsideModel
    else Except.ok { stack := Item.lparen (st.ncap + 1) :: st.stack, ncap := st.ncap + 1,
                     lastRepeat := false, skip := 0 }
  else if c = '|' then
    let p := popRegexes st.stack []
    Except.ok { stack := Item.vbar :: Item.re (mkCat p.1) :: p.2, ncap := st.ncap,
                lastRepeat := false, skip := 0 }
  else if c = ')' then
    match collapse st.stack with
    | (r, Item.lparen cap :: s) => Except.ok (pushRe { st with stack := s } (Regex.capture cap r) 0)
    | _ => Except.error RegexError.invalid
  else if c = '^' then Except.ok (pushRe st Regex.beginText 0)
  else if c = '$' then Except.ok (pushRe st Regex.endText 0)
  else if c = '.' then Except.ok (pushRe st Regex.anyNotNL 0)
  else if c = '[' then
    let neg := rest.head? = some '^'
    match parseClassItems (if neg then rest.drop 1 else rest) true [] 0 with
    | Except.error e => Except.error e
    | Except.ok (ranges, n) =>
      Except.ok (pushRe st (Regex.cls (decide neg) ranges) (if neg then n + 1 else n))
  else if c = '*' then applyRepeat Regex.star rest st
  else if c = '+' then applyRepeat Regex.plus rest st
  else if c = '?' then applyRepeat Regex.quest rest st
  else if c = chLBrace then
    match rest with
    | d :: _ => if d.isDigit then Except.error RegexError.outsideModel
                else Except.ok (pushRe st (Regex.lit c) 0)
    | [] => Except.ok (pushRe st (Regex.lit c) 0)
  else if c = chBackslash then
    match rest with
    | [] => Except.error RegexError.invalid
    | d :: t =>
      if d = 'Q' then
        let q := cutQuote t
        Except.ok { stack := (q.1.map fun x => Item.re (Regex.lit x)).reverse ++ st.stack,
                    ncap := st.ncap, lastRepeat := false, skip := q.2 + 1 }
      else if d.isAlphanum then Except.error RegexError.outsideModel
      else if d.toNat < 128 then Except.ok (pushRe st (Regex.lit d) 1)
      else Except.error RegexError.invalid
  else Except.ok (pushRe st (Regex.lit c) 0)

/-- The parser loop over the pattern text. -/
def parseLoop : List Char → PState → Except RegexError PState
  | [], st => Except.ok st
  | c :: rest, st =>
    if st.skip = 0 then
      match step c rest st with
      | Except.error e => Except.error e
      | Except.ok st2 => parseLoop rest st2
    else parseLoop rest { st with skip := st.skip - 1 }

/-- A compiled regular expression (Go's `*regexp.Regexp`): the parsed
expression and its number of capture groups (`NumSubexp`). -/
structure Compiled where
  re : Regex
  numSubexp : Nat
  deriving DecidableEq, Repr

/-- Model of `regexp.Compile`: parses the whole pattern; an unclosed
parenthesis is a syntax error. -/
def Compile (pattern : List Char) : Except RegexError Compiled :=
  match parseLoop pattern { stack := [], ncap := 0, lastRepeat := false, skip := 0 } with
  | Except.error e => Except.error e
  | Except.ok st =>
    match collapse st.stack with
    | (r, []) => Except.ok { re := r, numSubexp := st.ncap }
    | _ => Except.error RegexError.invalid

/-- Capture registers of one match attempt: most recent binding first. -/
abbrev Caps := List (Nat × List Char)

/-- Whether a character belongs to a bracket expression. -/
def classMatches (neg : Bool) (ranges : List (Char × Char)) (c : Char) : Bool :=
  xor (ranges.any fun r => decide (r.1.toNat ≤ c.toNat) && decide (c.toNat ≤ r.2.toNat)) neg

/-- Iteration of a starred expression in backtracking priority order: a
greedy loop tries one more iteration first, a non-greedy one tries to stop
first; an iteration that consumes nothing is not repeated (for an expression
whose body can match the empty text the captures of the last iteration may
differ from Go's; no statement below concerns such an expression). The
first numeric argument bounds the number of iterations and is always larger
than the length of the text. -/
def starLoop {α : Type} (greedy : Bool)
    (body : List Char → Caps → (List Char → Caps → Option α) → Option α)
    (k : List Char → Caps → Option α) : Nat → List Char → Caps → Option α
  | 0, s, cs => k s cs
  | n + 1, s, cs =>
    let again := body s cs fun s1 c1 =>
      if s1.length < s.length then starLoop greedy body k n s1 c1 else none
    if greedy then
      match again with
      | some r => some r
      | none => k s cs
    else
      match k s cs with
      | some r => some r
      | none => again

/-- Leftmost-first (backtracking) matching of an expression at the head of
`s`, in continuation-passing style: `k` receives the unmatched rest of the
text and the capture registers. `total` is the length of the whole text, so
that `^` can tell the beginning of the text. -/
def run {α : Type} (total : Nat) :
    Regex → List Char → Caps → (List Char → Caps → Option α) → Option α
  | Regex.empty, s, cs, k => k s cs
  | Regex.lit c, s, cs, k =>
    match s with
    | d :: t => if d = c then k t cs else none
    | [] => none
  | Regex.anyNotNL, s, cs, k =>
    match s with
    | d :: t => if d = chNewline then none else k t cs
    | [] => none
  | Regex.cls neg ranges, s, cs, k =>
    match s with
    | d :: t => if classMatches neg ranges d then k t cs else none
    | [] => none
  | Regex.beginText, s, cs, k => if s.length = total then k s cs else none
  | Regex.endText, s, cs, k => if s = [] then k s cs else none
  | Regex.cat a b, s, cs, k => run total a s cs fun s1 c1 => run total b s1 c1 k
  | Regex.alt a b, s, cs, k =>
    match run total a s cs k with
    | some r => some r
    | none => run total b s cs k
  | Regex.star g r, s, cs, k =>
    starLoop g (fun s1 c1 k1 => run total r s1 c1 k1) k (s.length + 1) s cs
  | Regex.plus g r, s, cs, k =>
    run total r s cs fun s1 c1 =>
      starLoop g (fun s2 c2 k2 => run total r s2 c2 k2) k (s1.length + 1) s1 c1
  | Regex.quest g r, s, cs, k =>
    if g then
      match run total r s cs k with
      | some x => some x
      | none => k s cs
    else
      match k s cs with
      | some x => some x
      | none => run total r s cs k
  | Regex.capture i r, s, cs, k =>
    run total r s cs fun s1 c1 => k s1 ((i, s.take (s.length - s1.length)) :: c1)

/-- The leftmost match: tries every start position from left to right and
returns the text from the start position, the text after the match and the
capture registers. -/
def searchFrom (re : Regex) (total : Nat) :
    List Char → Option (List Char × List Char × Caps)
  | [] =>
    match run total re [] [] (fun s1 c1 => some (s1, c1)) with
    | some r => some ([], r)
    | none => none
  | c :: t =>
    match run total re (c :: t) [] (fun s1 c1 => some (s1, c1)) with
    | some r => some (c :: t, r)
    | none => searchFrom re total t

/-- The text of capture group `i`, empty when the group did not take part. -/
def capText (cs : Caps) (i : Nat) : List Char :=
  (cs.lookup i).getD []

/-- Model of `(*Regexp).FindStringSubmatch`: `none` when the text has no
match, otherwise the matched text followed by the text of each of the
`numSubexp` capture groups. -/
def FindStringSubmatch (p : Compiled) (text : List Char) : Option (List (List Char)) :=
  match searchFrom p.re text.length text with
  | none => none
  | some (s, s1, cs) =>
    some (s.take (s.length - s1.length) :: (List.range p.numSubexp).map fun i => capText cs (i + 1))

end Regexp

/-! ### Go values, maps and `net/http` response writers -/

/-- A Go `map[string]T`: an association list in which every key occurs once. -/
abbrev GoMap (β : Type) := List (String × β)

namespace GoMap

/-- The map index expression `m[k]` with the comma-ok result. -/
def get? {β : Type} (m : GoMap β) (k : String) : Option β :=
  m.lookup k

/-- The assignment `m[k] = v`: replaces the entry of `k` or adds one. -/
def set {β : Type} : GoMap β → String → β → GoMap β
  | [], k, v => [(k, v)]
  | (k1, v1) :: t, k, v => if k1 = k then (k, v) :: t else (k1, v1) :: set t k v

/-- The keys of the map. -/
def keys {β : Type} (m : GoMap β) : List String :=
  m.map Prod.fst

end GoMap

/-- A value of Go's `interface{}` (`any`), by dynamic type: the kinds that
the request context inspects or serialises. `other` stands for a value of
any other dynamic type, identified by a tag; the JSON model does not
serialise it. -/
inductive GoValue where
  | null : GoValue
  | str (s : String) : GoValue
  | int (n : Int) : GoValue
  | bool (b : Bool) : GoValue
  | mapStringAny (m : List (String × GoValue)) : GoValue
  | mapStringString (m : List (String × String)) : GoValue
  | slice (vs : List GoValue) : GoValue
  | other (tag : String) : GoValue

/-- The `SameSite` attribute of a cookie (`http.SameSite`). -/
inductive SameSite where
  | default : SameSite
  | lax : SameSite
  | strict : SameSite
  | none : SameSite
  deriving DecidableEq, Repr

/-- The fields of an `http.Cookie` that the session manager sets. `Expires`
is an instant in nanoseconds. -/
structure Cookie where
  Name : String
  Value : String
  Path : String
  HttpOnly : Bool
  Secure : Bool
  SameSite : SameSite
  Expires : Int
  deriving DecidableEq, Repr

/-- The in-memory state of an `http.ResponseWriter`: the header map handed
out by `Header()`, whether the status line has been written, and what went
on the wire (status, the headers as they were at that moment, body). The
values of the multi-valued `Set-Cookie` header are kept apart in `cookies`,
as the cookies they were written from. -/
structure ResponseWriter where
  header : GoMap String
  wroteHeader : Bool
  status : Nat
  sentHeader : GoMap String
  body : String
  cookies : List Cookie := []
  sentCookies : List Cookie := []

namespace ResponseWriter

/-- A response writer on which nothing has been written yet. -/
def fresh : ResponseWriter :=
  { header := [], wroteHeader := false, status := 0, sentHeader := [], body := "" }

/-- The call `w.Header().Set(k, v)`. -/
def setHeader (w : ResponseWriter) (k v : String) : ResponseWriter :=
  { w with header := GoMap.set w.header k v }

/-- The call `w.Header().Del(k)`. -/
def delHeader (w : ResponseWriter) (k : String) : ResponseWriter :=
  { w with header := w.header.filter fun e => e.1 ≠ k }

/-- The call `w.WriteHeader(code)` with a final status code (200 to 999):
the first call fixes the status and the headers that are sent; a later call
is superfluous and changes nothing. (Informational codes, which do not fix
the status, and codes outside 100 to 999, on which the call aborts, are not
distinguished.) -/
def WriteHeader (w : ResponseWriter) (code : Nat) : ResponseWriter :=
  if w.wroteHeader then w
  else { w with wroteHeader := true, status := code, sentHeader := w.header,
                sentCookies := w.cookies }

/-- The call `w.Write(bytes)`: writes status 200 first when no status has
been written, then appends to the body. -/
def Write (w : ResponseWriter) (bytes : String) : ResponseWriter :=
  let w1 := WriteHeader w 200
  { w1 with body := w1.body ++ bytes }

end ResponseWriter

/-- Model of `http.Error(w, msg, code)`. -/
def httpError (w : ResponseWriter) (msg : String) (code : Nat) : ResponseWriter :=
  let w1 := (w.delHeader "Content-Length").setHeader "Content-Type" "text/plain; charset=utf-8"
  let w2 := w1.setHeader "X-Content-Type-Options" "nosniff"
  (w2.WriteHeader code).Write (msg ++ "\n")

/-- Model of `http.NotFound(w, req)`. -/
def httpNotFound (w : ResponseWriter) : ResponseWriter :=
  httpError w "404 page not found" 404

/-- The part of an `*http.Request` that the router and the session manager
read: the method, the path and the cookies of the `Cookie` header. -/
structure Request where
  Method : String
  Path : String
  Cookies : List (String × String) := []

/-- What a handler can act on: the response writer of the request and the
process log (the output of `log.Printf`). -/
structure World where
  writer : ResponseWriter
  log : List String

/-! ### `encoding/json` (the encoder behind `Context.JSON`) -/

namespace Json

/-- A hexadecimal digit, lower case. -/
def hexDigit (n : Nat) : Char :=
  if n < 10 then Char.ofNat (48 + n) else Char.ofNat (87 + n)

/-- The escape `\u00XX` of a character below 256. -/
def unicodeEscape (n : Nat) : List Char :=
  [Regexp.chBackslash, 'u', '0', '0', hexDigit (n / 16), hexDigit (n % 16)]

/-- How the encoder writes one character of a string, with HTML escaping on
(the default of `json.NewEncoder`). -/
def escapeChar (c : Char) : List Char :=
  if c = '"' then [Regexp.chBackslash, '"']
  else if c = Regexp.chBackslash then [Regexp.chBackslash, Regexp.chBackslash]
  else if c = Char.ofNat 10 then [Regexp.chBackslash, 'n']
  else if c = Char.ofNat 13 then [Regexp.chBackslash, 'r']
  else if c = Char.ofNat 9 then [Regexp.chBackslash, 't']
  else if c.toNat < 32 then unicodeEscape c.toNat
  else if c = '<' ∨ c = '>' ∨ c = '&' then unicodeEscape c.toNat
  else if c.toNat = 8232 then [Regexp.chBackslash, 'u', '2', '0', '2', '8']
  else if c.toNat = 8233 then [Regexp.chBackslash, 'u', '2', '0', '2', '9']
  else [c]

/-- A JSON string literal. -/
def quote (s : String) : List Char :=
  '"' :: (s.data.flatMap escapeChar ++ ['"'])

/-- Joins encoded members with commas. -/
def commaJoin : List (List Char) → List Char
  | [] => []
  | [x] => x
  | x :: y :: t => x ++ ',' :: commaJoin (y :: t)

/-- Sorts the entries of a map by key, as the encoder does. -/
def sortByKey {β : Type} (m : List (String × β)) : List (String × β) :=
  m.insertionSort fun a b => a.1 ≤ b.1

mutual

/-- The JSON text of a value (Go's `json.Marshal`), or `none` for a value of
a kind this model does not serialise. Map keys are written in sorted order. -/
def marshal : GoValue → Option (List Char)
  | GoValue.null => some "null".data
  | GoValue.str s => some (quote s)
  | GoValue.int n => some (toString n).data
  | GoValue.bool b => some (if b then "true".data else "false".data)
  | GoValue.mapStringAny m =>
    match marshalMembers m with
    | some ms =>
      some (Regexp.chLBrace ::
        (commaJoin ((sortByKey ms).map fun e => quote e.1 ++ ':' :: e.2) ++ [Char.ofNat 125]))
    | none => none
  | GoValue.mapStringString m =>
    some (Regexp.chLBrace ::
      (commaJoin ((sortByKey m).map fun e => quote e.1 ++ ':' :: quote e.2) ++ [Char.ofNat 125]))
  | GoValue.slice vs =>
    match marshalElems vs with
    | some es => some ('[' :: (commaJoin es ++ [']']))
    | none => none
  | GoValue.other _ => none

/-- The encoded values of a `map[string]any`, each with its key. -/
def marshalMembers : List (String × GoValue) → Option (List (String × List Char))
  | [] => some []
  | (k, v) :: t =>
    match marshal v, marshalMembers t with
    | some x, some xs => some ((k, x) :: xs)
    | _, _ => none

/-- The encoded elements of a slice. -/
def marshalElems : List GoValue → Option (List (List Char))
  | [] => some []
  | v :: t =>
    match marshal v, marshalElems t with
    | some x, some xs => some (x :: xs)
    | _, _ => none

end

/-- Model of `json.NewEncoder(w).Encode(v)`: the JSON text followed by a
newline is written in one piece; when the value cannot be encoded nothing
is written. -/
def Encode (w : ResponseWriter) (v : GoValue) : ResponseWriter :=
  match marshal v with
  | some text => w.Write (String.mk (text ++ [Regexp.chNewline]))
  | none => w

end Json

/-! ### `pkg/view/template.go` -/

namespace View

/-- A parsed template set (Go's `*template.Template` with its associated
templates): each entry name is bound to an executable template, which maps
the data to the bytes it writes and the execution error, if any. -/
abbrev TemplateSet := GoMap (GoValue → String × Option String)

/-- Model of `(*template.Template).ExecuteTemplate(w, name, data)`: an
entry that is not defined is an error and writes nothing; otherwise the
entry is executed against the data and its output written to `w`. -/
def ExecuteTemplate (t : TemplateSet) (w : ResponseWriter) (name : String) (data : GoValue) :
    ResponseWriter × Option String :=
  match GoMap.get? t name with
  | none => (w, some ("html/template: \"" ++ name ++ "\" is undefined"))
  | some tmpl =>
    let out := tmpl data
    (if out.1 = "" then w else w.Write out.1, out.2)

/-- The struct `TemplateEngine`. -/
structure TemplateEngine where
  templates : GoMap TemplateSet
  DefaultLayout : String
  viewsPath : String
  useEmbed : Bool

/-- `TemplateEngine.Render`: render with the default layout. -/
def TemplateEngine.Render (e : TemplateEngine) (w : ResponseWriter) (name : String)
    (data : GoValue) : ResponseWriter × Option String :=
  match GoMap.get? e.templates name with
  | none => (w, some ("template not found: " ++ name))
  | some tmpl => ExecuteTemplate tmpl w e.DefaultLayout data

/-- `TemplateEngine.RenderWithLayout`: render with a specific layout. -/
def TemplateEngine.RenderWithLayout (e : TemplateEngine) (w : ResponseWriter)
    (viewName layoutName : String) (data : GoValue) : ResponseWriter × Option String :=
  match GoMap.get? e.templates viewName with
  | none => (w, some ("template not found: " ++ viewName))
  | some tmpl =>
    let layout := if layoutName = "" then e.DefaultLayout else layoutName
    ExecuteTemplate tmpl w layout data

/-- `TemplateEngine.RenderWithoutLayout`: render only the content entry. -/
def TemplateEngine.RenderWithoutLayout (e : TemplateEngine) (w : ResponseWriter)
    (viewName : String) (data : GoValue) : ResponseWriter × Option String :=
  match GoMap.get? e.templates viewName with
  | none => (w, some ("template not found: " ++ viewName))
  | some tmpl => ExecuteTemplate tmpl w "content" data

end View

/-! ### `pkg/gola/context.go` -/

namespace Gola

/-- The struct `Context`. The `Writer` field is a reference to the response
writer of the request: its state is passed to each method and returned by
it. `TemplateEngine` is a pointer that may be nil. -/
structure Context where
  Request : Request
  Params : GoMap String
  TemplateEngine : Option View.TemplateEngine
  Flash : String
  FlashType : String

/-- `Context.JSON`. -/
def Context.JSON (_c : Context) (w : ResponseWriter) (code : Nat) (data : GoValue) :
    ResponseWriter :=
  let w1 := w.setHeader "Content-Type" "application/json; charset=utf-8"
  let w2 := w1.WriteHeader code
  Json.Encode w2 data

/-- `Context.Param`: the zero value (empty string) for a missing key. -/
def Context.Param (c : Context) (key : String) : String :=
  (GoMap.get? c.Params key).getD ""

/-- `Context.Error`. -/
def Context.Error (_c : Context) (w : ResponseWriter) (code : Nat) (msg : String) :
    ResponseWriter :=
  httpError w msg code

/-- The payload that `Context.View` builds (lines 78 to 90): the flash
fields, then the caller's keys on top when the data is a `map[string]any`,
and the data under the key `Data` for any other dynamic type. -/
def Context.viewPayload (c : Context) (data : GoValue) : GoMap GoValue :=
  let payload : GoMap GoValue :=
    [("Flash", GoValue.str c.Flash), ("FlashType", GoValue.str c.FlashType)]
  match data with
  | GoValue.mapStringAny d => d.foldl (fun p e => GoMap.set p e.1 e.2) payload
  | _ => GoMap.set payload "Data" data

/-- The layout argument that `Context.View` and `Context.Render` use: the
first of the variadic `layout` arguments, or the empty string. -/
def firstLayout (layout : List String) : String :=
  match layout with
  | [] => ""
  | l :: _ => l

/-- `Context.View`: renders a template with default data merging. The
result is the response writer and the returned error. (The line that
prints the layout name to standard output has no effect on either.) -/
def Context.View (c : Context) (w : ResponseWriter) (name : String) (data : GoValue)
    (layout : List String) : ResponseWriter × Option String :=
  match c.TemplateEngine with
  | none => (w, some "template engine not configured")
  | some engine =>
    let payload := GoValue.mapStringAny (c.viewPayload data)
    let useLayout := firstLayout layout
    if useLayout = "remove" then engine.RenderWithoutLayout w name payload
    else if useLayout ≠ "" then engine.RenderWithLayout w name useLayout payload
    else engine.Render w name payload

end Gola

/-! ### `pkg/routing/router.go` -/

namespace Routing

/-- A handler `func(ctx *gola.Context)`: it acts on the response writer of
the context and on the process log. -/
abbrev Handler := Gola.Context → World → World

/-- The type `MiddlewareFunc`. -/
abbrev MiddlewareFunc := Handler → Handler

/-- A piece of a path template as `AddRoute` reads it: a character copied
as it is, or a placeholder `:name`. -/
inductive Token where
  | lit (c : Char) : Token
  | param (name : List Char) : Token
  deriving DecidableEq, Repr

/-- The characters of a placeholder name: the class `[a-zA-Z0-9_]`. -/
def isNameChar (c : Char) : Bool :=
  c.isAlphanum || c = '_'

/-- The successive leftmost matches of `:([a-zA-Z0-9_]+)` in the template,
as `ReplaceAllStringFunc` visits them: a colon followed by the longest run
of name characters is a placeholder, every other character is copied. The
first argument bounds the number of steps. -/
def scanFuel : Nat → List Char → List Token
  | 0, _ => []
  | _ + 1, [] => []
  | f + 1, c :: t =>
    if c = ':' ∧ (t.takeWhile isNameChar) ≠ [] then
      Token.param (t.takeWhile isNameChar) :: scanFuel f (t.dropWhile isNameChar)
    else Token.lit c :: scanFuel f t

/-- The pieces of a path template. -/
def scanTemplate (pattern : List Char) : List Token :=
  scanFuel pattern.length pattern

/-- The text that `ReplaceAllStringFunc` writes for one piece: the callback
returns `([^/]+)` for a placeholder. -/
def Token.render : Token → List Char
  | Token.lit c => [c]
  | Token.param _ => "([^/]+)".data

/-- The names that the callback appends to `paramNames` (`m[1:]` of each match). -/
def tokenNames : List Token → List String
  | [] => []
  | Token.lit _ :: t => tokenNames t
  | Token.param n :: t => String.mk n :: tokenNames t

/-- The string `replacer` of `AddRoute`. -/
def replacer (pattern : String) : List Char :=
  (scanTemplate pattern.data).flatMap Token.render

/-- The regular expression that `AddRoute` compiles for a template:
`regexp.Compile("^" + replacer + "$")`. -/
def compileTemplate (pattern : String) : Except Regexp.RegexError Regexp.Compiled :=
  Regexp.Compile ('^' :: (replacer pattern ++ ['$']))

/-- The struct `Route`. -/
structure Route where
  method : String
  pattern : Regexp.Compiled
  paramNames : List String
  handler : Handler
  middlewares : List MiddlewareFunc

/-- The struct `Router`. `TemplateEngine` is a pointer to a context and may
be nil. -/
structure Router where
  routes : List Route
  middleware : List MiddlewareFunc
  TemplateEngine : Option Gola.Context

/-- The constructor `oldNewRouter`: the zero router. -/
def oldNewRouter : Router :=
  { routes := [], middleware := [], TemplateEngine := none }

/-- The constructor `NewRouter`. -/
def NewRouter (templateEngine : Option Gola.Context) : Router :=
  { routes := [], middleware := [], TemplateEngine := templateEngine }

/-- `Router.AddRoute`. The first `MustCompile`, of the constant pattern
`:([a-zA-Z0-9_]+)`, always succeeds. An error result `invalid` stands for the
abort of the second `regexp.MustCompile`, in which case no route is added;
`outsideModel` says that the template uses syntax the model does not interpret. -/
def Router.AddRoute (r : Router) (method : String) (pattern : String) (handler : Handler)
    (middlewares : List MiddlewareFunc) : Except Regexp.RegexError Router :=
  match compileTemplate pattern with
  | Except.error e => Except.error e
  | Except.ok regex =>
    let route : Route :=
      { method := method, pattern := regex,
        paramNames := tokenNames (scanTemplate pattern.data),
        handler := handler, middlewares := middlewares }
    Except.ok { r with routes := r.routes ++ [route] }

/-- `Router.Get`. -/
def Router.Get (r : Router) (pattern : String) (handler : Handler)
    (middlewares : List MiddlewareFunc) : Except Regexp.RegexError Router :=
  r.AddRoute "GET" pattern handler middlewares

/-- `Router.Post`. -/
def Router.Post (r : Router) (pattern : String) (handler : Handler)
    (middlewares : List MiddlewareFunc) : Except Regexp.RegexError Router :=
  r.AddRoute "POST" pattern handler middlewares

/-- `Router.Use`: adds global middleware. -/
def Router.Use (r : Router) (middleware : MiddlewareFunc) : Router :=
  { r with middleware := r.middleware ++ [middleware] }

/-- The loop `for i, name := range route.paramNames { ctx.Params[name] = matches[i+1] }`,
started at index `i`; `none` when `matches[i+1]` is out of range (`subs` is `matches`). -/
def bindParams (subs : List (List Char)) : List String → Nat → GoMap String →
    Option (GoMap String)
  | [], _, params => some params
  | name :: rest, i, params =>
    match subs[i + 1]? with
    | none => none
    | some m => bindParams subs rest (i + 1) (GoMap.set params name (String.mk m))

/-- The loops `for i := len(ms) - 1; i >= 0; i-- { handler = ms[i](handler) }`:
the middleware is visited from the last registered to the first. -/
def applyMiddlewares (ms : List MiddlewareFunc) (handler : Handler) : Handler :=
  ms.reverse.foldl (fun h m => m h) handler

/-- How a call of `ServeHTTP` ends: the composed handler of a route ran, the
not-found response was written, or the call aborted (a run-time panic)
before any handler was called. -/
inductive Outcome where
  | handled (w : World) : Outcome
  | notFound (w : World) : Outcome
  | aborted : Outcome

/-- The context that `ServeHTTP` builds for a request (lines 85 to 90) once
the parameters are bound. -/
def requestContext (te : Gola.Context) (req : Request) (params : GoMap String) : Gola.Context :=
  { Request := req, Params := params, TemplateEngine := te.TemplateEngine,
    Flash := "", FlashType := "" }

/-- The body of the loop of `ServeHTTP` once `route` has matched with the
submatches `subs` (lines 84 to 110). -/
def serveMatched (r : Router) (route : Route) (subs : List (List Char)) (req : Request)
    (w : World) : Outcome :=
  match r.TemplateEngine with
  | none => Outcome.aborted
  | some te =>
    match bindParams subs route.paramNames 0 [] with
    | none => Outcome.aborted
    | some params =>
      let ctx := requestContext te req params
      let handler := applyMiddlewares r.middleware (applyMiddlewares route.middlewares route.handler)
      Outcome.handled (handler ctx w)

/-- The loop of `ServeHTTP` over the routes still to be tried. -/
def serveRoutes (r : Router) (req : Request) (w : World) : List Route → Outcome
  | [] => Outcome.notFound { w with writer := httpNotFound w.writer }
  | route :: rest =>
    if route.method ≠ req.Method then serveRoutes r req w rest
    else
      match Regexp.FindStringSubmatch route.pattern req.Path.data with
      | none => serveRoutes r req w rest
      | some subs => serveMatched r route subs req w

/-- `Router.ServeHTTP`. -/
def Router.ServeHTTP (r : Router) (w : World) (req : Request) : Outcome :=
  serveRoutes r req w r.routes

/-! ### Notions used to state the properties -/

/-- Whether a route matches a request: its method equals the request method
and its compiled pattern accepts the path. -/
def Route.accepts (route : Route) (req : Request) : Bool :=
  decide (route.method = req.Method) &&
    (Regexp.FindStringSubmatch route.pattern req.Path.data).isSome

/-- One registration call at boot: `AddRoute`, `Get` or `Post`. -/
inductive Registration where
  | addRoute (method pattern : String) (handler : Handler) (middlewares : List MiddlewareFunc) :
      Registration
  | get (pattern : String) (handler : Handler) (middlewares : List MiddlewareFunc) : Registration
  | post (pattern : String) (handler : Handler) (middlewares : List MiddlewareFunc) : Registration

/-- The method under which a registration call registers its route. -/
def Registration.method : Registration → String
  | Registration.addRoute m _ _ _ => m
  | Registration.get _ _ _ => "GET"
  | Registration.post _ _ _ => "POST"

/-- The path template of a registration call. -/
def Registration.pattern : Registration → String
  | Registration.addRoute _ p _ _ => p
  | Registration.get p _ _ => p
  | Registration.post p _ _ => p

/-- The handler of a registration call. -/
def Registration.handler : Registration → Handler
  | Registration.addRoute _ _ h _ => h
  | Registration.get _ h _ => h
  | Registration.post _ h _ => h

/-- The route-level middleware of a registration call. -/
def Registration.middlewares : Registration → List MiddlewareFunc
  | Registration.addRoute _ _ _ ms => ms
  | Registration.get _ _ ms => ms
  | Registration.post _ _ ms => ms

/-- The route that a registration call appends once its template has
compiled to `p` (lines 47 to 53 of `AddRoute`). -/
def Registration.route (x : Registration) (p : Regexp.Compiled) : Route :=
  { method := x.method, pattern := p,
    paramNames := tokenNames (scanTemplate x.pattern.data),
    handler := x.handler, middlewares := x.middlewares }

/-- Performs one registration call on a router. -/
def Router.register (r : Router) : Registration → Except Regexp.RegexError Router
  | Registration.addRoute m p h ms => r.AddRoute m p h ms
  | Registration.get p h ms => r.Get p h ms
  | Registration.post p h ms => r.Post p h ms

/-- Performs a sequence of registration calls in order; the first call that
aborts ends the sequence. -/
def Router.registerAll (r : Router) : List Registration → Except Regexp.RegexError Router
  | [] => Except.ok r
  | x :: rest =>
    match r.register x with
    | Except.error e => Except.error e
    | Except.ok r1 => Router.registerAll r1 rest

/-- Whether the route that a registration call adds matches a request; the
submatches are those of its compiled pattern. -/
def Registration.submatches (x : Registration) (req : Request) : Option (List (List Char)) :=
  match compileTemplate x.pattern with
  | Except.error _ => none
  | Except.ok p => if x.method = req.Method then Regexp.FindStringSubmatch p req.Path.data else none

/-- Appends a line to the process log. -/
def logLine (w : World) (line : String) : World :=
  { w with log := w.log ++ [line] }

/-- A middleware that records an entry event, calls `next` once and records
an exit event (the shape of the logging middleware of the application). -/
def traceMiddleware (name : String) : MiddlewareFunc :=
  fun next ctx w => logLine (next ctx (logLine w ("enter " ++ name))) ("exit " ++ name)

/-- A route handler that records that it ran. -/
def traceHandler : Handler :=
  fun _ w => logLine w "route handler"

/-- The characters with a special meaning in Go regular expressions (the
set that `regexp.QuoteMeta` escapes). -/
def isMetaChar (c : Char) : Bool :=
  c = Regexp.chBackslash || c = '.' || c = '+' || c = '*' || c = '?' || c = '(' || c = ')' ||
  c = '|' || c = '[' || c = ']' || c = Regexp.chLBrace || c = Char.ofNat 125 || c = '^' || c = '$'

/-- The path `p` is the template with each placeholder replaced by some
non-empty string containing no slash, every other character kept. -/
def Fills : List Token → List Char → Prop
  | [], p => p = []
  | Token.lit c :: ts, p => ∃ q, p = c :: q ∧ Fills ts q
  | Token.param _ :: ts, p => ∃ v q, v ≠ [] ∧ '/' ∉ v ∧ p = v ++ q ∧ Fills ts q

/-- The template with each placeholder `:name` replaced by the value that
`params` holds for `name` (nothing when the name has no entry). -/
def fillWith (params : GoMap String) : List Token → List Char
  | [] => []
  | Token.lit c :: ts => c :: fillWith params ts
  | Token.param n :: ts =>
    ((GoMap.get? params (String.mk n)).getD "").data ++ fillWith params ts

/-- A handler that answers with the bound `id` as JSON:
`ctx.JSON(200, map[string]any{"id": ctx.Param("id")})`. -/
def showIdHandler : Handler :=
  fun ctx w =>
    { w with writer := ctx.JSON w.writer 200
                         (GoValue.mapStringAny [("id", GoValue.str (ctx.Param "id"))]) }

/-- A world in which nothing has been written or logged. -/
def freshWorld : World :=
  { writer := ResponseWriter.fresh, log := [] }

/-! ### Concrete data for the worked instances -/

/-- A template set with a default layout, a second layout and a content block. -/
def demoTemplateSet : View.TemplateSet :=
  [("app", fun _ => ("<app>content</app>", none)),
   ("member", fun _ => ("<member>content</member>", none)),
   ("content", fun _ => ("content", none))]

/-- A template engine as `main.go` configures it, with two views loaded. -/
def demoEngine : View.TemplateEngine :=
  { templates := [("home", demoTemplateSet), ("blog/show", demoTemplateSet)],
    DefaultLayout := "app", viewsPath := "resources/views", useEmbed := false }

/-- The context that `main.go` hands to `NewRouter`:
`&gola.Context{TemplateEngine: templateEngine}`. -/
def demoContext : Gola.Context :=
  { Request := { Method := "", Path := "" }, Params := [], TemplateEngine := some demoEngine,
    Flash := "", FlashType := "" }

/-- A handler that writes its name to the log. -/
def namedHandler (name : String) : Handler :=
  fun _ w => logLine w name

/-- The compiled pattern of a template, for templates that compile. -/
def patternOf (template : String) : Regexp.Compiled :=
  match compileTemplate template with
  | Except.ok p => p
  | Except.error _ => { re := Regexp.Regex.empty, numSubexp := 0 }

/-- The router after a sequence of boot calls, for calls that do not abort. -/
def routerOf (e : Except Regexp.RegexError Router) : Router :=
  match e with
  | Except.ok r => r
  | Except.error _ => oldNewRouter

/-- A template whose placeholder stands inside a quoted literal:
the text `/\Q:a\E`. -/
def quotedTemplate : String :=
  String.mk ('/' :: Regexp.chBackslash :: 'Q' :: ':' :: 'a' :: Regexp.chBackslash :: ['E'])

/-- Boot calls with overlapping templates: `/blog/:id` is registered before
`/blog/new`, through different call sites. -/
def demoRegistrations : List Registration :=
  [Registration.get "/blog" (namedHandler "index") [],
   Registration.get "/blog/:id" (namedHandler "show") [traceMiddleware "C"],
   Registration.addRoute "GET" "/blog/new" (namedHandler "new") []]

/-- A router with one global middleware and no route yet. -/
def demoBase : Router :=
  (NewRouter (some demoContext)).Use (traceMiddleware "A")

/-- The router after the boot calls of `demoRegistrations`. -/
def demoRouter : Router :=
  routerOf (demoBase.registerAll demoRegistrations)

/-- The request `GET /blog/new`. -/
def demoRequest : Request :=
  { Method := "GET", Path := "/blog/new" }

/-- A router with global middleware `[A, B]` and one route `GET /blog/:id`
with route-level middleware `[C, D]`. -/
def traceRouter : Router :=
  { routes := [{ method := "GET", pattern := patternOf "/blog/:id", paramNames := ["id"],
                 handler := traceHandler,
                 middlewares := [traceMiddleware "C", traceMiddleware "D"] }],
    middleware := [traceMiddleware "A", traceMiddleware "B"],
    TemplateEngine := some demoContext }

/-- The response writer after a call of `ServeHTTP` that ran a handler or
answered not-found; `none` after an abort. -/
def Outcome.writer? : Outcome → Option ResponseWriter
  | Outcome.handled w => some w.writer
  | Outcome.notFound w => some w.writer
  | Outcome.aborted => none

/-- A handler that writes the value bound to a route parameter to the log. -/
def paramHandler (key : String) : Handler :=
  fun ctx w => logLine w (ctx.Param key)

/-- The router with the single route `GET /blog/:id` and the given handler. -/
def blogRouter (handler : Handler) : Router :=
  routerOf ((NewRouter (some demoContext)).Get "/blog/:id" handler [])

/-- The base payload of `Context.View`: the flash fields of the context. -/
def basePayload (c : Gola.Context) : GoMap GoValue :=
  [("Flash", GoValue.str c.Flash), ("FlashType", GoValue.str c.FlashType)]

/-! ### Auxiliary notions for the analysis of compiled templates -/

/-- The expression that the parser builds for the text `([^/]+)` as capture
group `i`. -/
def paramRegex (i : Nat) : Regexp.Regex :=
  Regexp.Regex.capture i
    (Regexp.Regex.cat (Regexp.Regex.plus true (Regexp.Regex.cls true [('/', '/')]))
      Regexp.Regex.empty)

/-- The expressions of the pieces of a template, the capture groups numbered
from `i + 1`. -/
def tokRegexes : Nat → List Token → List Regexp.Regex
  | _, [] => []
  | i, Token.lit c :: ts => Regexp.Regex.lit c :: tokRegexes i ts
  | i, Token.param _ :: ts => paramRegex (i + 1) :: tokRegexes (i + 1) ts

/-- The template with its placeholders replaced, in order, by the given values. -/
def instantiate : List Token → List (List Char) → List Char
  | [], _ => []
  | Token.lit c :: ts, vs => c :: instantiate ts vs
  | Token.param _ :: ts, v :: vs => v ++ instantiate ts vs
  | Token.param _ :: ts, [] => instantiate ts []

/-- The capture registers after the placeholders have matched the given
values as groups `i + 1`, `i + 2`, ...: the most recent first. -/
def capsAfter : Nat → List (List Char) → Regexp.Caps → Regexp.Caps
  | _, [], cs => cs
  | i, v :: vs, cs => capsAfter (i + 1) vs ((i + 1, v) :: cs)

/-- The text that a piece of a template stands for in the template. -/
def Token.source : Token → List Char
  | Token.lit c => [c]
  | Token.param n => ':' :: n

/-- The greedy loop of `[^/]+` after its first character: `starLoop` over
the class of non-slash characters. -/
def slashLoop {α : Type} (total : Nat) (k : List Char → Regexp.Caps → Option α) (n : Nat)
    (s : List Char) (cs : Regexp.Caps) : Option α :=
  Regexp.starLoop true
    (fun s1 c1 k1 => Regexp.run total (Regexp.Regex.cls true [('/', '/')]) s1 c1 k1) k n s cs

end Routing

/-! ### `pkg/gola/context.go`: rendering with a status -/

namespace Gola

/-- `Context.Render`: renders a template with optional layout. -/
def Context.Render (c : Context) (w : ResponseWriter) (status : Nat) (view : String)
    (data : GoValue) (layout : List String) : ResponseWriter :=
  let w1 := w.setHeader "Content-Type" "text/html; charset=utf-8"
  let w2 := w1.WriteHeader status
  match c.TemplateEngine with
  | none => httpError w2 "Template engine not configured" 500
  | some engine =>
    let useLayout := firstLayout layout
    match engine.RenderWithLayout w2 view useLayout data with
    | (w3, some err) => httpError w3 err 500
    | (w3, none) => w3

/-- `Context.RenderPartial`. -/
def Context.RenderPartial (c : Context) (w : ResponseWriter) (status : Nat) (view : String)
    (data : GoValue) : ResponseWriter :=
  let w1 := w.setHeader "Content-Type" "text/html; charset=utf-8"
  let w2 := w1.WriteHeader status
  match c.TemplateEngine with
  | none => httpError w2 "Template engine not configured" 500
  | some engine =>
    match engine.RenderWithoutLayout w2 view data with
    | (w3, some err) => httpError w3 err 500
    | (w3, none) => w3

/-- A context with no template engine attached. -/
def bareContext : Context :=
  { Request := { Method := "GET", Path := "/" }, Params := [], TemplateEngine := none,
    Flash := "", FlashType := "" }

end Gola

/-! ### Time, cookies and `encoding/base64` -/

/-- One hour as a `time.Duration`, in nanoseconds. Instants are integers on
the same scale. -/
def hour : Int := 3600000000000

/-- The deletion `delete(m, k)` of a map entry. -/
def GoMap.delete {β : Type} (m : GoMap β) (k : String) : GoMap β :=
  m.filter fun e => e.1 ≠ k

/-- The characters allowed in a cookie name: the HTTP token characters. -/
def isTokenChar (c : Char) : Bool :=
  c.isAlphanum || "!#$%&'*+-.^_`|~".data.contains c

/-- The check `isCookieNameValid` of `net/http`. -/
def isCookieNameValid (name : String) : Bool :=
  name ≠ "" && name.data.all isTokenChar

/-- Model of `http.SetCookie(w, cookie)`: a cookie with a valid name adds one
value to the `Set-Cookie` header; a cookie with an invalid name is dropped. -/
def SetCookie (w : ResponseWriter) (cookie : Cookie) : ResponseWriter :=
  if isCookieNameValid cookie.Name then { w with cookies := w.cookies ++ [cookie] } else w

/-- Model of `r.Cookie(name)`: the value of the first cookie of that name;
`none` stands for `http.ErrNoCookie`, the only error the call returns. -/
def Request.Cookie (r : Request) (name : String) : Option String :=
  if name = "" then none else r.Cookies.lookup name

/-- A byte. -/
abbrev Byte := Fin 256

/-- The alphabet of `base64.URLEncoding`. -/
def urlAlphabet : List Char :=
  "ABCDEFGHIJKLMNOPQRSTUVWXYZabcdefghijklmnopqrstuvwxyz0123456789-_".data

/-- The character that encodes a six-bit value. -/
def b64Char (n : Nat) : Char :=
  urlAlphabet.getD n 'A'

/-- Model of `base64.URLEncoding.EncodeToString`: three bytes give four
characters; a last group of one or two bytes is padded with `=`. -/
def base64URL : List Byte → List Char
  | a :: b :: c :: rest =>
    b64Char (a.val / 4) :: b64Char (a.val % 4 * 16 + b.val / 16) ::
      b64Char (b.val % 16 * 4 + c.val / 64) :: b64Char (c.val % 64) :: base64URL rest
  | [a, b] =>
    [b64Char (a.val / 4), b64Char (a.val % 4 * 16 + b.val / 16), b64Char (b.val % 16 * 4), '=']
  | [a] => [b64Char (a.val / 4), b64Char (a.val % 4 * 16), '=', '=']
  | [] => []

/-! ### `pkg/session/session.go`

A Go map value is a reference to a map object: two map values may refer to
the same object, and an assignment through one is seen through the other.
The map objects of the process are kept in a heap, which is passed to each
operation and returned by it, as the state of a store is. The mutexes, which
serialise the operations, have no counterpart. -/

namespace Session

/-- A value of type `map[string]interface{}`: a reference to a map object. -/
abbrev MapRef := Nat

/-- The map objects of the process: the contents of each object, and the
reference that the next `make` returns. -/
structure Heap where
  contents : MapRef → GoMap GoValue
  next : MapRef

/-- The contents of the map object that `ref` refers to. -/
def Heap.read (h : Heap) (ref : MapRef) : GoMap GoValue :=
  h.contents ref

/-- Replaces the contents of the map object that `ref` refers to. -/
def Heap.write (h : Heap) (ref : MapRef) (m : GoMap GoValue) : Heap :=
  { h with contents := fun r => if r = ref then m else h.contents r }

/-- `make(map[string]interface{})`: a new, empty map object. -/
def Heap.make (h : Heap) : Heap × MapRef :=
  ({ contents := fun r => if r = h.next then [] else h.contents r, next := h.next + 1 }, h.next)

/-- The interface `Store`, over a type of store states. Every operation is
given the current state, the heap and the instant, and returns the new state
and heap with its results. -/
structure Store (σ : Type) where
  Get : σ → Heap → Int → String → σ × Heap × Except String MapRef
  Save : σ → Heap → Int → String → MapRef → Int → σ × Heap × Option String
  Delete : σ → Heap → Int → String → σ × Heap × Option String

/-- The struct `Manager` (the store it refers to, and the cookie name). -/
structure Manager (σ : Type) where
  store : Store σ
  cookieName : String

/-- The constructor `NewManager`. -/
def NewManager {σ : Type} (store : Store σ) (cookieName : String) : Manager σ :=
  { store := store, cookieName := cookieName }

/-- The struct `session`: `data` is a map value, `written` is the dirty flag. -/
structure session (σ : Type) where
  id : String
  data : MapRef
  store : Store σ
  written : Bool

/-- `session.Get`: the value of the key, `nil` when there is none. -/
def session.Get {σ : Type} (s : session σ) (h : Heap) (key : String) : session σ × GoValue :=
  (s, (GoMap.get? (h.read s.data) key).getD GoValue.null)

/-- `session.Set`: assigns in the map object of the session. -/
def session.Set {σ : Type} (s : session σ) (h : Heap) (key : String) (value : GoValue) :
    session σ × Heap :=
  ({ s with written := true }, h.write s.data (GoMap.set (h.read s.data) key value))

/-- `session.Delete`: deletes from the map object of the session. -/
def session.Delete {σ : Type} (s : session σ) (h : Heap) (key : String) : session σ × Heap :=
  ({ s with written := true }, h.write s.data (GoMap.delete (h.read s.data) key))

/-- `session.Save`, at the instant `now`: the session, the state of the
store, the heap and the returned error. The store is handed the map value of
the session. -/
def session.Save {σ : Type} (s : session σ) (st : σ) (h : Heap) (now : Int) :
    session σ × σ × Heap × Option String :=
  if s.written then
    match s.store.Save st h now s.id s.data (24 * hour) with
    | (st1, h1, some err) => (s, st1, h1, some err)
    | (st1, h1, none) => ({ s with written := false }, st1, h1, none)
  else (s, st, h, none)

/-- `session.ID`. -/
def session.ID {σ : Type} (s : session σ) : session σ × String :=
  (s, s.id)

/-- `generateSessionID`, for the 32 bytes that `rand.Read` delivered. -/
def generateSessionID (b : List Byte) : String :=
  String.mk (base64URL b)

/-- How a call of `Manager.Start` ends: with the error and the states it
left, or with the session. -/
inductive StartResult (σ : Type) where
  | failed (err : String) (w : ResponseWriter) (st : σ) (h : Heap) : StartResult σ
  | started (s : session σ) (w : ResponseWriter) (st : σ) (h : Heap) : StartResult σ

/-- The session identifier that `Manager.Start` settles on (lines 45 to
54): the value of the session cookie of the request, or a new identifier
when the request has no such cookie. -/
def Manager.sessionID {σ : Type} (m : Manager σ) (r : Request) (entropy : List Byte) : String :=
  match r.Cookie m.cookieName with
  | none => generateSessionID entropy
  | some value => value

/-- `Manager.Start`, at the instant `now`, with `entropy` the bytes that
`rand.Read` would deliver. -/
def Manager.Start {σ : Type} (m : Manager σ) (st : σ) (h : Heap) (w : ResponseWriter)
    (r : Request) (now : Int) (entropy : List Byte) : StartResult σ :=
  match m.store.Get st h now (m.sessionID r entropy) with
  | (st1, h1, Except.error err) => StartResult.failed err w st1 h1
  | (st1, h1, Except.ok data) =>
    let s : session σ :=
      { id := m.sessionID r entropy, data := data, store := m.store, written := false }
    let w1 := SetCookie w
      { Name := m.cookieName, Value := m.sessionID r entropy, Path := "/", HttpOnly := true,
        Secure := true, SameSite := SameSite.lax, Expires := now + 24 * hour }
    StartResult.started s w1 st1 h1

/-- The struct `memorySession`: `data` is a map value. -/
structure memorySession where
  data : MapRef
  expiration : Int

/-- The struct `MemoryStore`. -/
structure MemoryStore where
  sessions : GoMap memorySession

/-- The map of `NewMemoryStore`. -/
def NewMemoryStore : MemoryStore :=
  { sessions := [] }

/-- `MemoryStore.Get`: a new map object, empty when the entry is missing or
past its expiration, and otherwise filled entry by entry from the stored
map (lines 168 to 171). -/
def MemoryStore.Get (s : MemoryStore) (h : Heap) (now : Int) (sessionID : String) :
    MemoryStore × Heap × Except String MapRef :=
  match GoMap.get? s.sessions sessionID with
  | none => (s, h.make.1, Except.ok h.make.2)
  | some entry =>
    if now > entry.expiration then (s, h.make.1, Except.ok h.make.2)
    else
      (s, h.make.1.write h.make.2
            ((h.make.1.read entry.data).foldl (fun d e => GoMap.set d e.1 e.2) []),
        Except.ok h.make.2)

/-- `MemoryStore.Save`: the entry holds the map value it is given, that is a
reference to the caller's map object, not a copy of it (lines 180 to 183). -/
def MemoryStore.Save (s : MemoryStore) (h : Heap) (now : Int) (sessionID : String)
    (data : MapRef) (expiration : Int) : MemoryStore × Heap × Option String :=
  ({ sessions := GoMap.set s.sessions sessionID
      { data := data, expiration := now + expiration } }, h, none)

/-- `MemoryStore.Delete`. -/
def MemoryStore.Delete (s : MemoryStore) (h : Heap) (_now : Int) (sessionID : String) :
    MemoryStore × Heap × Option String :=
  ({ sessions := GoMap.delete s.sessions sessionID }, h, none)

/-- The memory store as a `Store`. -/
def memoryStore : Store MemoryStore :=
  { Get := MemoryStore.Get, Save := MemoryStore.Save, Delete := MemoryStore.Delete }

/-- What the session middleware and the handler it wraps act on: the
response writer of the request, the state of the session store and the heap. -/
structure AppWorld (σ : Type) where
  writer : ResponseWriter
  store : σ
  heap : Heap

/-- The body of the session middleware of `startServer` (lines 62 to 72 of
`main.go`), with `start` standing for the call `sessionManager.Start`; `later`
is the instant of `Save`. -/
def sessionMiddlewareOn {σ : Type}
    (start : σ → Heap → ResponseWriter → Request → StartResult σ) (later : Int)
    (next : Gola.Context → AppWorld σ → AppWorld σ) :
    Gola.Context → AppWorld σ → AppWorld σ :=
  fun ctx w =>
    match start w.store w.heap w.writer ctx.Request with
    | StartResult.failed _ w1 st1 h1 =>
      { writer := ctx.Error w1 500 "Internal Server Error", store := st1, heap := h1 }
    | StartResult.started sess w1 st1 h1 =>
      let w2 := next ctx { writer := w1, store := st1, heap := h1 }
      { writer := w2.writer, store := (sess.Save w2.store w2.heap later).2.1,
        heap := (sess.Save w2.store w2.heap later).2.2.1 }

/-- The session middleware of `startServer` for the manager `sessionManager`.
`now` is the instant of `Start`, `later` the instant of `Save`. -/
def sessionMiddleware {σ : Type} (sessionManager : Manager σ) (now : Int) (entropy : List Byte)
    (later : Int) (next : Gola.Context → AppWorld σ → AppWorld σ) :
    Gola.Context → AppWorld σ → AppWorld σ :=
  sessionMiddlewareOn (fun st h w r => sessionManager.Start st h w r now entropy) later next

/-- A read-only call on a session: `Get(key)` or `ID()`. -/
inductive ReadCall where
  | get (key : String) : ReadCall
  | id : ReadCall

/-- The session after a sequence of read-only calls. -/
def session.afterReads {σ : Type} (s : session σ) (h : Heap) : List ReadCall → session σ
  | [] => s
  | ReadCall.get key :: rest => session.afterReads (s.Get h key).1 h rest
  | ReadCall.id :: rest => session.afterReads s.ID.1 h rest

end Session

/-! ### `pkg/cache/cache.go`: the memory cache -/

namespace Cache

/-- The error `ErrKeyNotFound`. -/
def ErrKeyNotFound : String := "key not found"

/-- The struct `memoryItem`. -/
structure memoryItem where
  value : GoValue
  expiration : Int

/-- The struct `MemoryCache`. -/
structure MemoryCache where
  items : GoMap memoryItem

/-- The map of `NewMemoryCache`. -/
def NewMemoryCache : MemoryCache :=
  { items := [] }

/-- `MemoryCache.Get`, at the instant `now`. -/
def MemoryCache.Get (c : MemoryCache) (now : Int) (key : String) :
    MemoryCache × Except String GoValue :=
  match GoMap.get? c.items key with
  | none => (c, Except.error ErrKeyNotFound)
  | some item =>
    if now > item.expiration then (c, Except.error ErrKeyNotFound)
    else (c, Except.ok item.value)

/-- `MemoryCache.Set`, at the instant `now`. -/
def MemoryCache.Set (c : MemoryCache) (now : Int) (key : String) (value : GoValue)
    (expiration : Int) : MemoryCache × Option String :=
  ({ items := GoMap.set c.items key { value := value, expiration := now + expiration } }, none)

/-- `MemoryCache.Delete`. -/
def MemoryCache.Delete (c : MemoryCache) (key : String) : MemoryCache × Option String :=
  match GoMap.get? c.items key with
  | none => (c, some ErrKeyNotFound)
  | some _ => ({ items := GoMap.delete c.items key }, none)

/-- `MemoryCache.Has`, at the instant `now`. -/
def MemoryCache.Has (c : MemoryCache) (now : Int) (key : String) : MemoryCache × Bool :=
  match GoMap.get? c.items key with
  | none => (c, false)
  | some item => (c, decide (now < item.expiration))

end Cache

/-! ### Concrete data for the worked instances of sessions and caches -/

namespace Session

/-- The session of a call of `Start` that succeeded. -/
def StartResult.session? {σ : Type} : StartResult σ → Option (session σ)
  | StartResult.failed _ _ _ _ => none
  | StartResult.started s _ _ _ => some s

/-- The response writer after a call of `Start`. -/
def StartResult.writer {σ : Type} : StartResult σ → ResponseWriter
  | StartResult.failed _ w _ _ => w
  | StartResult.started _ w _ _ => w

/-- The manager of `main.go`, on a memory store. -/
def demoManager : Manager MemoryStore :=
  NewManager memoryStore "go_laravel_session"

/-- A heap with no map object. -/
def emptyHeap : Heap :=
  { contents := fun _ => [], next := 0 }

/-- A heap with one map object, which holds the key `user`. -/
def demoHeap : Heap :=
  { contents := fun r => if r = 0 then [("user", GoValue.str "ann")] else [], next := 1 }

/-- A memory store that holds one session, for the token `token-1`, expiring
at instant 50; its data is the map object of `demoHeap`. -/
def demoStore : MemoryStore :=
  { sessions := [("token-1", { data := 0, expiration := 50 })] }

/-- The heap after `MemoryStore.Get` has copied the stored map of `token-1`
into a new map object. -/
def demoStartHeap : Heap :=
  (demoStore.Get demoHeap 10 "token-1").2.1

/-- A session with one key, as `Start` returns it on `demoStore` and
`demoHeap`: its data is the new map object of `demoStartHeap`. -/
def demoSession : session MemoryStore :=
  { id := "token-1", data := 1, store := memoryStore, written := false }

/-- A request that presents the session cookie with the value `token-1`. -/
def demoCookieRequest : Request :=
  { Method := "GET", Path := "/", Cookies := [("go_laravel_session", "token-1")] }

/-- Thirty-two bytes of entropy. -/
def demoEntropy : List Byte :=
  List.replicate 32 7

/-- A store whose every operation fails. -/
def failingStore : Store Unit :=
  { Get := fun st h _ _ => (st, h, Except.error "store unavailable"),
    Save := fun st h _ _ _ _ => (st, h, some "store unavailable"),
    Delete := fun st h _ _ => (st, h, some "store unavailable") }

end Session

namespace Cache

/-- A cache that holds one entry, for the key `a`, expiring at instant 50. -/
def demoCache : MemoryCache :=
  { items := [("a", { value := GoValue.int 1, expiration := 50 })] }

end Cache

namespace Session

/-- A session on the memory store, with the given identifier, map value and
dirty flag. -/
def memorySessionOf (id : String) (data : MapRef) (written : Bool) : session MemoryStore :=
  { id := id, data := data, store := memoryStore, written := written }

/-- The cookie that `Manager.Start` hands to `http.SetCookie` (lines 71 to 79). -/
def sessionCookie (cookieName sessionID : String) (now : Int) : Cookie :=
  { Name := cookieName, Value := sessionID, Path := "/", HttpOnly := true, Secure := true,
    SameSite := SameSite.lax, Expires := now + 24 * hour }

end Session

namespace Session

/-- A handler that writes the text `seen` to the response. -/
def markingHandler : Gola.Context → AppWorld MemoryStore → AppWorld MemoryStore :=
  fun _ w => { w with writer := w.writer.Write "seen" }

/-- A handler on the failing store that writes the text `seen` to the response. -/
def markingUnitHandler : Gola.Context → AppWorld Unit → AppWorld Unit :=
  fun _ w => { w with writer := w.writer.Write "seen" }

end Session

namespace Session

/-- The calls `s.Set(key, value)` and then `s.Save()` at the instant `now`. -/
def session.setThenSave {σ : Type} (s : session σ) (st : σ) (h : Heap) (key : String)
    (value : GoValue) (now : Int) : session σ × σ × Heap × Option String :=
  (s.Set h key value).1.Save st (s.Set h key value).2 now

/-- What `Get(key)` returns on the session of a call of `Start` that
succeeded, in the heap the call left. -/
def StartResult.value? {σ : Type} (res : StartResult σ) (key : String) : Option GoValue :=
  match res with
  | StartResult.failed _ _ _ _ => none
  | StartResult.started s _ _ h => some (s.Get h key).2

/-- The mapping held by the session of a call of `Start` that succeeded. -/
def StartResult.data? {σ : Type} (res : StartResult σ) : Option (GoMap GoValue) :=
  match res with
  | StartResult.failed _ _ _ _ => none
  | StartResult.started s _ _ h => some (h.read s.data)

end Session

/-! ### The background sweeps of the memory cache and the memory store -/

namespace Cache

/-- One iteration of the loop of `MemoryCache.cleanup` (lines 99 to 108), at
the instant `now`: ranges over the entries and deletes the key of each entry
whose expiration `now` is after. -/
def MemoryCache.cleanup (c : MemoryCache) (now : Int) : MemoryCache :=
  { items := c.items.foldl
      (fun m e => if now > e.2.expiration then GoMap.delete m e.1 else m) c.items }

end Cache

namespace Session

/-- One iteration of the loop of `MemoryStore.cleanup` (lines 200 to 209), at
the instant `now`. -/
def MemoryStore.cleanup (s : MemoryStore) (now : Int) : MemoryStore :=
  { sessions := s.sessions.foldl
      (fun m e => if now > e.2.expiration then GoMap.delete m e.1 else m) s.sessions }

end Session

namespace Session

/-- A dirty session on the store whose every operation fails. -/
def failingSession : session Unit :=
  { id := "token-1", data := 0, store := failingStore, written := true }

end Session

/-! ### Go's `strings` and `path/filepath` packages (the functions used below)

Text is a sequence of characters. Go indexes a string by byte; every offset
that the modelled code adds to an index spans ASCII text, for which the two
coincide, and the worked instances are ASCII. -/

namespace Strings

/-- The function `unicode.IsSpace`. -/
def isSpace (c : Char) : Bool :=
  let n := c.toNat
  (9 ≤ n && n ≤ 13) || n = 32 || n = 133 || n = 160 || n = 5760 ||
    (8192 ≤ n && n ≤ 8202) || n = 8232 || n = 8233 || n = 8239 || n = 8287 || n = 12288

/-- The position of the first occurrence of `sep` in `s`, counted from
`i`, or `-1`. -/
def indexFrom (sep : List Char) : List Char → Nat → Int
  | [], i => if sep = [] then (i : Int) else -1
  | c :: t, i => if sep.isPrefixOf (c :: t) then (i : Int) else indexFrom sep t (i + 1)

/-- The function `strings.Index`. -/
def Index (s sep : String) : Int :=
  indexFrom sep.data s.data 0

/-- The function `strings.Contains`. -/
def Contains (s sep : String) : Bool :=
  decide (0 ≤ Index s sep)

/-- The function `strings.HasSuffix`. -/
def HasSuffix (s suffix : String) : Bool :=
  suffix.data.isSuffixOf s.data

/-- The function `strings.TrimSuffix`. -/
def TrimSuffix (s suffix : String) : String :=
  if suffix.data.isSuffixOf s.data then String.mk (s.data.take (s.data.length - suffix.data.length))
  else s

/-- The pieces of a text between the occurrences of a separator character. -/
def splitChars (sep : Char) : List Char → List (List Char)
  | [] => [[]]
  | c :: t =>
    if c = sep then [] :: splitChars sep t
    else
      match splitChars sep t with
      | h :: r => (c :: h) :: r
      | [] => [[c]]

/-- The function `strings.Split` for a separator of one character. -/
def Split (s : String) (sep : Char) : List String :=
  (splitChars sep s.data).map String.mk

/-- The text before the first occurrence of a separator character, and the
text after it when there is one. -/
def cutChars (sep : Char) : List Char → List Char × Option (List Char)
  | [] => ([], none)
  | c :: t => if c = sep then ([], some t) else (c :: (cutChars sep t).1, (cutChars sep t).2)

/-- The function `strings.SplitN(s, sep, 2)` for a separator of one character. -/
def SplitN2 (s : String) (sep : Char) : List String :=
  match cutChars sep s.data with
  | (a, none) => [String.mk a]
  | (a, some b) => [String.mk a, String.mk b]

/-- Removes from both ends the characters that satisfy `p`. -/
def trimChars (p : Char → Bool) (s : List Char) : List Char :=
  ((s.dropWhile p).reverse.dropWhile p).reverse

/-- The function `strings.TrimSpace`. -/
def TrimSpace (s : String) : String :=
  String.mk (trimChars isSpace s.data)

/-- The function `strings.Trim`. -/
def Trim (s cutset : String) : String :=
  String.mk (trimChars (fun c => cutset.data.contains c) s.data)

/-- Replaces the occurrences of `old`, left to right and without overlap;
`skip` counts the characters of an occurrence still to pass over. -/
def replaceFrom (old new : List Char) : Nat → List Char → List Char
  | _, [] => []
  | n + 1, _ :: t => replaceFrom old new n t
  | 0, c :: t =>
    if old.isPrefixOf (c :: t) then new ++ replaceFrom old new (old.length - 1) t
    else c :: replaceFrom old new 0 t

/-- The function `strings.ReplaceAll`, for a text `old` that is not empty. -/
def ReplaceAll (s old new : String) : String :=
  String.mk (replaceFrom old.data new.data 0 s.data)

/-- The slice expression `s[lo:hi]`; `none` stands for the run-time panic
`slice bounds out of range`. -/
def slice (s : String) (lo hi : Int) : Option String :=
  if 0 ≤ lo ∧ lo ≤ hi ∧ hi ≤ (s.data.length : Int) then
    some (String.mk ((s.data.drop lo.toNat).take (hi.toNat - lo.toNat)))
  else none

end Strings

namespace Filepath

/-- The loop of `filepath.Clean` over the elements of a path: an empty
element and `.` are dropped, `..` removes the element before it, is dropped
at the root, and is kept at the start of a relative path. The stack holds
the elements kept so far, last first. -/
def cleanElems (rooted : Bool) : List (List Char) → List (List Char) → List (List Char)
  | [], stack => stack
  | e :: rest, stack =>
    if e = [] ∨ e = ['.'] then cleanElems rooted rest stack
    else if e = ['.', '.'] then
      match stack with
      | top :: below =>
        if top = ['.', '.'] then cleanElems rooted rest (e :: stack)
        else cleanElems rooted rest below
      | [] => if rooted then cleanElems rooted rest [] else cleanElems rooted rest [e]
    else cleanElems rooted rest (e :: stack)

/-- Joins elements with slashes. -/
def joinElems : List (List Char) → List Char
  | [] => []
  | [e] => e
  | e :: f :: rest => e ++ '/' :: joinElems (f :: rest)

/-- The function `filepath.Clean` (with `/` as the separator). -/
def Clean (path : String) : String :=
  let rooted := path.data.head? = some '/'
  let body := joinElems (cleanElems rooted (Strings.splitChars '/' path.data) []).reverse
  if rooted then String.mk ('/' :: body)
  else if body = [] then "." else String.mk body

/-- The function `filepath.Join`: empty elements are ignored and the result
is cleaned; the result is empty when every element is empty. -/
def Join (elem : List String) : String :=
  match elem.filter (fun e => e ≠ "") with
  | [] => ""
  | es => Clean (String.mk (joinElems (es.map String.data)))

/-- The function `filepath.Base`. -/
def Base (path : String) : String :=
  if path = "" then "."
  else
    let p := (path.data.reverse.dropWhile (fun c => c = '/')).reverse
    match (Strings.splitChars '/' p).getLast? with
    | some (c :: t) => String.mk (c :: t)
    | _ => "/"

/-- The function `filepath.Ext`: the suffix that starts at the last dot of
the last element of the path, empty when that element has no dot. -/
def Ext (path : String) : String :=
  match (Strings.splitChars '/' path.data).getLast? with
  | none => ""
  | some last =>
    match Strings.splitChars '.' last with
    | [] => ""
    | [_] => ""
    | parts => String.mk ('.' :: parts.getLast?.getD [])

end Filepath

/-! ### `pkg/database/migrator.go`

The database is the table `migrations` and a log of the statements of
migration files that were executed; a statement is executed unless it is one
of those the database rejects. The file system is a set of directories and
of files with their text. Console output is a list of lines. -/

namespace Database

/-- The struct `Migration` (the column `created_at` plays no part). -/
structure Migration where
  ID : Int
  Name : String
  Batch : Int
  deriving DecidableEq, Repr

/-- The database behind `*sql.DB`. -/
structure Db where
  hasTable : Bool
  rows : List Migration
  nextID : Int
  executed : List String
  rejects : List String
  deriving DecidableEq, Repr

/-- An entry of a directory: a name, and whether it is a directory. -/
structure DirEntry where
  name : String
  isDir : Bool
  deriving DecidableEq, Repr

/-- The file system: directories by path, and the text of files by path. -/
structure FileSystem where
  dirs : GoMap (List DirEntry)
  files : GoMap String

/-- What the migrator acts on: the database and the console. -/
structure State where
  db : Db
  out : List String
  deriving DecidableEq, Repr

/-- `m.db.Exec(statement)` for a statement of a migration file. -/
def Db.Exec (db : Db) (statement : String) : Db × Option String :=
  if db.rejects.contains statement then (db, some "rejected")
  else ({ db with executed := db.executed ++ [statement] }, none)

/-- `CreateMigrationsTable`: `CREATE TABLE IF NOT EXISTS migrations`. -/
def CreateMigrationsTable (db : Db) : Db × Option String :=
  ({ db with hasTable := true }, none)

/-- `GetRunMigrations`: the rows of the table in the order of their ids. -/
def GetRunMigrations (db : Db) : Except String (List Migration) :=
  if db.hasTable then Except.ok db.rows else Except.error "table migrations does not exist"

/-- `GetNextBatchNumber`. -/
def GetNextBatchNumber (db : Db) : Except String Int :=
  if db.hasTable then
    match db.rows.map (fun r => r.Batch) with
    | [] => Except.ok 1
    | b :: bs => Except.ok (bs.foldl max b + 1)
  else Except.error "table migrations does not exist"

/-- The statement `INSERT INTO migrations (name, batch) VALUES (?, ?)`: the
column `name` is unique. -/
def insertMigration (db : Db) (name : String) (batch : Int) : Db × Option String :=
  if ¬ db.hasTable then (db, some "table migrations does not exist")
  else if db.rows.any (fun r => r.Name = name) then (db, some "duplicate entry")
  else ({ db with rows := db.rows ++ [{ ID := db.nextID, Name := name, Batch := batch }],
                  nextID := db.nextID + 1 }, none)

/-- The statement `DELETE FROM migrations WHERE name = ?`. -/
def deleteMigration (db : Db) (name : String) : Db × Option String :=
  if ¬ db.hasTable then (db, some "table migrations does not exist")
  else ({ db with rows := db.rows.filter (fun r => r.Name ≠ name) }, none)

/-- `os.ReadFile`. -/
def ReadFile (fs : FileSystem) (path : String) : Except String String :=
  match GoMap.get? fs.files path with
  | some text => Except.ok text
  | none => Except.error ("open " ++ path ++ ": no such file or directory")

/-- Whether `os.Stat` finds the path. -/
def exists? (fs : FileSystem) (path : String) : Bool :=
  (GoMap.get? fs.files path).isSome || (GoMap.get? fs.dirs path).isSome

/-- Go's order of strings, `s < t`: lexicographic by byte, which for UTF-8
text is lexicographic by character code. -/
def lessChars : List Char → List Char → Bool
  | _, [] => false
  | [], _ :: _ => true
  | a :: s, b :: t =>
    if a.toNat < b.toNat then true
    else if b.toNat < a.toNat then false
    else lessChars s t

/-- Inserts a name into a sorted list of names. -/
def insertName (x : String) : List String → List String
  | [] => [x]
  | y :: t => if lessChars y.data x.data then y :: insertName x t else x :: y :: t

/-- The function `sort.Strings`. -/
def sortStrings (xs : List String) : List String :=
  xs.foldr insertName []

/-- `GetMigrationFiles`: the names of the entries of the directory that are
not directories and end in `.sql`, sorted. -/
def GetMigrationFiles (fs : FileSystem) (migrationsPath : String) : Except String (List String) :=
  match GoMap.get? fs.dirs migrationsPath with
  | none => Except.error ("open " ++ migrationsPath ++ ": no such file or directory")
  | some files =>
    Except.ok (sortStrings
      ((files.filter fun file => !file.isDir && Strings.HasSuffix file.name ".sql").map
        fun file => file.name))

/-- `GetPendingMigrations`: the names that are not the name of a migration
of the table followed by `.sql`. -/
def GetPendingMigrations (allMigrations : List String) (runMigrations : List Migration) :
    List String :=
  allMigrations.filter fun migration =>
    !(runMigrations.map fun r => r.Name ++ ".sql").contains migration

/-- The loop of `RunMigrationFile` and of `RollbackMigrations` over the
statements of a file: executes the statements that are not blank, up to the
first one that fails. -/
def execStatements (db : Db) : List String → Db × Option String
  | [] => (db, none)
  | statement :: rest =>
    if Strings.TrimSpace statement = "" then execStatements db rest
    else
      match db.Exec (Strings.TrimSpace statement) with
      | (db1, some err) =>
        (db1, some ("failed to execute SQL: " ++ err ++ "\nSQL: " ++ Strings.TrimSpace statement))
      | (db1, none) => execStatements db1 rest

/-- The name under which `RunMigrationFile` records a file (line 151). -/
def migrationName (filePath : String) : String :=
  Strings.TrimSuffix (Filepath.Base filePath) (Filepath.Ext filePath)

/-- `RunMigrationFile`. -/
def RunMigrationFile (fs : FileSystem) (db : Db) (filePath : String) (batch : Int) :
    Db × Option String :=
  match ReadFile fs filePath with
  | Except.error err => (db, some err)
  | Except.ok sql =>
    match execStatements db (Strings.Split sql ';') with
    | (db1, some err) => (db1, some err)
    | (db1, none) => insertMigration db1 (migrationName filePath) batch

/-- The loop of `RunMigrations` over the pending files (lines 113 to 120). -/
def runPending (fs : FileSystem) (migrationsPath : String) (batch : Int) :
    State → List String → State × Option String
  | s, [] => (s, none)
  | s, migrationFile :: rest =>
    let s1 : State := { s with out := s.out ++ ["Running migration: " ++ migrationFile] }
    match RunMigrationFile fs s1.db (Filepath.Join [migrationsPath, migrationFile]) batch with
    | (db1, some err) =>
      ({ s1 with db := db1 }, some ("failed to run migration " ++ migrationFile ++ ": " ++ err))
    | (db1, none) => runPending fs migrationsPath batch { s1 with db := db1 } rest

/-- `RunMigrations`. -/
def RunMigrations (fs : FileSystem) (s : State) (migrationsPath : String) :
    State × Option String :=
  match CreateMigrationsTable s.db with
  | (db1, some err) =>
    ({ s with db := db1 }, some ("failed to create migrations table: " ++ err))
  | (db1, none) =>
    match GetRunMigrations db1 with
    | Except.error err =>
      ({ s with db := db1 }, some ("failed to get run migrations: " ++ err))
    | Except.ok runMigrations =>
      match GetMigrationFiles fs migrationsPath with
      | Except.error err =>
        ({ s with db := db1 }, some ("failed to get migration files: " ++ err))
      | Except.ok migrationFiles =>
        let pendingMigrations := GetPendingMigrations migrationFiles runMigrations
        if pendingMigrations.length = 0 then
          ({ db := db1, out := s.out ++ ["No pending migrations."] }, none)
        else
          match GetNextBatchNumber db1 with
          | Except.error err =>
            ({ s with db := db1 }, some ("failed to get next batch number: " ++ err))
          | Except.ok batch =>
            match runPending fs migrationsPath batch { s with db := db1 } pendingMigrations with
            | (s2, some err) => (s2, some err)
            | (s2, none) =>
              ({ s2 with out := s2.out ++
                  ["Ran " ++ toString pendingMigrations.length ++ " migrations successfully."] },
                none)

/-- The path of the down script that `RollbackMigrations` looks up for a
recorded migration (lines 191 and 192). -/
def downPath (migrationsPath migration : String) : String :=
  Filepath.Join [migrationsPath, migration ++ "_down.sql"]

/-- The loop of `RollbackMigrations` over the migrations of the last batch
(lines 187 to 223). -/
def rollbackEach (fs : FileSystem) (migrationsPath : String) :
    State → List String → State × Option String
  | s, [] => (s, none)
  | s, migration :: rest =>
    let s1 : State := { s with out := s.out ++ ["Rolling back migration: " ++ migration] }
    if ¬ exists? fs (downPath migrationsPath migration) then
      (s1, some ("down migration file not found: " ++ downPath migrationsPath migration))
    else
      match ReadFile fs (downPath migrationsPath migration) with
      | Except.error err => (s1, some err)
      | Except.ok sql =>
        match execStatements s1.db (Strings.Split sql ';') with
        | (db1, some err) => ({ s1 with db := db1 }, some err)
        | (db1, none) =>
          match deleteMigration db1 migration with
          | (db2, some err) =>
            ({ s1 with db := db2 }, some ("failed to delete migration record: " ++ err))
          | (db2, none) => rollbackEach fs migrationsPath { s1 with db := db2 } rest

/-- `RollbackMigrations`: the migrations of the highest batch, newest first. -/
def RollbackMigrations (fs : FileSystem) (s : State) (migrationsPath : String) :
    State × Option String :=
  if ¬ s.db.hasTable then (s, some "failed to get last batch: table migrations does not exist")
  else
    match s.db.rows.map (fun r => r.Batch) with
    | [] => (s, some "failed to get last batch: converting NULL to int is unsupported")
    | b :: bs =>
      let lastBatch := bs.foldl max b
      let migrations :=
        ((s.db.rows.filter fun r => r.Batch = lastBatch).map fun r => r.Name).reverse
      if migrations.length = 0 then
        ({ s with out := s.out ++ ["No migrations to rollback."] }, none)
      else
        match rollbackEach fs migrationsPath s migrations with
        | (s2, some err) => (s2, some err)
        | (s2, none) =>
          ({ s2 with out := s2.out ++
              ["Rolled back " ++ toString migrations.length ++ " migrations successfully."] },
            none)

/-- The directory `database/migrations` with the pair of files that
`make:migration` writes for the migration `20240101120000_user`. -/
def demoFiles : FileSystem :=
  { dirs := [("database/migrations",
      [{ name := "20240101120000_user_down.sql", isDir := false },
       { name := "20240101120000_user_up.sql", isDir := false }])],
    files := [
      ("database/migrations/20240101120000_user_down.sql", "DROP TABLE IF EXISTS users;\n"),
      ("database/migrations/20240101120000_user_up.sql",
        "CREATE TABLE users (id INT);\n")] }

/-- A database on which no migration has run. -/
def emptyDb : Db :=
  { hasTable := false, rows := [], nextID := 1, executed := [], rejects := [] }

/-- The state before the first command. -/
def emptyState : State :=
  { db := emptyDb, out := [] }

end Database

/-! ### `pkg/views/blade.go`

`RenderBlade` builds the text of a template from a view file and hands it to
`html/template`. The model follows the construction of that text; parsing
and executing the template is a parameter. -/

namespace Views

/-- The text of a file as `ioutil.ReadFile` returns it when the error is
ignored: empty for a file that cannot be read. -/
def readText (files : GoMap String) (path : String) : String :=
  (GoMap.get? files path).getD ""

/-- The name of the layout (line 19): the first line of the view without its
first ten and its last two characters, and without quotes at its ends.
`none` stands for the run-time panic of a slice out of range. -/
def layoutName (content : String) : Option String :=
  match (Strings.Split content '\n').head? with
  | none => none
  | some first =>
    match Strings.slice first ("@extends('".length : Int) ((first.length : Int) - 2) with
    | none => none
    | some name => some (Strings.Trim name "'")

/-- The content block (lines 23 to 25): the text of the view from 18
characters after the start of `@section('content')` up to the start of
`@endsection`. -/
def contentBlock (content : String) : Option String :=
  Strings.slice content (Strings.Index content "@section('content')" + 18)
    (Strings.Index content "@endsection")

/-- The title (lines 31 and 32): the text of the view from 17 characters
after the start of `@section('title'` up to the first closing parenthesis of
the view. -/
def titleText (content : String) : Option String :=
  Strings.slice content (Strings.Index content "@section('title'" + 17)
    (Strings.Index content ")")

/-- The text that `RenderBlade` hands to the template parser (lines 13 to
35), for the files under `resources/views/`; `none` stands for a run-time
panic. -/
def bladeSource (files : GoMap String) (view : String) : Option String :=
  let content := readText files ("resources/views/" ++ view)
  if Strings.Contains content "@extends" then
    match layoutName content with
    | none => none
    | some layout =>
      match contentBlock content with
      | none => none
      | some block =>
        let tplStr := Strings.ReplaceAll (readText files ("resources/views/" ++ layout ++ ".html"))
          "@yield('content')" block
        if Strings.Index content "@section('title'" ≠ -1 then
          match titleText content with
          | none => none
          | some title => some (Strings.ReplaceAll tplStr "@yield('title')" title)
        else some tplStr
  else some content

/-- `RenderBlade`: `execute` stands for parsing the text as a template and
executing it on the data, `none` for a run-time panic. -/
def RenderBlade (execute : String → GoMap GoValue → Option String) (files : GoMap String)
    (w : ResponseWriter) (view : String) (data : GoMap GoValue) : Option ResponseWriter :=
  match bladeSource files view with
  | none => none
  | some tplStr =>
    match execute tplStr data with
    | none => none
    | some text => some (w.Write text)

/-- A view that extends the layout `layout` and has a content section. -/
def demoView : String :=
  "@extends('layout')\n@section('content')\n<p>Hello</p>\n@endsection\n"

/-- A view that extends the layout `layout` and has a title declaration and
a content section. -/
def demoTitledView : String :=
  "@extends('layout')\n@section('title', 'Home')\n@section('content')\n<p>Hello</p>\n@endsection\n"

/-- The layout `layout.html`. -/
def demoLayout : String :=
  "<title>@yield('title')</title><body>@yield('content')</body>"

/-- The files under `resources/views/`. -/
def demoViews : GoMap String :=
  [("resources/views/home.html", demoView), ("resources/views/titled.html", demoTitledView),
   ("resources/views/layout.html", demoLayout)]

/-- A template engine that returns the text of the template as it is. -/
def echoTemplate : String → GoMap GoValue → Option String :=
  fun tplStr _ => some tplStr

end Views

/-! ### `pkg/validation/validator.go`

A value of `interface{}` is modelled by the dynamic types that the
validator's type switches tell apart. The two regular expressions are given
as the expressions that `regexp/syntax` parses from their patterns and are
run by the matcher of the `regexp` model above. -/

namespace Validation

/-- The characters `0` to `9`. -/
def isDigit (c : Char) : Bool :=
  decide ('0'.toNat ≤ c.toNat) && decide (c.toNat ≤ '9'.toNat)

/-- A `float64`: not a number, an infinity, or a finite value. -/
inductive Float64 where
  | nan : Float64
  | inf (negative : Bool) : Float64
  | finite (q : ℚ) : Float64

/-- A value of `interface{}` as the validator sees it: nil, a `string`, an
`int`, a `float64`, a value of another integer or floating-point type
(`int8` to `int64`, `uint` to `uint64`, `float32`), or a value of any other
dynamic type. -/
inductive Value where
  | nil : Value
  | str (s : String) : Value
  | int (n : Int) : Value
  | float64 (x : Float64) : Value
  | number : Value
  | other : Value

/-- The conversion `float64(n)` of an `int`: exact below `2^53` in absolute
value, rounded to 53 significant bits, ties to even, above. -/
def float64OfInt (n : Int) : Int :=
  let a := n.natAbs
  if a < 2 ^ 53 then n
  else
    let shift := (List.range 11).countP fun k => decide (2 ^ (53 + k) ≤ a)
    let q := a / 2 ^ shift
    let r := a % 2 ^ shift
    let q1 := if 2 ^ (shift - 1) < r ∨ (r = 2 ^ (shift - 1) ∧ q % 2 = 1) then q + 1 else q
    if n < 0 then -((q1 * 2 ^ shift : Nat) : Int) else ((q1 * 2 ^ shift : Nat) : Int)

/-- The comparison `x >= float64(n)`. -/
def Float64.geInt (x : Float64) (n : Int) : Bool :=
  match x with
  | Float64.nan => false
  | Float64.inf negative => !negative
  | Float64.finite q => decide (((float64OfInt n : Int) : ℚ) ≤ q)

/-- The comparison `x <= float64(n)`. -/
def Float64.leInt (x : Float64) (n : Int) : Bool :=
  match x with
  | Float64.nan => false
  | Float64.inf negative => negative
  | Float64.finite q => decide (q ≤ ((float64OfInt n : Int) : ℚ))

/-- The loop of `SkipSpace` of `fmt` for `Sscanf`: passes over spaces; a
newline is an error. -/
def skipSpace : List Char → Option (List Char)
  | [] => some []
  | c :: t =>
    if c = Regexp.chNewline then none
    else if Strings.isSpace c then skipSpace t
    else some (c :: t)

/-- The value of a text of decimal digits. -/
def decimal (ds : List Char) : Nat :=
  ds.foldl (fun acc d => acc * 10 + (d.toNat - '0'.toNat)) 0

/-- `parseInt`: what `fmt.Sscanf(s, "%d", &n)` leaves in `n`. Leading spaces
are passed over, then an optional sign and the decimal digits that follow
are read; `n` stays 0 when there is no digit, when a newline comes first, or
when the number is outside the range of a 64-bit `int`. -/
def parseInt (s : String) : Int :=
  match skipSpace s.data with
  | none => 0
  | some rest =>
    let negative := rest.head? = some '-'
    let body := if rest.head? = some '-' ∨ rest.head? = some '+' then rest.tail else rest
    let ds := body.takeWhile isDigit
    if ds = [] then 0
    else
      let v : Int := if negative then -(decimal ds : Int) else (decimal ds : Int)
      if -(2 ^ 63 : Int) ≤ v ∧ v < (2 ^ 63 : Int) then v else 0

/-- The bracket expression `[0-9]`, as `\d` is parsed. -/
def digitClass : Regexp.Regex :=
  Regexp.Regex.cls false [('0', '9')]

/-- The expression parsed from the pattern `^\-?\d+(\.\d+)?$` of `validateNumeric`. -/
def numericRegex : Regexp.Regex :=
  Regexp.mkCat [Regexp.Regex.beginText,
    Regexp.Regex.quest true (Regexp.Regex.lit '-'),
    Regexp.Regex.plus true digitClass,
    Regexp.Regex.quest true (Regexp.Regex.capture 1
      (Regexp.mkCat [Regexp.Regex.lit '.', Regexp.Regex.plus true digitClass])),
    Regexp.Regex.endText]

/-- The bracket expression `[a-z]`. -/
def lowerClass : Regexp.Regex :=
  Regexp.Regex.cls false [('a', 'z')]

/-- The expression parsed from the pattern
`^[a-z0-9._%+\-]+@[a-z0-9.\-]+\.[a-z]{2,4}$` of `validateEmail`; the
counted repetition is written out as two letters followed by up to two more. -/
def emailRegex : Regexp.Regex :=
  Regexp.mkCat [Regexp.Regex.beginText,
    Regexp.Regex.plus true (Regexp.Regex.cls false
      [('a', 'z'), ('0', '9'), ('.', '.'), ('_', '_'), ('%', '%'), ('+', '+'), ('-', '-')]),
    Regexp.Regex.lit '@',
    Regexp.Regex.plus true (Regexp.Regex.cls false
      [('a', 'z'), ('0', '9'), ('.', '.'), ('-', '-')]),
    Regexp.Regex.lit '.',
    lowerClass, lowerClass,
    Regexp.Regex.quest true (Regexp.mkCat [lowerClass, Regexp.Regex.quest true lowerClass]),
    Regexp.Regex.endText]

/-- Model of `(*Regexp).MatchString`: whether the text has a match. -/
def MatchString (re : Regexp.Regex) (text : String) : Bool :=
  (Regexp.searchFrom re text.data.length text.data).isSome

/-- The struct `Validator`. -/
structure Validator where
  Data : GoMap Value
  Errors : GoMap (List String)

/-- `NewValidator`. -/
def NewValidator (data : GoMap Value) : Validator :=
  { Data := data, Errors := [] }

/-- `validateRequired`. -/
def validateRequired (value : Value) : Bool :=
  match value with
  | Value.nil => false
  | Value.str s => decide (Strings.TrimSpace s ≠ "")
  | _ => true

/-- `validateEmail`. -/
def validateEmail (value : Value) : Bool :=
  match value with
  | Value.str s => MatchString emailRegex s
  | _ => false

/-- `validateMin`. -/
def validateMin (value : Value) (minStr : String) : Bool :=
  match value with
  | Value.str val => decide (parseInt minStr ≤ (val.length : Int))
  | Value.int val => decide (parseInt minStr ≤ val)
  | Value.float64 val => val.geInt (parseInt minStr)
  | _ => false

/-- `validateMax`. -/
def validateMax (value : Value) (maxStr : String) : Bool :=
  match value with
  | Value.str val => decide ((val.length : Int) ≤ parseInt maxStr)
  | Value.int val => decide (val ≤ parseInt maxStr)
  | Value.float64 val => val.leInt (parseInt maxStr)
  | _ => false

/-- `validateNumeric`. -/
def validateNumeric (value : Value) : Bool :=
  match value with
  | Value.int _ => true
  | Value.float64 _ => true
  | Value.number => true
  | Value.str s => MatchString numericRegex s
  | _ => false

/-- `addError`. -/
def Validator.addError (v : Validator) (field message : String) : Validator :=
  { v with Errors := GoMap.set v.Errors field ((GoMap.get? v.Errors field).getD [] ++ [message]) }

/-- The name of a rule: the text before its first colon (`parts[0]`). -/
def ruleName (rule : String) : String :=
  (Strings.SplitN2 rule ':').headD ""

/-- The argument of a rule: the text after its first colon, empty when
there is no colon. -/
def ruleValue (rule : String) : String :=
  (Strings.SplitN2 rule ':').tail.headD ""

/-- The body of the inner loop of `Validate` (lines 29 to 63) for one rule
of a field. -/
def Validator.applyRule (v : Validator) (field : String) (value : Value) (found : Bool)
    (rule : String) : Validator :=
  if found = false ∧ ruleName rule ≠ "required" then v
  else if ruleName rule = "required" then
    if validateRequired value then v
    else v.addError field ("The " ++ field ++ " field is required")
  else if ruleName rule = "email" then
    if validateEmail value then v
    else v.addError field ("The " ++ field ++ " must be a valid email address")
  else if ruleName rule = "min" then
    if validateMin value (ruleValue rule) then v
    else v.addError field
      ("The " ++ field ++ " must be at least " ++ ruleValue rule ++ " characters")
  else if ruleName rule = "max" then
    if validateMax value (ruleValue rule) then v
    else v.addError field
      ("The " ++ field ++ " may not be greater than " ++ ruleValue rule ++ " characters")
  else if ruleName rule = "numeric" then
    if validateNumeric value then v
    else v.addError field ("The " ++ field ++ " must be a number")
  else v

/-- The body of the outer loop of `Validate` (lines 25 to 64) for one field. -/
def Validator.applyField (v : Validator) (field ruleStr : String) : Validator :=
  (Strings.Split ruleStr '|').foldl
    (fun v1 rule =>
      v1.applyRule field ((GoMap.get? v.Data field).getD Value.nil)
        (GoMap.get? v.Data field).isSome rule)
    v

/-- `Validate`: the validator after the call, and the result. -/
def Validator.Validate (v : Validator) (rules : GoMap String) : Validator × Bool :=
  let v1 := rules.foldl (fun v0 e => v0.applyField e.1 e.2) v
  (v1, decide (v1.Errors.length = 0))

/-- Text of the form: an optional `-`, digits, and optionally a `.` followed
by digits. -/
def numericText (s : List Char) : Bool :=
  let body := if s.head? = some '-' then s.tail else s
  let rest := body.dropWhile isDigit
  decide (body.takeWhile isDigit ≠ []) &&
    (decide (rest = []) ||
      (decide (rest.head? = some '.') && decide (rest.tail ≠ []) && rest.tail.all isDigit))

/-- The rules of a field: the pieces of the rule text between vertical bars. -/
def rulesOf (ruleStr : String) : List String :=
  (ruleStr.data.splitOn '|').map String.mk

/-- The name of a rule: its text up to the first colon. -/
def nameOf (rule : String) : String :=
  String.mk (rule.data.takeWhile fun c => c ≠ ':')

/-- The argument of a rule: its text after the first colon, empty when the
rule has no colon. -/
def argumentOf (rule : String) : String :=
  String.mk ((rule.data.dropWhile fun c => c ≠ ':').drop 1)

/-- The number `N` of a rule `min:N` or `max:N`: the integer that the
argument writes in decimal, with an optional sign, after leading white space
other than a newline; what follows the digits is not read. It is 0 when no
integer is written there or when the integer does not fit in 64 bits. -/
def numberOf (argument : String) : Int :=
  let text := argument.data.dropWhile fun c => Strings.isSpace c && c ≠ Char.ofNat 10
  let unsigned := if text.head? = some '-' ∨ text.head? = some '+' then text.tail else text
  let digits := unsigned.takeWhile isDigit
  let n : Int := (Nat.ofDigits 10 (digits.reverse.map fun c => c.toNat - '0'.toNat) : Nat)
  let signed : Int := if text.head? = some '-' then -n else n
  if digits ≠ [] ∧ -(2 ^ 63 : Int) ≤ signed ∧ signed < (2 ^ 63 : Int) then signed else 0

/-- A string is blank: all its characters are white space. -/
def blank (s : String) : Bool :=
  s.data.all Strings.isSpace

/-- Whether a rule of a field passes. For a field that is absent from the
data, `required` fails and every other rule is skipped. For a field that is
present: `required` passes when the value is not nil and, if a string, not
blank; `min:N` and `max:N` compare `N` with the number of characters of a
string or with an `int` or `float64` value and fail for any other type;
`numeric` passes for the numeric types and for numeric text; `email` passes
for a string that matches the address pattern; any other rule name passes. -/
def rulePasses (data : GoMap Value) (field rule : String) : Bool :=
  match GoMap.get? data field with
  | none => decide (nameOf rule ≠ "required")
  | some value =>
    if nameOf rule = "required" then
      match value with
      | Value.nil => false
      | Value.str s => !blank s
      | _ => true
    else if nameOf rule = "email" then
      match value with
      | Value.str s => MatchString emailRegex s
      | _ => false
    else if nameOf rule = "min" then
      match value with
      | Value.str s => decide (numberOf (argumentOf rule) ≤ (s.length : Int))
      | Value.int n => decide (numberOf (argumentOf rule) ≤ n)
      | Value.float64 x => x.geInt (numberOf (argumentOf rule))
      | _ => false
    else if nameOf rule = "max" then
      match value with
      | Value.str s => decide ((s.length : Int) ≤ numberOf (argumentOf rule))
      | Value.int n => decide (n ≤ numberOf (argumentOf rule))
      | Value.float64 x => x.leInt (numberOf (argumentOf rule))
      | _ => false
    else if nameOf rule = "numeric" then
      match value with
      | Value.int _ => true
      | Value.float64 _ => true
      | Value.number => true
      | Value.str s => numericText s.data
      | _ => false
    else true

/-- The failing rules of a field, in the order of the rule text. -/
def failingRules (data : GoMap Value) (field ruleStr : String) : List String :=
  (rulesOf ruleStr).filter fun rule => !rulePasses data field rule

/-- Data of a form: a name, an age, a blank note and a quantity. -/
def demoData : GoMap Value :=
  [("name", Value.str "Ann"), ("age", Value.str "4x"), ("note", Value.str "  "),
   ("quantity", Value.int 12)]

/-- Rules for the form. -/
def demoRules : GoMap String :=
  [("name", "required|min:2|max:10"), ("age", "required|numeric|unknown"),
   ("note", "required"), ("email", "email|min:3"), ("quantity", "min:3|max:10")]

end Validation

namespace Validation

end Validation

namespace Validation

end Validation

/-! ### Reading a template as literal characters and placeholders -/

namespace Routing

/-- A character of a placeholder name: a letter, a digit or an underscore. -/
def isNameLetter (c : Char) : Bool :=
  (decide ('a' ≤ c) && decide (c ≤ 'z')) || (decide ('A' ≤ c) && decide (c ≤ 'Z')) ||
    (decide ('0' ≤ c) && decide (c ≤ '9')) || decide (c = '_')

/-- Whether the text of the pieces begins with a character of a name. -/
def startsWithNameLetter : List Token → Bool
  | Token.lit c :: _ => isNameLetter c
  | _ => false

/-- Whether a sequence of pieces is the way a template is read: the name of
every placeholder is a non-empty run of letters, digits and underscores that
is not continued by the next character of the template, and no colon outside
a placeholder is followed by a character of a name. -/
def wellRead : List Token → Bool
  | [] => true
  | Token.lit c :: ts => (c ≠ ':' || !startsWithNameLetter ts) && wellRead ts
  | Token.param n :: ts =>
    !n.isEmpty && n.all isNameLetter && !startsWithNameLetter ts && wellRead ts

/-- The pieces `toks` are the reading of the template text: written out
(a placeholder as a colon and its name) they give the text, and they are well
read. -/
def Reading (toks : List Token) (template : List Char) : Prop :=
  wellRead toks = true ∧ toks.flatMap Token.source = template

/-- The names of the placeholders of a reading, in the order they appear. -/
def placeholderNames (toks : List Token) : List String :=
  toks.filterMap fun t =>
    match t with
    | Token.param n => some (String.mk n)
    | Token.lit _ => none

end Routing

/-! ## Part 2. Theorems -/

namespace Routing

open Regexp


/-! ### The dispatch loop -/

/-- The wrapping loop applies the first middleware of the list outermost. -/
theorem applyMiddlewares_foldr (ms : List MiddlewareFunc) (h : Handler) :
    applyMiddlewares ms h = ms.foldr (fun m g => m g) h := by
  unfold applyMiddlewares
  rw [List.foldl_reverse]

/-- Routes that do not match the request are passed over by the dispatch loop. -/
theorem serveRoutes_skip (r : Router) (req : Request) (w : World) (pre rest : List Route)
    (hpre : ∀ x ∈ pre, x.accepts req = false) :
    serveRoutes r req w (pre ++ rest) = serveRoutes r req w rest := by
  induction pre with
  | nil => rfl
  | cons x xs ih =>
    have hx := hpre x (List.mem_cons_self _ _)
    have hxs : ∀ y ∈ xs, y.accepts req = false := fun y hy => hpre y (List.mem_cons_of_mem _ hy)
    simp only [List.cons_append, serveRoutes]
    by_cases hm : x.method = req.Method
    · simp only [hm, ne_eq, not_true_eq_false, if_false]
      cases hf : Regexp.FindStringSubmatch x.pattern req.Path.data with
      | none => simpa using ih hxs
      | some subs => simp [Route.accepts, hm, hf] at hx
    · simp only [ne_eq, hm, not_false_eq_true, if_true]
      exact ih hxs

/-- The dispatch loop stops at a route that matches and runs its body. -/
theorem serveRoutes_hit (r : Router) (req : Request) (w : World) (route : Route)
    (rest : List Route) (subs : List (List Char)) (hm : route.method = req.Method)
    (hf : Regexp.FindStringSubmatch route.pattern req.Path.data = some subs) :
    serveRoutes r req w (route :: rest) = serveMatched r route subs req w := by
  simp [serveRoutes, hm, hf]

/-- When no route matches, the dispatch loop ends in the not-found response. -/
theorem serveRoutes_miss (r : Router) (req : Request) (w : World) (routes : List Route)
    (h : ∀ x ∈ routes, x.accepts req = false) :
    serveRoutes r req w routes =
      Outcome.notFound { w with writer := httpNotFound w.writer } := by
  have := serveRoutes_skip r req w routes [] h
  simpa [serveRoutes] using this

/-- The body of the dispatch loop runs the composed handler once the router has a context and the parameters are bound. -/
theorem serveMatched_ok (r : Router) (route : Route) (subs : List (List Char)) (req : Request)
    (w : World) (te : Gola.Context) (params : GoMap String)
    (hte : r.TemplateEngine = some te)
    (hbind : bindParams subs route.paramNames 0 [] = some params) :
    serveMatched r route subs req w =
      Outcome.handled
        (applyMiddlewares r.middleware (applyMiddlewares route.middlewares route.handler)
          (requestContext te req params) w) := by
  simp [serveMatched, hte, hbind]

/-- The body of the dispatch loop never ends in the not-found response. -/
theorem serveMatched_not_notFound (r : Router) (route : Route) (subs : List (List Char))
    (req : Request) (w w1 : World) : serveMatched r route subs req w ≠ Outcome.notFound w1 := by
  unfold serveMatched
  cases r.TemplateEngine with
  | none => simp
  | some te =>
    cases bindParams subs route.paramNames 0 [] with
    | none => simp
    | some p => simp

/-- The dispatch loop ends in the not-found response exactly when no route matches. -/
theorem serveRoutes_notFound_iff (r : Router) (req : Request) (w : World) (routes : List Route) :
    (∃ w1, serveRoutes r req w routes = Outcome.notFound w1) ↔
      ∀ x ∈ routes, x.accepts req = false := by
  constructor
  · intro h
    induction routes with
    | nil => simp
    | cons x xs ih =>
      obtain ⟨w1, hw⟩ := h
      simp only [serveRoutes] at hw
      by_cases hm : x.method = req.Method
      · simp only [hm, ne_eq, not_true_eq_false, if_false] at hw
        cases hf : Regexp.FindStringSubmatch x.pattern req.Path.data with
        | none =>
          simp only [hf] at hw
          intro y hy
          rcases List.mem_cons.mp hy with hy | hy
          · subst hy; simp [Route.accepts, hf]
          · exact ih ⟨w1, hw⟩ y hy
        | some subs =>
          simp only [hf] at hw
          exact absurd hw (serveMatched_not_notFound r x subs req w w1)
      · simp only [ne_eq, hm, not_false_eq_true, if_true] at hw
        intro y hy
        rcases List.mem_cons.mp hy with hy | hy
        · subst hy; simp [Route.accepts, hm]
        · exact ih ⟨w1, hw⟩ y hy
  · intro h
    exact ⟨_, serveRoutes_miss r req w routes h⟩

/-- A call of AddRoute that does not abort appends the route built from the compiled template. -/
theorem addRoute_ok (r r1 : Router) (m p : String) (h : Handler) (ms : List MiddlewareFunc)
    (hr : r.AddRoute m p h ms = Except.ok r1) :
    ∃ c, compileTemplate p = Except.ok c ∧
      r1 = { r with routes := r.routes ++ [(Registration.addRoute m p h ms).route c] } := by
  unfold Router.AddRoute at hr
  cases hc : compileTemplate p with
  | error e => simp [hc] at hr
  | ok c =>
    simp only [hc, Except.ok.injEq] at hr
    exact ⟨c, rfl, hr.symm⟩

/-- A registration call that does not abort appends the route built from the compiled template. -/
theorem register_ok (r r1 : Router) (x : Registration) (hr : r.register x = Except.ok r1) :
    ∃ c, compileTemplate x.pattern = Except.ok c ∧
      r1 = { r with routes := r.routes ++ [x.route c] } := by
  cases x with
  | addRoute m p h ms => exact addRoute_ok r r1 m p h ms hr
  | get p h ms => exact addRoute_ok r r1 "GET" p h ms hr
  | post p h ms => exact addRoute_ok r r1 "POST" p h ms hr

/-- Registration calls only append routes; they keep the global middleware and the context. -/
theorem registerAll_keeps (regs : List Registration) :
    ∀ (r r2 : Router), r.registerAll regs = Except.ok r2 →
      (∃ extra, r2.routes = r.routes ++ extra) ∧ r2.middleware = r.middleware ∧
        r2.TemplateEngine = r.TemplateEngine := by
  induction regs with
  | nil =>
    intro r r2 h
    simp only [Router.registerAll, Except.ok.injEq] at h
    subst h
    exact ⟨⟨[], by simp⟩, rfl, rfl⟩
  | cons x xs ih =>
    intro r r2 h
    simp only [Router.registerAll] at h
    cases h1 : r.register x with
    | error e => simp [h1] at h
    | ok r1 =>
      simp only [h1] at h
      obtain ⟨c, _, hr1⟩ := register_ok r r1 x h1
      obtain ⟨⟨extra, he⟩, hm, ht⟩ := ih r1 r2 h
      subst hr1
      refine ⟨⟨x.route c :: extra, ?_⟩, hm, ht⟩
      simp [he]

/-- A registration without submatches for a request adds a route that does not match it. -/
theorem submatches_none_accepts (x : Registration) (c : Regexp.Compiled) (req : Request)
    (hc : compileTemplate x.pattern = Except.ok c) (h : x.submatches req = none) :
    (x.route c).accepts req = false := by
  simp only [Registration.submatches, hc] at h
  simp only [Route.accepts, Registration.route]
  by_cases hm : x.method = req.Method
  · simp only [hm, if_true] at h
    simp [h]
  · simp [hm]

/-- After a sequence of registration calls, dispatch runs the body of the first registration that matches. -/
theorem registerAll_serve (pre : List Registration) :
    ∀ (r0 r : Router) (reg : Registration) (post : List Registration) (req : Request)
      (w : World) (subs : List (List Char)),
      r0.registerAll (pre ++ reg :: post) = Except.ok r →
      (∀ x ∈ r0.routes, x.accepts req = false) →
      (∀ x ∈ pre, x.submatches req = none) →
      reg.submatches req = some subs →
      ∃ c, compileTemplate reg.pattern = Except.ok c ∧
        r.middleware = r0.middleware ∧ r.TemplateEngine = r0.TemplateEngine ∧
        serveRoutes r req w r.routes = serveMatched r (reg.route c) subs req w := by
  induction pre with
  | nil =>
    intro r0 r reg post req w subs h h0 _ hs
    simp only [List.nil_append, Router.registerAll] at h
    cases h1 : r0.register reg with
    | error e => simp [h1] at h
    | ok r1 =>
      simp only [h1] at h
      obtain ⟨c, hc, hr1⟩ := register_ok r0 r1 reg h1
      obtain ⟨⟨extra, he⟩, hm, ht⟩ := registerAll_keeps post r1 r h
      subst hr1
      refine ⟨c, hc, hm, ht, ?_⟩
      simp only [he, List.append_assoc, List.singleton_append]
      rw [serveRoutes_skip r req w r0.routes _ h0]
      simp only [Registration.submatches, hc] at hs
      by_cases hmm : reg.method = req.Method
      · simp only [hmm, if_true] at hs
        exact serveRoutes_hit r req w (reg.route c) extra subs hmm hs
      · simp [hmm] at hs
  | cons x xs ih =>
    intro r0 r reg post req w subs h h0 hp hs
    simp only [List.cons_append, Router.registerAll] at h
    cases h1 : r0.register x with
    | error e => simp [h1] at h
    | ok r1 =>
      simp only [h1] at h
      obtain ⟨c, hc, hr1⟩ := register_ok r0 r1 x h1
      subst hr1
      have hx := submatches_none_accepts x c req hc (hp x (List.mem_cons_self _ _))
      have h0' : ∀ y ∈ r0.routes ++ [x.route c], y.accepts req = false := by
        intro y hy
        rcases List.mem_append.mp hy with hy | hy
        · exact h0 y hy
        · simp only [List.mem_singleton] at hy
          subst hy
          exact hx
      exact ih { r0 with routes := r0.routes ++ [x.route c] } r reg post req w subs h h0'
        (fun y hy => hp y (List.mem_cons_of_mem _ hy)) hs

/-- Calls of Use append the global middleware in call order and change nothing else. -/
theorem use_all (gs : List MiddlewareFunc) :
    ∀ r0 : Router, (gs.foldl Router.Use r0).middleware = r0.middleware ++ gs ∧
      (gs.foldl Router.Use r0).routes = r0.routes ∧
      (gs.foldl Router.Use r0).TemplateEngine = r0.TemplateEngine := by
  induction gs with
  | nil => intro r0; simp
  | cons g gs ih =>
    intro r0
    obtain ⟨h1, h2, h3⟩ := ih (r0.Use g)
    simp only [List.foldl_cons]
    refine ⟨?_, ?_, ?_⟩
    · rw [h1]; simp [Router.Use]
    · rw [h2]; rfl
    · rw [h3]; rfl

/-- The trace of a chain of recording middleware around an inner handler. -/
theorem trace_chain (names : List String) (inner : Handler) (ctx : Gola.Context) (w : World) :
    (names.map traceMiddleware).foldr (fun m g => m g) inner ctx w =
      { writer := (inner ctx (names.foldl (fun v n => logLine v ("enter " ++ n)) w)).writer,
        log := (inner ctx (names.foldl (fun v n => logLine v ("enter " ++ n)) w)).log ++
                 names.reverse.map fun n => "exit " ++ n } := by
  induction names generalizing w with
  | nil => simp
  | cons n ns ih =>
    simp only [List.map_cons, List.foldr_cons, List.foldl_cons, List.reverse_cons, List.map_append]
    show logLine ((ns.map traceMiddleware).foldr (fun m g => m g) inner ctx (logLine w ("enter " ++ n)))
        ("exit " ++ n) = _
    rw [ih]
    simp [logLine]

/-- The log after the entry events of a list of recording middleware. -/
theorem enter_log (names : List String) (w : World) :
    names.foldl (fun v n => logLine v ("enter " ++ n)) w =
      { writer := w.writer, log := w.log ++ names.map fun n => "enter " ++ n } := by
  induction names generalizing w with
  | nil => simp
  | cons n ns ih =>
    simp only [List.foldl_cons, List.map_cons]
    rw [ih]
    simp [logLine]


/-! ### Go maps -/

/-- Lookup of the key at the head of an association list. -/
theorem lookup_cons_eq {β : Type} (k : String) (v : β) (t : List (String × β)) :
    List.lookup k ((k, v) :: t) = some v := by
  simp [List.lookup]

/-- Lookup of a key other than the one at the head of an association list. -/
theorem lookup_cons_ne {β : Type} (k k2 : String) (v : β) (t : List (String × β))
    (h : k ≠ k2) : List.lookup k ((k2, v) :: t) = List.lookup k t := by
  have hb : (k == k2) = false := by simpa using h
  simp [List.lookup, hb]

/-- Reading a map after an assignment. -/
theorem get_set {β : Type} (m : GoMap β) (k k1 : String) (v : β) :
    GoMap.get? (GoMap.set m k v) k1 = if k1 = k then some v else GoMap.get? m k1 := by
  simp only [GoMap.get?]
  induction m with
  | nil =>
    by_cases h : k1 = k
    · subst h; simp [GoMap.set, lookup_cons_eq]
    · simp [GoMap.set, lookup_cons_ne _ _ _ _ h, h]
  | cons e t ih =>
    obtain ⟨k2, v2⟩ := e
    simp only [GoMap.set]
    by_cases h2 : k2 = k
    · subst h2
      by_cases h : k1 = k2
      · subst h; simp [lookup_cons_eq]
      · simp [lookup_cons_ne _ _ _ _ h, h]
    · simp only [h2, if_false]
      by_cases h3 : k1 = k2
      · subst h3
        have : ¬ k1 = k := h2
        simp [lookup_cons_eq, this]
      · rw [lookup_cons_ne _ _ _ _ h3, lookup_cons_ne _ _ _ _ h3, ih]

/-- The keys of a map after an assignment. -/
theorem keys_set {β : Type} (m : GoMap β) (k : String) (v : β) :
    (GoMap.set m k v).keys = if k ∈ m.keys then m.keys else m.keys ++ [k] := by
  induction m with
  | nil => simp [GoMap.set, GoMap.keys]
  | cons e t ih =>
    obtain ⟨k2, v2⟩ := e
    simp only [GoMap.keys] at ih ⊢
    simp only [GoMap.set]
    by_cases h2 : k2 = k
    · simp [h2]
    · have h2' : ¬ k = k2 := fun h => h2 h.symm
      simp only [h2, if_false, List.map_cons, ih, List.mem_cons, h2', false_or]
      by_cases hk : k ∈ t.map Prod.fst
      · simp [hk]
      · simp [hk]

/-- Reading a map after the entries of a second map, with distinct keys, have been assigned on top. -/
theorem get_merge {β : Type} (d : List (String × β)) :
    ∀ (p : GoMap β) (k : String), (d.map Prod.fst).Nodup →
      GoMap.get? (d.foldl (fun q e => GoMap.set q e.1 e.2) p) k =
        (GoMap.get? d k).or (GoMap.get? p k) := by
  induction d with
  | nil => intro p k _; simp [GoMap.get?]
  | cons e t ih =>
    intro p k hn
    obtain ⟨k1, v1⟩ := e
    simp only [List.map_cons, List.nodup_cons] at hn
    simp only [List.foldl_cons]
    rw [ih _ k hn.2, get_set]
    by_cases h : k = k1
    · subst h
      have hnone : GoMap.get? t k = none := by
        simp only [GoMap.get?]
        cases hl : List.lookup k t with
        | none => rfl
        | some v =>
          exfalso
          apply hn.1
          obtain ⟨l1, l2, hl12, _⟩ := List.lookup_eq_some_iff.mp hl
          rw [hl12]
          simp
      simp only [hnone, if_true]
      simp [GoMap.get?, lookup_cons_eq]
    · simp only [h, if_false]
      simp only [GoMap.get?]
      rw [lookup_cons_ne _ _ _ _ h]

/-- The keys of a map after new entries with distinct keys have been assigned. -/
theorem keys_merge {β : Type} (d : List (String × β)) :
    ∀ (p : GoMap β), (d.map Prod.fst).Nodup → (∀ k ∈ d.map Prod.fst, k ∉ p.keys) →
      (d.foldl (fun q e => GoMap.set q e.1 e.2) p).keys = p.keys ++ d.map Prod.fst := by
  induction d with
  | nil => intro p _ _; simp
  | cons e t ih =>
    intro p hn hp
    obtain ⟨k1, v1⟩ := e
    simp only [List.map_cons, List.nodup_cons] at hn
    have hk1 : k1 ∉ p.keys := hp k1 (by simp)
    simp only [List.foldl_cons]
    rw [ih _ hn.2]
    · simp [keys_set, hk1]
    · intro k hk
      rw [keys_set]
      simp only [hk1, if_false, List.mem_append, List.mem_singleton, not_or]
      refine ⟨hp k (by simp [hk]), ?_⟩
      intro hkk
      subst hkk
      exact hn.1 hk

/-- Lookup in a list of pairs with distinct first components. -/
theorem lookup_zip {β : Type} (names : List String) :
    ∀ (vs : List β) (e : String × β), names.Nodup → e ∈ names.zip vs →
      List.lookup e.1 (names.zip vs) = some e.2 := by
  induction names with
  | nil => intro vs e _ h; simp at h
  | cons n ns ih =>
    intro vs e hn h
    cases vs with
    | nil => simp at h
    | cons v vs =>
      simp only [List.nodup_cons] at hn
      simp only [List.zip_cons_cons, List.mem_cons] at h
      rcases h with h | h
      · subst h; simp [lookup_cons_eq]
      · have hne : e.1 ≠ n := by
          intro heq
          apply hn.1
          rw [← heq]
          exact (List.of_mem_zip h).1
        simp only [List.zip_cons_cons]
        rw [lookup_cons_ne _ _ _ _ hne]
        exact ih vs e hn.2 h


/-! ### Parsing the pattern of a template without metacharacters -/

/-- The parser pushes a character that is not a metacharacter as a literal. -/
theorem step_plain (c : Char) (rest : List Char) (st : PState) (hc : isMetaChar c = false) :
    step c rest st = Except.ok (pushRe st (Regex.lit c) 0) := by
  simp only [isMetaChar, Bool.or_eq_false_iff, decide_eq_false_iff_not] at hc
  obtain ⟨⟨⟨⟨⟨⟨⟨⟨⟨⟨⟨⟨⟨h1, h2⟩, h3⟩, h4⟩, h5⟩, h6⟩, h7⟩, h8⟩, h9⟩, h10⟩, h11⟩, h12⟩, h13⟩, h14⟩ := hc
  simp only [step, h1, h2, h3, h4, h5, h6, h7, h8, h9, h10, h11, h12, h13, h14, if_false]

/-- The parser turns the text of a placeholder group into one capture group. -/
theorem parse_param_chunk (stack : List Item) (ncap : Nat) (tail : List Char) :
    parseLoop ("([^/]+)".data ++ tail)
        { stack := stack, ncap := ncap, lastRepeat := false, skip := 0 } =
      parseLoop tail
        { stack := Item.re (paramRegex (ncap + 1)) :: stack, ncap := ncap + 1,
          lastRepeat := false, skip := 0 } := by
  show parseLoop ('(' :: '[' :: '^' :: '/' :: ']' :: '+' :: ')' :: tail) _ = _
  simp [parseLoop, step, parseClassItems, applyRepeat, collapse, popRegexes, popAlts, mkCat,
    pushRe, paramRegex, chBackslash, chLBrace]

/-- The parser run over the text written for the pieces of a template without metacharacters. -/
theorem parse_toks (toks : List Token) :
    ∀ (stack : List Item) (ncap : Nat) (tail : List Char),
      (∀ c, Token.lit c ∈ toks → isMetaChar c = false) →
      parseLoop (toks.flatMap Token.render ++ tail)
          { stack := stack, ncap := ncap, lastRepeat := false, skip := 0 } =
        parseLoop tail
          { stack := ((tokRegexes ncap toks).map Item.re).reverse ++ stack,
            ncap := ncap + (tokenNames toks).length, lastRepeat := false, skip := 0 } := by
  induction toks with
  | nil => intro stack ncap tail _; simp [tokRegexes, tokenNames]
  | cons t ts ih =>
    intro stack ncap tail hplain
    have hts : ∀ c, Token.lit c ∈ ts → isMetaChar c = false :=
      fun c hc => hplain c (List.mem_cons_of_mem _ hc)
    cases t with
    | lit c =>
      have hc := hplain c (List.mem_cons_self _ _)
      have e : (Token.lit c :: ts).flatMap Token.render ++ tail =
          c :: (ts.flatMap Token.render ++ tail) := by
        simp [List.flatMap_cons, Token.render]
      rw [e]
      have e2 : parseLoop (c :: (ts.flatMap Token.render ++ tail))
          { stack := stack, ncap := ncap, lastRepeat := false, skip := 0 } =
          parseLoop (ts.flatMap Token.render ++ tail)
            { stack := Item.re (Regex.lit c) :: stack, ncap := ncap, lastRepeat := false,
              skip := 0 } := by
        simp only [parseLoop, if_true, step_plain c _ _ hc, pushRe]
      rw [e2, ih _ _ _ hts]
      simp [tokRegexes, tokenNames]
    | param n =>
      have e : (Token.param n :: ts).flatMap Token.render ++ tail =
          "([^/]+)".data ++ (ts.flatMap Token.render ++ tail) := by
        simp [List.flatMap_cons, Token.render]
      rw [e, parse_param_chunk, ih _ _ _ hts]
      simp [tokRegexes, tokenNames, Nat.add_assoc, Nat.add_comm 1]

/-- Popping a stack that holds only expressions returns them oldest first. -/
theorem popRegexes_all (rs : List Regex) :
    ∀ acc, popRegexes ((rs.map Item.re).reverse) acc = (rs ++ acc, []) := by
  induction rs using List.reverseRecOn with
  | nil => intro acc; simp [popRegexes]
  | append_singleton l a ih =>
    intro acc
    simp only [List.map_append, List.map_cons, List.map_nil, List.reverse_append,
      List.reverse_cons, List.reverse_nil, List.nil_append, List.singleton_append, popRegexes]
    rw [ih]
    simp

/-- Every character that the scanner copies is a character of the template. -/
theorem scanFuel_lit_mem (f : Nat) :
    ∀ (s : List Char) (c : Char), Token.lit c ∈ scanFuel f s → c ∈ s := by
  induction f with
  | zero => intro s c h; simp [scanFuel] at h
  | succ f ih =>
    intro s c h
    cases s with
    | nil => simp [scanFuel] at h
    | cons d t =>
      simp only [scanFuel] at h
      split at h
      · simp only [List.mem_cons, reduceCtorEq, false_or] at h
        have := ih _ c h
        exact List.mem_cons_of_mem _ ((List.dropWhile_sublist _).subset this)
      · simp only [List.mem_cons, Token.lit.injEq] at h
        rcases h with h | h
        · subst h; exact List.mem_cons_self _ _
        · exact List.mem_cons_of_mem _ (ih _ c h)

/-- The pieces found by the scanner spell the template, given enough steps. -/
theorem scanFuel_source (f : Nat) :
    ∀ (s : List Char), s.length ≤ f → (scanFuel f s).flatMap Token.source = s := by
  induction f with
  | zero =>
    intro s h
    have : s = [] := List.length_eq_zero.mp (Nat.le_zero.mp h)
    subst this
    rfl
  | succ f ih =>
    intro s h
    cases s with
    | nil => rfl
    | cons d t =>
      have ht : t.length ≤ f := by simpa using h
      simp only [scanFuel]
      split
      · rename_i hcond
        have hdrop : (t.dropWhile isNameChar).length ≤ f :=
          Nat.le_trans (List.dropWhile_sublist _).length_le ht
        simp only [List.flatMap_cons, Token.source, ih _ hdrop, List.cons_append,
          List.takeWhile_append_dropWhile]
        rw [hcond.1]
      · simp only [List.flatMap_cons, Token.source, ih _ ht, List.singleton_append]

/-- The pieces of a template spell the template. -/
theorem scanTemplate_source (s : List Char) : (scanTemplate s).flatMap Token.source = s :=
  scanFuel_source s.length s (Nat.le_refl _)

/-- The compiled pattern of a template without metacharacters: the anchored chain of its pieces. -/
theorem compile_plain (template : String)
    (hplain : ∀ c ∈ template.data, isMetaChar c = false)
    (hscan : ∀ c, Token.lit c ∈ scanTemplate template.data → c ∈ template.data) :
    compileTemplate template =
      Except.ok
        { re := mkCat (Regex.beginText ::
                  (tokRegexes 0 (scanTemplate template.data) ++ [Regex.endText])),
          numSubexp := (tokenNames (scanTemplate template.data)).length } := by
  have hp : ∀ c, Token.lit c ∈ scanTemplate template.data → isMetaChar c = false :=
    fun c hc => hplain c (hscan c hc)
  unfold compileTemplate Compile replacer
  simp only [parseLoop, if_true]
  have h1 : step '^' ((scanTemplate template.data).flatMap Token.render ++ ['$'])
      { stack := [], ncap := 0, lastRepeat := false, skip := 0 } =
      Except.ok { stack := [Item.re Regex.beginText], ncap := 0, lastRepeat := false, skip := 0 } := by
    simp [step, pushRe]
  rw [h1]
  simp only []
  rw [parse_toks _ _ _ _ hp]
  simp only [parseLoop, if_true]
  have h2 : ∀ st : PState, step '$' [] st = Except.ok (pushRe st Regex.endText 0) := by
    intro st; simp [step]
  rw [h2]
  simp only [pushRe, collapse]
  have h3 : Item.re Regex.endText ::
      (((tokRegexes 0 (scanTemplate template.data)).map Item.re).reverse ++ [Item.re Regex.beginText]) =
      ((Regex.beginText :: (tokRegexes 0 (scanTemplate template.data) ++ [Regex.endText])).map
        Item.re).reverse := by
    simp
  rw [h3, popRegexes_all]
  simp [popAlts]


/-! ### Matching the pattern of a template without metacharacters -/

/-- The class of the placeholder group matches exactly the characters other than the slash. -/
theorem slashClass (d : Char) : classMatches true [('/', '/')] d = true ↔ d ≠ '/' := by
  by_cases h : d = '/'
  · subst h
    simp [classMatches]
  · have hne : d.toNat ≠ 47 := fun h47 =>
      h (Char.ext (UInt32.ext (by simpa [Char.toNat, UInt32.toNat] using h47)))
    have hb : (decide (('/').toNat ≤ d.toNat) && decide (d.toNat ≤ ('/').toNat)) = false := by
      simp only [Bool.and_eq_false_iff, decide_eq_false_iff_not]
      have e : ('/').toNat = 47 := rfl
      rw [e]
      omega
    simp only [classMatches, List.any_cons, List.any_nil, Bool.or_false, hb]
    simp [h]

/-- Matching the class of the placeholder group against a non-empty text. -/
theorem run_slash_cons {α : Type} (total : Nat) (d : Char) (t : List Char) (cs : Caps)
    (k : List Char → Caps → Option α) :
    run total (Regex.cls true [('/', '/')]) (d :: t) cs k = if d = '/' then none else k t cs := by
  simp only [run]
  by_cases h : d = '/'
  · have hc : classMatches true [('/', '/')] d = false := by
      rw [Bool.eq_false_iff, ne_eq, slashClass]; simpa using h
    rw [hc]; simp [h]
  · have hc : classMatches true [('/', '/')] d = true := (slashClass d).mpr h
    rw [hc]; simp [h]

/-- The loop over non-slash characters stops at the end of the text. -/
theorem slashLoop_nil {α : Type} (total : Nat) (k : List Char → Caps → Option α) (n : Nat)
    (cs : Caps) : slashLoop total k n [] cs = k [] cs := by
  cases n with
  | zero => rfl
  | succ n => simp [slashLoop, starLoop, run]

/-- The loop over non-slash characters stops at a slash. -/
theorem slashLoop_slash {α : Type} (total : Nat) (k : List Char → Caps → Option α) (n : Nat)
    (t : List Char) (cs : Caps) : slashLoop total k n ('/' :: t) cs = k ('/' :: t) cs := by
  cases n with
  | zero => rfl
  | succ n =>
    simp only [slashLoop, starLoop, if_true]
    rw [run_slash_cons]
    simp

/-- The loop over non-slash characters first tries to take one more character. -/
theorem slashLoop_cons {α : Type} (total : Nat) (k : List Char → Caps → Option α) (n : Nat)
    (d : Char) (t : List Char) (cs : Caps) (hd : d ≠ '/') :
    slashLoop total k (n + 1) (d :: t) cs =
      match slashLoop total k n t cs with
      | some r => some r
      | none => k (d :: t) cs := by
  simp only [slashLoop, starLoop, if_true]
  rw [run_slash_cons]
  simp [hd]

/-- Soundness of the loop over non-slash characters: a result comes from a slash-free run followed by the continuation. -/

theorem slashLoop_sound {α : Type} (total : Nat) (k : List Char → Caps → Option α) (n : Nat) :
    ∀ (s : List Char) (cs : Caps) (res : α), slashLoop total k n s cs = some res →
      ∃ v rest, s = v ++ rest ∧ '/' ∉ v ∧ k rest cs = some res := by
  induction n with
  | zero =>
    intro s cs res h
    exact ⟨[], s, rfl, by simp, h⟩
  | succ n ih =>
    intro s cs res h
    cases s with
    | nil =>
      rw [slashLoop_nil] at h
      exact ⟨[], [], rfl, by simp, h⟩
    | cons d t =>
      by_cases hd : d = '/'
      · subst hd
        rw [slashLoop_slash] at h
        exact ⟨[], '/' :: t, rfl, by simp, h⟩
      · rw [slashLoop_cons total k n d t cs hd] at h
        cases hrec : slashLoop total k n t cs with
        | none =>
          simp only [hrec] at h
          exact ⟨[], d :: t, rfl, by simp, h⟩
        | some r =>
          simp only [hrec, Option.some.injEq] at h
          subst h
          obtain ⟨v, rest, hs, hv, hk⟩ := ih t cs r hrec
          refine ⟨d :: v, rest, by simp [hs], ?_, hk⟩
          simp only [List.mem_cons, not_or]
          exact ⟨fun h => hd h.symm, hv⟩

/-- Completeness of the loop over non-slash characters: a slash-free run after which the continuation succeeds gives a result. -/

theorem slashLoop_complete {α : Type} (total : Nat) (k : List Char → Caps → Option α)
    (v : List Char) :
    ∀ (n : Nat) (rest : List Char) (cs : Caps), v.length < n → '/' ∉ v →
      (k rest cs).isSome = true → (slashLoop total k n (v ++ rest) cs).isSome = true := by
  induction v with
  | nil =>
    intro n rest cs hn _ hk
    cases n with
    | zero => simp at hn
    | succ n =>
      cases rest with
      | nil => rw [List.nil_append, slashLoop_nil]; exact hk
      | cons d t =>
        by_cases hd : d = '/'
        · subst hd
          rw [List.nil_append, slashLoop_slash]; exact hk
        · rw [List.nil_append, slashLoop_cons total k n d t cs hd]
          split
          · rfl
          · exact hk
  | cons d v ih =>
    intro n rest cs hn hv hk
    cases n with
    | zero => simp at hn
    | succ n =>
      simp only [List.mem_cons, not_or] at hv
      have hd : d ≠ '/' := fun h => hv.1 h.symm
      have hrec := ih n rest cs (by simpa using hn) hv.2 hk
      rw [List.cons_append, slashLoop_cons total k n d _ cs hd]
      obtain ⟨r, hr⟩ := Option.isSome_iff_exists.mp hrec
      simp [hr]

/-- A placeholder group does not match the empty text. -/
theorem run_param_nil {α : Type} (total j : Nat) (cs : Caps)
    (k : List Char → Caps → Option α) : run total (paramRegex j) [] cs k = none := by
  simp [paramRegex, run]

/-- Matching a placeholder group against a non-empty text. -/
theorem run_param_cons {α : Type} (total j : Nat) (d : Char) (t : List Char) (cs : Caps)
    (k : List Char → Caps → Option α) :
    run total (paramRegex j) (d :: t) cs k =
      if d = '/' then none
      else slashLoop total
        (fun s1 c1 => k s1 ((j, (d :: t).take ((d :: t).length - s1.length)) :: c1))
        (t.length + 1) t cs := by
  have e : run total (paramRegex j) (d :: t) cs k =
      run total (Regex.cls true [('/', '/')]) (d :: t) cs
        (fun s1 c1 => slashLoop total
          (fun s2 c2 => k s2 ((j, (d :: t).take ((d :: t).length - s2.length)) :: c2))
          (s1.length + 1) s1 c1) := rfl
  rw [e, run_slash_cons]

/-- The part of a text in front of a given rest. -/
theorem take_split (v rest : List Char) : (v ++ rest).take ((v ++ rest).length - rest.length) = v := by
  simp

/-- Soundness of a placeholder group: it captures a non-empty slash-free part of the text. -/
theorem param_sound {α : Type} (total j : Nat) (s : List Char) (cs : Caps)
    (k : List Char → Caps → Option α) (res : α)
    (h : run total (paramRegex j) s cs k = some res) :
    ∃ v rest, v ≠ [] ∧ '/' ∉ v ∧ s = v ++ rest ∧ k rest ((j, v) :: cs) = some res := by
  cases s with
  | nil => simp [run_param_nil] at h
  | cons d t =>
    rw [run_param_cons] at h
    by_cases hd : d = '/'
    · simp [hd] at h
    · simp only [hd, if_false] at h
      obtain ⟨v, rest, hs, hv, hk⟩ := slashLoop_sound total _ _ t cs res h
      refine ⟨d :: v, rest, by simp, ?_, by simp [hs], ?_⟩
      · simp only [List.mem_cons, not_or]
        exact ⟨fun h => hd h.symm, hv⟩
      · have e : (d :: t).take ((d :: t).length - rest.length) = d :: v := by
          rw [hs]
          exact take_split (d :: v) rest
        have hk2 : k rest ((j, (d :: t).take ((d :: t).length - rest.length)) :: cs) =
            some res := hk
        rw [e] at hk2
        exact hk2

/-- Completeness of a placeholder group. -/
theorem param_complete {α : Type} (total j : Nat) (v rest : List Char) (cs : Caps)
    (k : List Char → Caps → Option α) (hv : v ≠ []) (hs : '/' ∉ v)
    (hk : (k rest ((j, v) :: cs)).isSome = true) :
    (run total (paramRegex j) (v ++ rest) cs k).isSome = true := by
  cases v with
  | nil => exact absurd rfl hv
  | cons d v =>
    simp only [List.mem_cons, not_or] at hs
    have hd : ¬ d = '/' := fun h => hs.1 h.symm
    rw [List.cons_append, run_param_cons]
    simp only [hd, if_false]
    apply slashLoop_complete total _ v (( v ++ rest).length + 1) rest cs (by simp; omega) hs.2
    have e : (d :: (v ++ rest)).take ((d :: (v ++ rest)).length - rest.length) = d :: v :=
      take_split (d :: v) rest
    show (k rest ((j, (d :: (v ++ rest)).take ((d :: (v ++ rest)).length - rest.length)) ::
      cs)).isSome = true
    rw [e]
    exact hk

/-- Concatenation of a non-empty list of expressions. -/
theorem mkCat_cons (a : Regex) (rs : List Regex) : mkCat (a :: rs) = Regex.cat a (mkCat rs) := rfl

/-- Matching the end-of-text anchor that closes the chain. -/
theorem run_end {α : Type} (total : Nat) (s : List Char) (cs : Caps)
    (k : List Char → Caps → Option α) :
    run total (mkCat [Regex.endText]) s cs k = if s = [] then k [] cs else none := by
  simp only [mkCat, List.foldr, run]
  by_cases h : s = []
  · subst h; simp
  · simp [h]

/-- Soundness of the chain of a template: a match decomposes the text into the template with its placeholders replaced by the captured values. -/

theorem chain_sound {α : Type} (total : Nat) (toks : List Token) :
    ∀ (i : Nat) (s : List Char) (cs : Caps) (k : List Char → Caps → Option α) (res : α),
      run total (mkCat (tokRegexes i toks ++ [Regex.endText])) s cs k = some res →
      ∃ vals, vals.length = (tokenNames toks).length ∧ (∀ v ∈ vals, v ≠ [] ∧ '/' ∉ v) ∧
        s = instantiate toks vals ∧ k [] (capsAfter i vals cs) = some res := by
  induction toks with
  | nil =>
    intro i s cs k res h
    simp only [tokRegexes, List.nil_append] at h
    rw [run_end] at h
    by_cases hs : s = []
    · subst hs
      exact ⟨[], rfl, by simp, rfl, by simpa [capsAfter] using h⟩
    · simp [hs] at h
  | cons t ts ih =>
    intro i s cs k res h
    cases t with
    | lit c =>
      simp only [tokRegexes, List.cons_append, mkCat_cons, run] at h
      cases s with
      | nil => simp at h
      | cons d s1 =>
        simp only at h
        by_cases hd : d = c
        · subst hd
          simp only [if_true] at h
          obtain ⟨vals, hl, hv, hs, hk⟩ := ih i s1 cs k res h
          exact ⟨vals, by simpa [tokenNames] using hl, hv, by simp [instantiate, hs], hk⟩
        · simp [hd] at h
    | param n =>
      simp only [tokRegexes, List.cons_append, mkCat_cons] at h
      rw [run] at h
      obtain ⟨v, rest, hv1, hv2, hs, hk⟩ := param_sound total (i + 1) s cs _ res h
      obtain ⟨vals, hl, hv, hs2, hk2⟩ := ih (i + 1) rest _ k res hk
      refine ⟨v :: vals, by simp [tokenNames, hl], ?_, by simp [instantiate, hs, hs2], ?_⟩
      · intro x hx
        rcases List.mem_cons.mp hx with hx | hx
        · subst hx; exact ⟨hv1, hv2⟩
        · exact hv x hx
      · simpa [capsAfter] using hk2

/-- Completeness of the chain of a template: every text obtained by replacing the placeholders by valid values is matched. -/

theorem chain_complete {α : Type} (total : Nat) (toks : List Token) :
    ∀ (i : Nat) (vals : List (List Char)) (cs : Caps) (k : List Char → Caps → Option α),
      vals.length = (tokenNames toks).length → (∀ v ∈ vals, v ≠ [] ∧ '/' ∉ v) →
      (∀ c1, (k [] c1).isSome = true) →
      (run total (mkCat (tokRegexes i toks ++ [Regex.endText])) (instantiate toks vals) cs
        k).isSome = true := by
  induction toks with
  | nil =>
    intro i vals cs k _ _ hk
    simp only [tokRegexes, List.nil_append, instantiate]
    rw [run_end]
    simpa using hk cs
  | cons t ts ih =>
    intro i vals cs k hl hv hk
    cases t with
    | lit c =>
      simp only [tokRegexes, List.cons_append, mkCat_cons, run, instantiate, if_true]
      exact ih i vals cs k (by simpa [tokenNames] using hl) hv hk
    | param n =>
      cases vals with
      | nil => simp [tokenNames] at hl
      | cons v vs =>
        simp only [tokRegexes, List.cons_append, mkCat_cons, instantiate]
        rw [run]
        apply param_complete total (i + 1) v _ cs _ (hv v (List.mem_cons_self _ _)).1
          (hv v (List.mem_cons_self _ _)).2
        exact ih (i + 1) vs _ k (by simpa [tokenNames] using hl)
          (fun x hx => hv x (List.mem_cons_of_mem _ hx)) hk

/-- A path fills a template exactly when it is the template with the placeholders replaced by a list of valid values. -/
theorem fills_iff (toks : List Token) :
    ∀ s, Fills toks s ↔
      ∃ vals, vals.length = (tokenNames toks).length ∧ (∀ v ∈ vals, v ≠ [] ∧ '/' ∉ v) ∧
        s = instantiate toks vals := by
  induction toks with
  | nil =>
    intro s
    simp only [Fills, tokenNames, List.length_nil, instantiate]
    constructor
    · intro h; exact ⟨[], rfl, by simp, h⟩
    · rintro ⟨_, _, _, h⟩; exact h
  | cons t ts ih =>
    intro s
    cases t with
    | lit c =>
      simp only [Fills, tokenNames, instantiate]
      constructor
      · rintro ⟨q, hq, hf⟩
        obtain ⟨vals, hl, hv, hs⟩ := (ih q).mp hf
        exact ⟨vals, hl, hv, by rw [hq, hs]⟩
      · rintro ⟨vals, hl, hv, hs⟩
        exact ⟨instantiate ts vals, hs, (ih _).mpr ⟨vals, hl, hv, rfl⟩⟩
    | param n =>
      simp only [Fills, tokenNames, List.length_cons]
      constructor
      · rintro ⟨v, q, hv1, hv2, hq, hf⟩
        obtain ⟨vals, hl, hv, hs⟩ := (ih q).mp hf
        refine ⟨v :: vals, by simp [hl], ?_, by simp [instantiate, hq, hs]⟩
        intro x hx
        rcases List.mem_cons.mp hx with hx | hx
        · subst hx; exact ⟨hv1, hv2⟩
        · exact hv x hx
      · rintro ⟨vals, hl, hv, hs⟩
        cases vals with
        | nil => simp at hl
        | cons v vs =>
          refine ⟨v, instantiate ts vs, (hv v (List.mem_cons_self _ _)).1,
            (hv v (List.mem_cons_self _ _)).2, by simp [hs, instantiate], ?_⟩
          exact (ih _).mpr ⟨vs, by simpa using hl, fun x hx => hv x (List.mem_cons_of_mem _ hx), rfl⟩

/-- Matching an expression that starts with the beginning-of-text anchor. -/
theorem run_begin {α : Type} (total : Nat) (x : Regex) (s : List Char) (cs : Caps)
    (k : List Char → Caps → Option α) :
    run total (Regex.cat Regex.beginText x) s cs k =
      if s.length = total then run total x s cs k else none := by
  simp only [run]

/-- An expression that starts with the beginning-of-text anchor has no match at a later start position. -/
theorem search_short (x : Regex) (total : Nat) (s : List Char) (h : s.length < total) :
    searchFrom (Regex.cat Regex.beginText x) total s = none := by
  induction s with
  | nil =>
    have : ¬ (0 = total) := by simp at h; omega
    simp [searchFrom, run_begin, this]
  | cons c t ih =>
    have h1 : ¬ ((c :: t).length = total) := by omega
    have h2 : t.length < total := by simp at h; omega
    simp only [searchFrom, run_begin, h1, if_false]
    exact ih h2

/-- The submatches of an expression that starts with the beginning-of-text anchor come from the attempt at the start of the text. -/
theorem find_anchored (x : Regex) (n : Nat) (text : List Char) :
    FindStringSubmatch { re := Regex.cat Regex.beginText x, numSubexp := n } text =
      match run text.length x text [] (fun s1 c1 => some (s1, c1)) with
      | some (s1, cs) =>
        some (text.take (text.length - s1.length) ::
          (List.range n).map fun i => capText cs (i + 1))
      | none => none := by
  unfold FindStringSubmatch
  cases text with
  | nil =>
    simp only [searchFrom, run_begin, List.length_nil, if_true]
    cases run 0 x [] [] (fun s1 c1 => some (s1, c1)) with
    | none => rfl
    | some r => rfl
  | cons c t =>
    simp only [searchFrom, run_begin, if_true]
    cases run (c :: t).length x (c :: t) [] (fun s1 c1 => some (s1, c1)) with
    | none =>
      simp only []
      rw [search_short x _ t (by simp)]
    | some r => rfl

/-- Reading a capture register after the placeholders have matched. -/
theorem lookup_capsAfter (vals : List (List Char)) :
    ∀ (i : Nat) (cs : Caps) (j : Nat),
      (capsAfter i vals cs).lookup j =
        if i < j ∧ j ≤ i + vals.length then vals[j - i - 1]? else cs.lookup j := by
  induction vals with
  | nil =>
    intro i cs j
    have : ¬ (i < j ∧ j ≤ i) := by omega
    simp [capsAfter, this]
  | cons v vs ih =>
    intro i cs j
    simp only [capsAfter, ih, List.length_cons]
    by_cases h1 : i + 1 < j ∧ j ≤ i + 1 + vs.length
    · have h2 : i < j ∧ j ≤ i + (vs.length + 1) := by omega
      have h3 : j - i - 1 = (j - (i + 1) - 1) + 1 := by omega
      simp only [h1, h2, and_self, if_true]
      rw [h3]
      simp
    · simp only [h1, if_false]
      by_cases h4 : j = i + 1
      · subst h4
        have h2 : i < i + 1 ∧ i + 1 ≤ i + (vs.length + 1) := by omega
        simp [h2, List.lookup]
      · have h2 : ¬ (i < j ∧ j ≤ i + (vs.length + 1)) := by omega
        have hb : (j == i + 1) = false := by simpa using h4
        simp [h2, List.lookup, hb]

/-- The text of the capture groups after the placeholders have matched is the list of values. -/
theorem groups_of_caps (vals : List (List Char)) :
    ((List.range vals.length).map fun i => capText (capsAfter 0 vals []) (i + 1)) = vals := by
  apply List.ext_getElem?
  intro j
  by_cases hj : j < vals.length
  · have h2 : 0 < j + 1 ∧ j + 1 ≤ 0 + vals.length := by omega
    rw [List.getElem?_map, List.getElem?_range hj]
    simp only [Option.map_some', capText, lookup_capsAfter, h2, and_self, if_true]
    have h3 : j + 1 - 0 - 1 = j := by omega
    rw [h3, List.getElem?_eq_getElem hj]
    simp
  · have h1 : vals[j]? = none := List.getElem?_eq_none (by omega)
    have h2 : ((List.range vals.length).map fun i => capText (capsAfter 0 vals []) (i + 1))[j]? =
        none := List.getElem?_eq_none (by simp; omega)
    rw [h1, h2]

/-- The submatches of the pattern of a template without metacharacters: the path followed by the values of its placeholders. -/
theorem find_plain_sound (template : String) (p : Compiled) (path : List Char)
    (subs : List (List Char))
    (hplain : ∀ c ∈ template.data, isMetaChar c = false)
    (hc : compileTemplate template = Except.ok p)
    (hf : FindStringSubmatch p path = some subs) :
    ∃ vals, vals.length = (tokenNames (scanTemplate template.data)).length ∧
      (∀ v ∈ vals, v ≠ [] ∧ '/' ∉ v) ∧
      path = instantiate (scanTemplate template.data) vals ∧ subs = path :: vals := by
  have hc2 := compile_plain template hplain (fun c hc => scanFuel_lit_mem _ _ c hc)
  rw [hc] at hc2
  simp only [Except.ok.injEq] at hc2
  subst hc2
  rw [mkCat_cons, find_anchored] at hf
  cases hr : run path.length
      (mkCat (tokRegexes 0 (scanTemplate template.data) ++ [Regex.endText])) path []
      (fun s1 c1 => some (s1, c1)) with
  | none => simp [hr] at hf
  | some res =>
    obtain ⟨vals, hl, hv, hs, hk⟩ := chain_sound path.length _ 0 path [] _ res hr
    simp only [Option.some.injEq] at hk
    subst hk
    simp only [hr, List.length_nil, Nat.sub_zero, List.take_length, Option.some.injEq] at hf
    refine ⟨vals, hl, hv, hs, ?_⟩
    rw [← hf, ← hl, groups_of_caps]

/-- The binding loop succeeds when there is a submatch for every name, and assigns them in order. -/
theorem bindParams_zip (text : List Char) (names : List String) :
    ∀ (vs pre : List (List Char)) (params : GoMap String), names.length = vs.length →
      bindParams (text :: (pre ++ vs)) names pre.length params =
        some ((names.zip (vs.map String.mk)).foldl (fun q e => GoMap.set q e.1 e.2) params) := by
  induction names with
  | nil => intro vs pre params _; simp [bindParams]
  | cons n ns ih =>
    intro vs pre params hl
    cases vs with
    | nil => simp at hl
    | cons v vs =>
      have hget : (text :: (pre ++ v :: vs))[pre.length + 1]? = some v := by
        rw [List.getElem?_cons_succ, List.getElem?_append_right (Nat.le_refl _)]
        simp
      simp only [bindParams, hget]
      have := ih vs (pre ++ [v]) (GoMap.set params n (String.mk v)) (by simpa using hl)
      simp only [List.append_assoc, List.singleton_append, List.length_append, List.length_cons,
        List.length_nil] at this
      rw [this]
      simp

/-- Replacing the placeholders by the values bound to their names gives the instantiated template. -/
theorem fillWith_eq (params : GoMap String) (toks : List Token) :
    ∀ (vals : List (List Char)), vals.length = (tokenNames toks).length →
      (∀ e ∈ (tokenNames toks).zip vals, GoMap.get? params e.1 = some (String.mk e.2)) →
      fillWith params toks = instantiate toks vals := by
  induction toks with
  | nil => intro vals _ _; rfl
  | cons t ts ih =>
    intro vals hl h
    cases t with
    | lit c =>
      simp only [fillWith, instantiate]
      rw [ih vals (by simpa [tokenNames] using hl) (by simpa [tokenNames] using h)]
    | param n =>
      cases vals with
      | nil => simp [tokenNames] at hl
      | cons v vs =>
        simp only [tokenNames, List.zip_cons_cons, List.mem_cons, forall_eq_or_imp] at h
        simp only [fillWith, instantiate, h.1, Option.getD_some]
        rw [ih vs (by simpa [tokenNames] using hl) h.2]


/-! ### C1: first-match-wins dispatch -/

/-- C1 (as amended). First-match-wins dispatch. A router without routes whose
template-engine context is `te` receives the registration calls
`pre ++ reg :: post` (through `AddRoute`, `Get` or `Post`, in any mix) and none
of them aborts. If no route registered by `pre` matches the request, the route
registered by `reg` matches it with submatches `subs`, and the binding of its
parameters is in range (`bindParams` succeeds), then `ServeHTTP` runs the
handler of `reg`, wrapped in its route-level middleware and in the global
middleware, on the context that holds the bound parameters; the later
registrations `post` have no influence, even those that match the request too. -/

theorem first_match_wins (r0 r : Router) (te : Gola.Context) (pre post : List Registration)
    (reg : Registration) (req : Request) (w : World) (subs : List (List Char))
    (params : GoMap String)
    (hr0 : r0.routes = [])
    (hte : r0.TemplateEngine = some te)
    (hreg : r0.registerAll (pre ++ reg :: post) = Except.ok r)
    (hpre : ∀ x ∈ pre, x.submatches req = none)
    (hsub : reg.submatches req = some subs)
    (hbind : bindParams subs (tokenNames (scanTemplate reg.pattern.data)) 0 [] = some params) :
    r.ServeHTTP w req =
      Outcome.handled
        (applyMiddlewares r0.middleware (applyMiddlewares reg.middlewares reg.handler)
          (requestContext te req params) w) := by
  obtain ⟨c, _, hmid, hteq, hserve⟩ :=
    registerAll_serve pre r0 r reg post req w subs hreg (by simp [hr0]) hpre hsub
  unfold Router.ServeHTTP
  rw [hserve, serveMatched_ok r (reg.route c) subs req w te params (hteq.trans hte) hbind, hmid]
  rfl

/-- C1, worked instance: `/blog/:id` registered with `Get` before `/blog/new`
registered with `AddRoute`; the request `GET /blog/new` matches both and is
served by the handler of `/blog/:id`. -/
theorem first_match_wins_witness :
    demoBase.routes = [] ∧ demoBase.TemplateEngine = some demoContext ∧
    demoBase.registerAll
        ([Registration.get "/blog" (namedHandler "index") []] ++
          Registration.get "/blog/:id" (namedHandler "show") [traceMiddleware "C"] ::
            [Registration.addRoute "GET" "/blog/new" (namedHandler "new") []]) =
      Except.ok demoRouter ∧
    (∀ x ∈ [Registration.get "/blog" (namedHandler "index") []],
      x.submatches demoRequest = none) ∧
    (Registration.get "/blog/:id" (namedHandler "show") [traceMiddleware "C"]).submatches
        demoRequest = some ["/blog/new".data, "new".data] ∧
    (Registration.addRoute "GET" "/blog/new" (namedHandler "new") []).submatches demoRequest =
      some ["/blog/new".data] ∧
    demoRouter.ServeHTTP freshWorld demoRequest =
      Outcome.handled
        (applyMiddlewares demoBase.middleware
          (applyMiddlewares [traceMiddleware "C"] (namedHandler "show"))
          (requestContext demoContext demoRequest [("id", "new")]) freshWorld) :=
  ⟨rfl, rfl, rfl, by intro x hx; simp at hx; subst hx; rfl, rfl, rfl,
    first_match_wins demoBase demoRouter demoContext
      [Registration.get "/blog" (namedHandler "index") []]
      [Registration.addRoute "GET" "/blog/new" (namedHandler "new") []]
      (Registration.get "/blog/:id" (namedHandler "show") [traceMiddleware "C"])
      demoRequest freshWorld ["/blog/new".data, "new".data] [("id", "new")]
      rfl rfl rfl (by intro x hx; simp at hx; subst hx; rfl) rfl rfl⟩

/-- C1, counterexample to the claim as stated: a matching earliest route whose
handler is not invoked. With the template `/\Q:a\E` the compiled pattern has no
capture group for the placeholder name, the route matches `GET /([^/]+)` and
`ServeHTTP` aborts at `matches[i+1]`; and on a router built with a nil context
`ServeHTTP` aborts on every matching request. -/

theorem first_match_not_always_invoked :
    (∃ r, (NewRouter (some demoContext)).Get quotedTemplate (namedHandler "show") [] =
        Except.ok r ∧
      (∃ route, r.routes = [route] ∧
        route.accepts { Method := "GET", Path := "/([^/]+)" } = true) ∧
      r.ServeHTTP freshWorld { Method := "GET", Path := "/([^/]+)" } = Outcome.aborted) ∧
    (∃ r, (NewRouter none).Get "/" (namedHandler "home") [] = Except.ok r ∧
      (∃ route, r.routes = [route] ∧ route.accepts { Method := "GET", Path := "/" } = true) ∧
      r.ServeHTTP freshWorld { Method := "GET", Path := "/" } = Outcome.aborted) :=
  ⟨⟨_, rfl, ⟨_, rfl, rfl⟩, rfl⟩, ⟨_, rfl, ⟨_, rfl, rfl⟩, rfl⟩⟩


/-! ### C2: composition of middleware -/

/-- C2 (as amended). On a router created with a template-engine context, for
the first route of the table that matches the request, when its parameter
binding is in range (the match has a submatch for every parameter name): with
route-level middleware `[m1, ..., mk]` and global middleware `[g1, ..., gn]`,
the handler that `ServeHTTP` runs is `g1 (g2 (... gn (m1 (... mk
routeHandler))))`, applied once to the context of the request; with no
middleware at all it is the route handler itself. The global list is in
registration order because `Use` appends. -/

theorem dispatch_composes_onion (r : Router) (te : Gola.Context) (pre post : List Route)
    (route : Route) (req : Request) (w : World) (subs : List (List Char))
    (params : GoMap String)
    (hroutes : r.routes = pre ++ route :: post)
    (hpre : ∀ x ∈ pre, x.accepts req = false)
    (hm : route.method = req.Method)
    (hf : Regexp.FindStringSubmatch route.pattern req.Path.data = some subs)
    (hte : r.TemplateEngine = some te)
    (hbind : bindParams subs route.paramNames 0 [] = some params) :
    r.ServeHTTP w req =
        Outcome.handled
          (r.middleware.foldr (fun m h => m h)
            (route.middlewares.foldr (fun m h => m h) route.handler)
            (requestContext te req params) w) ∧
      (r.middleware = [] → route.middlewares = [] →
        r.ServeHTTP w req = Outcome.handled (route.handler (requestContext te req params) w)) ∧
      ∀ (r0 : Router) (gs : List MiddlewareFunc),
        (gs.foldl Router.Use r0).middleware = r0.middleware ++ gs := by
  have key : r.ServeHTTP w req =
      Outcome.handled
        (r.middleware.foldr (fun m h => m h)
          (route.middlewares.foldr (fun m h => m h) route.handler)
          (requestContext te req params) w) := by
    unfold Router.ServeHTTP
    rw [hroutes, serveRoutes_skip r req w pre _ hpre, serveRoutes_hit r req w route post subs hm hf,
      serveMatched_ok r route subs req w te params hte hbind, applyMiddlewares_foldr,
      applyMiddlewares_foldr]
  refine ⟨key, ?_, fun r0 gs => (use_all gs r0).1⟩
  intro hg hr
  rw [key, hg, hr]
  rfl

/-- C2, worked instance: global middleware `[A]` around route middleware `[C]`
around the handler of `/blog/:id`. -/
theorem dispatch_composes_onion_witness :
    demoRouter.routes =
      [(Registration.get "/blog" (namedHandler "index") []).route (patternOf "/blog")] ++
        (Registration.get "/blog/:id" (namedHandler "show") [traceMiddleware "C"]).route
            (patternOf "/blog/:id") ::
          [(Registration.addRoute "GET" "/blog/new" (namedHandler "new") []).route
            (patternOf "/blog/new")] ∧
    (∀ x ∈ [(Registration.get "/blog" (namedHandler "index") []).route (patternOf "/blog")],
      x.accepts demoRequest = false) ∧
    (patternOf "/blog/:id").numSubexp = 1 ∧
    Regexp.FindStringSubmatch (patternOf "/blog/:id") demoRequest.Path.data =
      some ["/blog/new".data, "new".data] ∧
    demoRouter.TemplateEngine = some demoContext ∧
    bindParams ["/blog/new".data, "new".data] ["id"] 0 [] = some [("id", "new")] ∧
    demoRouter.ServeHTTP freshWorld demoRequest =
      Outcome.handled
        { writer := ResponseWriter.fresh, log := ["enter A", "enter C", "show", "exit C", "exit A"] } :=
  ⟨rfl, by intro x hx; simp at hx; subst hx; rfl, rfl, rfl, rfl, rfl,
    (dispatch_composes_onion demoRouter demoContext
      [(Registration.get "/blog" (namedHandler "index") []).route (patternOf "/blog")]
      [(Registration.addRoute "GET" "/blog/new" (namedHandler "new") []).route
        (patternOf "/blog/new")]
      ((Registration.get "/blog/:id" (namedHandler "show") [traceMiddleware "C"]).route
        (patternOf "/blog/:id"))
      demoRequest freshWorld ["/blog/new".data, "new".data] [("id", "new")]
      rfl (by intro x hx; simp at hx; subst hx; rfl) rfl rfl rfl rfl).1⟩


/-- C2, counterexample to the claim as stated: a matched route whose composed
handler is not run. The router is built with a nil context, has the global
middleware `[A]` and the route `GET /` with the route-level middleware `[C]`;
the request `GET /` matches the route, and `ServeHTTP` aborts where it reads
the template engine of the context, before it composes or calls any handler. -/
theorem matched_route_without_context_runs_nothing :
    (∃ r, ((NewRouter none).Use (traceMiddleware "A")).AddRoute "GET" "/" (namedHandler "home")
        [traceMiddleware "C"] = Except.ok r ∧
      r.middleware.length = 1 ∧
      (∃ route, r.routes = [route] ∧ route.middlewares.length = 1 ∧
        route.accepts { Method := "GET", Path := "/" } = true) ∧
      r.ServeHTTP freshWorld { Method := "GET", Path := "/" } = Outcome.aborted) ∧
    ∀ w, Outcome.aborted ≠ Outcome.handled w :=
  ⟨⟨_, rfl, rfl, ⟨_, rfl, rfl, rfl⟩, rfl⟩, fun _ h => Outcome.noConfusion h⟩


/-! ### C3: onion order of effects -/

/-- C3 (as amended). Onion order of effects, on a router created with a
template-engine context and for a matched route whose parameter binding is in
range: when every global middleware `gs` and every route-level middleware `ms`
records an entry event, calls `next` once and records an exit event, the log
of the matched request is the entry events of `gs` then `ms` in registration
order, the route handler, and the exit events in the reverse order. -/

theorem dispatch_trace_onion (r : Router) (gs ms : List String) (te : Gola.Context)
    (pre post : List Route) (route : Route) (req : Request) (w : World)
    (subs : List (List Char)) (params : GoMap String)
    (hroutes : r.routes = pre ++ route :: post)
    (hpre : ∀ x ∈ pre, x.accepts req = false)
    (hm : route.method = req.Method)
    (hf : Regexp.FindStringSubmatch route.pattern req.Path.data = some subs)
    (hte : r.TemplateEngine = some te)
    (hbind : bindParams subs route.paramNames 0 [] = some params)
    (hg : r.middleware = gs.map traceMiddleware)
    (hms : route.middlewares = ms.map traceMiddleware)
    (hh : route.handler = traceHandler) :
    r.ServeHTTP w req =
      Outcome.handled
        { writer := w.writer,
          log := w.log ++ ((gs ++ ms).map fun n => "enter " ++ n) ++ ["route handler"] ++
                   ((gs ++ ms).reverse.map fun n => "exit " ++ n) } := by
  unfold Router.ServeHTTP
  rw [hroutes, serveRoutes_skip r req w pre _ hpre, serveRoutes_hit r req w route post subs hm hf,
    serveMatched_ok r route subs req w te params hte hbind, applyMiddlewares_foldr,
    applyMiddlewares_foldr, hg, hms, hh, trace_chain, trace_chain, enter_log, enter_log]
  simp [traceHandler, logLine, List.append_assoc]

/-- C3, worked instance: global `[A, B]` and route-level `[C, D]` give the trace
enter A, enter B, enter C, enter D, route handler, exit D, exit C, exit B,
exit A. -/
theorem dispatch_trace_onion_witness :
    traceRouter.routes = [] ++
      { method := "GET", pattern := patternOf "/blog/:id", paramNames := ["id"],
        handler := traceHandler,
        middlewares := [traceMiddleware "C", traceMiddleware "D"] } :: [] ∧
    Regexp.FindStringSubmatch (patternOf "/blog/:id") "/blog/7".data =
      some ["/blog/7".data, "7".data] ∧
    bindParams ["/blog/7".data, "7".data] ["id"] 0 [] = some [("id", "7")] ∧
    traceRouter.ServeHTTP freshWorld { Method := "GET", Path := "/blog/7" } =
      Outcome.handled
        { writer := ResponseWriter.fresh,
          log := ["enter A", "enter B", "enter C", "enter D", "route handler",
                  "exit D", "exit C", "exit B", "exit A"] } :=
  ⟨rfl, rfl, rfl,
    dispatch_trace_onion traceRouter ["A", "B"] ["C", "D"] demoContext [] []
      { method := "GET", pattern := patternOf "/blog/:id", paramNames := ["id"],
        handler := traceHandler,
        middlewares := [traceMiddleware "C", traceMiddleware "D"] }
      { Method := "GET", Path := "/blog/7" } freshWorld ["/blog/7".data, "7".data] [("id", "7")]
      rfl (by simp) rfl rfl rfl rfl rfl rfl rfl⟩


/-- C3, counterexample to the claim as stated: a matched request that leaves
no trace. The router of the worked instance, with global middleware `[A, B]`
and route-level middleware `[C, D]` that record entry and exit, but built with
a nil context: the request `GET /blog/7` matches the route, `ServeHTTP` aborts
before the first middleware is entered, and the outcome carries no log. -/
theorem matched_request_without_context_leaves_no_trace :
    ({ traceRouter with TemplateEngine := none } : Router).routes.map
        (fun x => x.accepts { Method := "GET", Path := "/blog/7" }) = [true] ∧
    ({ traceRouter with TemplateEngine := none } : Router).middleware.length = 2 ∧
    ({ traceRouter with TemplateEngine := none } : Router).ServeHTTP freshWorld
        { Method := "GET", Path := "/blog/7" } = Outcome.aborted ∧
    (Outcome.aborted).writer? = none :=
  ⟨rfl, rfl, rfl, rfl⟩


/-! ### The reading of a template -/

/-- The class `[a-zA-Z0-9_]` holds the letters, digits and the underscore. -/
theorem isNameChar_eq (c : Char) : isNameChar c = isNameLetter c := by
  simp only [isNameChar, isNameLetter, Char.isAlphanum, Char.isAlpha, Char.isUpper, Char.isLower,
    Char.isDigit]
  have e1 : ('a' ≤ c) = (c.val ≥ 97) := rfl
  have e2 : (c ≤ 'z') = (c.val ≤ 122) := rfl
  have e3 : ('A' ≤ c) = (c.val ≥ 65) := rfl
  have e4 : (c ≤ 'Z') = (c.val ≤ 90) := rfl
  have e5 : ('0' ≤ c) = (c.val ≥ 48) := rfl
  have e6 : (c ≤ '9') = (c.val ≤ 57) := rfl
  simp only [e1, e2, e3, e4, e5, e6]
  cases decide (c.val ≥ 97) <;> cases decide (c.val ≤ 122) <;> cases decide (c.val ≥ 65) <;>
    cases decide (c.val ≤ 90) <;> cases decide (c.val ≥ 48) <;> cases decide (c.val ≤ 57) <;>
    cases decide (c = '_') <;> rfl

theorem placeholderNames_eq (toks : List Token) : placeholderNames toks = tokenNames toks := by
  induction toks with
  | nil => rfl
  | cons t ts ih =>
    cases t with
    | lit c => simpa [placeholderNames, tokenNames] using ih
    | param n => simpa [placeholderNames, tokenNames] using ih

/-- The text of pieces that do not start with a character of a name has no
leading run of name characters. -/
theorem takeWhile_source (ts : List Token) (h : startsWithNameLetter ts = false) :
    (ts.flatMap Token.source).takeWhile isNameChar = [] ∧
    (ts.flatMap Token.source).dropWhile isNameChar = ts.flatMap Token.source := by
  cases ts with
  | nil => exact ⟨rfl, rfl⟩
  | cons t ts =>
    cases t with
    | lit c =>
      have hc : isNameChar c = false := by rw [isNameChar_eq]; exact h
      simp [Token.source, List.takeWhile, List.dropWhile, hc, List.flatMap]
    | param n =>
      have hc : isNameChar ':' = false := by decide
      simp [Token.source, List.takeWhile, List.dropWhile, hc, List.flatMap]

/-- The scanner of `AddRoute` finds the reading of a template. -/
theorem scanFuel_reading (toks : List Token) :
    ∀ f, (toks.flatMap Token.source).length ≤ f → wellRead toks = true →
      scanFuel f (toks.flatMap Token.source) = toks := by
  induction toks with
  | nil =>
    intro f _ _
    cases f <;> rfl
  | cons t ts ih =>
    intro f hf hw
    cases t with
    | lit c =>
      simp only [wellRead, Bool.and_eq_true, Bool.or_eq_true, Bool.not_eq_true',
        decide_eq_true_eq] at hw
      simp only [List.flatMap_cons, Token.source, List.singleton_append, List.length_cons] at hf ⊢
      cases f with
      | zero => omega
      | succ f =>
        have hcond : ¬ (c = ':' ∧ (ts.flatMap Token.source).takeWhile isNameChar ≠ []) := by
          rintro ⟨hc, hne⟩
          rcases hw.1 with h1 | h1
          · exact h1 hc
          · exact hne (takeWhile_source ts h1).1
        simp only [scanFuel, hcond, if_false]
        rw [ih f (by omega) hw.2]
    | param n =>
      simp only [wellRead, Bool.and_eq_true, Bool.not_eq_true', List.isEmpty_eq_false,
        List.all_eq_true] at hw
      obtain ⟨⟨⟨hne, hall⟩, hstart⟩, hrest⟩ := hw
      simp only [List.flatMap_cons, Token.source, List.cons_append, List.length_cons,
        List.length_append] at hf ⊢
      have hall2 : ∀ c ∈ n, isNameChar c = true := fun c hc => by
        rw [isNameChar_eq]; exact hall c hc
      have htw : (n ++ ts.flatMap Token.source).takeWhile isNameChar = n := by
        rw [List.takeWhile_append_of_pos hall2, (takeWhile_source ts hstart).1, List.append_nil]
      have hdw : (n ++ ts.flatMap Token.source).dropWhile isNameChar = ts.flatMap Token.source := by
        rw [List.dropWhile_append_of_pos hall2, (takeWhile_source ts hstart).2]
      cases f with
      | zero => omega
      | succ f =>
        have hcond : (':' = ':' ∧ (n ++ ts.flatMap Token.source).takeWhile isNameChar ≠ []) := by
          refine ⟨rfl, ?_⟩
          rw [htw]
          exact hne
        rw [scanFuel, if_pos hcond, htw, hdw, ih f (by omega) hrest]

/-- A template has one reading, and it is the one that `AddRoute` uses. -/
theorem scanTemplate_reading (toks : List Token) (template : List Char)
    (h : Reading toks template) : scanTemplate template = toks := by
  obtain ⟨hw, hs⟩ := h
  subst hs
  exact scanFuel_reading toks _ (Nat.le_refl _) hw

theorem startsWith_scanFuel (f : Nat) (s : List Char) (hf : s.length ≤ f) :
    startsWithNameLetter (scanFuel f s) = (s.head?.map isNameChar).getD false := by
  cases s with
  | nil => cases f <;> rfl
  | cons c t =>
    cases f with
    | zero => simp at hf
    | succ f =>
      simp only [scanFuel]
      split
      · rename_i h
        rw [h.1]
        rfl
      · simp [startsWithNameLetter, isNameChar_eq]

theorem head_dropWhile (p : Char → Bool) (t : List Char) :
    ((t.dropWhile p).head?.map p).getD false = false := by
  induction t with
  | nil => rfl
  | cons a t ih =>
    by_cases h : p a = true
    · simpa [List.dropWhile, h] using ih
    · simp [List.dropWhile, h]

theorem head_of_takeWhile_nil (p : Char → Bool) (t : List Char) (h : t.takeWhile p = []) :
    (t.head?.map p).getD false = false := by
  cases t with
  | nil => rfl
  | cons a t =>
    by_cases h1 : p a = true
    · simp [List.takeWhile, h1] at h
    · simpa using h1

/-- What the scanner of `AddRoute` finds is well read. -/
theorem scanFuel_wellRead (f : Nat) :
    ∀ s : List Char, s.length ≤ f → wellRead (scanFuel f s) = true := by
  induction f with
  | zero => intro s _; rfl
  | succ f ih =>
    intro s hf
    cases s with
    | nil => rfl
    | cons c t =>
      have ht : t.length ≤ f := by simpa using hf
      have hdl : (t.dropWhile isNameChar).length ≤ f :=
        Nat.le_trans (List.dropWhile_sublist _).length_le ht
      simp only [scanFuel]
      split
      · rename_i h
        simp only [wellRead, Bool.and_eq_true, Bool.not_eq_true', List.isEmpty_eq_false,
          List.all_eq_true]
        refine ⟨⟨⟨h.2, ?_⟩, ?_⟩, ih _ hdl⟩
        · intro x hx
          rw [← isNameChar_eq]
          exact (List.mem_takeWhile_imp hx)
        · rw [startsWith_scanFuel f _ hdl]
          exact head_dropWhile _ _
      · rename_i h
        simp only [wellRead, Bool.and_eq_true, Bool.or_eq_true, Bool.not_eq_true',
          decide_eq_true_eq]
        refine ⟨?_, ih _ ht⟩
        by_cases hc : c = ':'
        · right
          rw [startsWith_scanFuel f _ ht]
          apply head_of_takeWhile_nil
          by_contra hne
          exact h ⟨hc, hne⟩
        · left
          simpa using hc

/-- Every template has a reading: the pieces that `AddRoute` scans. -/
theorem reading_exists (template : List Char) : Reading (scanTemplate template) template :=
  ⟨scanFuel_wellRead _ _ (Nat.le_refl _), scanTemplate_source template⟩

/-! ### C4: what a compiled template accepts -/

/-- C4 (as amended). For every path template without regular-expression
metacharacters, read as literal characters and placeholders `:name` (each
name a longest run of letters, digits and underscores after a colon):
`AddRoute` compiles a pattern (it does not abort) and appends the route with
that pattern and the placeholder names, and the pattern accepts a path if and
only if the whole path is the template with each placeholder replaced by some
non-empty string without a slash and every other character kept as it is. -/
theorem plain_template_accepts_iff (template : String) (toks : List Token)
    (hplain : ∀ c ∈ template.data, isMetaChar c = false)
    (hread : Reading toks template.data) :
    ∃ p, compileTemplate template = Except.ok p ∧
      (∀ (r : Router) (m : String) (h : Handler) (ms : List MiddlewareFunc),
        r.AddRoute m template h ms =
          Except.ok { r with routes := r.routes ++
            [{ method := m, pattern := p, paramNames := placeholderNames toks,
               handler := h, middlewares := ms }] }) ∧
      ∀ path : List Char, (FindStringSubmatch p path).isSome = true ↔ Fills toks path := by
  have hs := scanTemplate_reading toks _ hread
  subst hs
  have hc := compile_plain template hplain (fun c hc => scanFuel_lit_mem _ _ c hc)
  refine ⟨_, hc, ?_, ?_⟩
  · intro r m h ms
    simp only [Router.AddRoute, hc, placeholderNames_eq]
  · intro path
    rw [mkCat_cons, find_anchored, fills_iff]
    constructor
    · intro h
      cases hr : run path.length
          (mkCat (tokRegexes 0 (scanTemplate template.data) ++ [Regex.endText])) path []
          (fun s1 c1 => some (s1, c1)) with
      | none => simp [hr] at h
      | some res =>
        obtain ⟨vals, hl, hv, hs, _⟩ := chain_sound path.length _ 0 path [] _ res hr
        exact ⟨vals, hl, hv, hs⟩
    · rintro ⟨vals, hl, hv, hs⟩
      have := chain_complete (α := List Char × Caps) path.length (scanTemplate template.data) 0
        vals [] (fun s1 c1 => some (s1, c1)) hl hv (fun _ => rfl)
      rw [← hs] at this
      obtain ⟨res, hres⟩ := Option.isSome_iff_exists.mp this
      simp [hres]

/-- C4, worked instance: the template `/blog/:id`, read as the six characters
of `/blog/` and the placeholder `id`; its pattern accepts `/blog/42` and
accepts neither `/blog/`, `/blog/42/edit` nor `/blog/:id/x`. -/
theorem plain_template_accepts_iff_witness :
    (∀ c ∈ "/blog/:id".data, isMetaChar c = false) ∧
    Reading ("/blog/".data.map Token.lit ++ [Token.param "id".data]) "/blog/:id".data ∧
    (∃ p, compileTemplate "/blog/:id" = Except.ok p ∧
      (∀ (r : Router) (m : String) (h : Handler) (ms : List MiddlewareFunc),
        r.AddRoute m "/blog/:id" h ms =
          Except.ok { r with routes := r.routes ++
            [{ method := m, pattern := p,
               paramNames :=
                 placeholderNames ("/blog/".data.map Token.lit ++ [Token.param "id".data]),
               handler := h, middlewares := ms }] }) ∧
      ∀ path : List Char, (FindStringSubmatch p path).isSome = true ↔
        Fills ("/blog/".data.map Token.lit ++ [Token.param "id".data]) path) ∧
    placeholderNames ("/blog/".data.map Token.lit ++ [Token.param "id".data]) = ["id"] ∧
    (FindStringSubmatch (patternOf "/blog/:id") "/blog/42".data).isSome = true ∧
    (FindStringSubmatch (patternOf "/blog/:id") "/blog/".data).isSome = false ∧
    (FindStringSubmatch (patternOf "/blog/:id") "/blog/42/edit".data).isSome = false :=
  ⟨by decide, ⟨by decide, rfl⟩,
    plain_template_accepts_iff "/blog/:id" _ (by decide) ⟨by decide, rfl⟩, rfl, rfl, rfl, rfl⟩

/-- C4, counterexample to the claim as stated: the template `/a.b` has no
placeholder, yet its pattern accepts the path `/axb`, because the characters
of a template are not escaped and the dot is a metacharacter. -/
theorem unescaped_dot_accepts_other_path :
    (compileTemplate "/a.b").toOption.map (fun p => (FindStringSubmatch p "/axb".data).isSome) =
      some true ∧
    Reading [Token.lit '/', Token.lit 'a', Token.lit '.', Token.lit 'b'] "/a.b".data ∧
    ¬ Fills [Token.lit '/', Token.lit 'a', Token.lit '.', Token.lit 'b'] "/axb".data := by
  refine ⟨rfl, ⟨by decide, rfl⟩, ?_⟩
  simp [Fills]


/-! ### C5: the template `/blog/:id` -/

/-- C5. The route compiled from `/blog/:id` has the single parameter name `id`;
its pattern matches `/blog/42` with the submatch `42`, and the handler is run
on a context in which `Param("id")` is `42`; the pattern matches neither
`/blog/42/edit` nor `/blog`, and both requests end in the not-found response. -/

theorem blog_id_template_matches :
    (NewRouter (some demoContext)).Get "/blog/:id" (paramHandler "id") [] =
      Except.ok (blogRouter (paramHandler "id")) ∧
    (blogRouter (paramHandler "id")).routes.map (fun x => x.paramNames) = [["id"]] ∧
    (blogRouter (paramHandler "id")).routes.map
        (fun x => Regexp.FindStringSubmatch x.pattern "/blog/42".data) =
      [some ["/blog/42".data, "42".data]] ∧
    (blogRouter (paramHandler "id")).ServeHTTP freshWorld { Method := "GET", Path := "/blog/42" } =
      Outcome.handled
        (paramHandler "id"
          (requestContext demoContext { Method := "GET", Path := "/blog/42" } [("id", "42")])
          freshWorld) ∧
    paramHandler "id"
        (requestContext demoContext { Method := "GET", Path := "/blog/42" } [("id", "42")])
        freshWorld = { writer := ResponseWriter.fresh, log := ["42"] } ∧
    (blogRouter (paramHandler "id")).routes.map
        (fun x => Regexp.FindStringSubmatch x.pattern "/blog/42/edit".data) = [none] ∧
    (blogRouter (paramHandler "id")).routes.map
        (fun x => Regexp.FindStringSubmatch x.pattern "/blog".data) = [none] ∧
    (blogRouter (paramHandler "id")).ServeHTTP freshWorld
        { Method := "GET", Path := "/blog/42/edit" } =
      Outcome.notFound { writer := httpNotFound ResponseWriter.fresh, log := [] } ∧
    (blogRouter (paramHandler "id")).ServeHTTP freshWorld { Method := "GET", Path := "/blog" } =
      Outcome.notFound { writer := httpNotFound ResponseWriter.fresh, log := [] } :=
  ⟨rfl, rfl, rfl, rfl, rfl, rfl, rfl, rfl, rfl⟩


/-! ### C6: the parameter mapping -/

/-- C6 (as amended). For a template without regular-expression metacharacters,
read as literal characters and placeholders `:name`, whose placeholder names
are pairwise distinct: when the pattern that `AddRoute` compiled for it
matches a path, there is a mapping whose keys are exactly the placeholder
names in template order, such that replacing each placeholder of the template
by the value mapped to its name gives back the path, every value being a
non-empty part of the path without a slash; `AddRoute` appends a route whose
binding loop succeeds with this mapping, and the context passed to the
handler holds it as `Params`. -/
theorem params_bind_placeholders (template : String) (toks : List Token) (p : Compiled)
    (path : String) (subs : List (List Char))
    (hplain : ∀ c ∈ template.data, isMetaChar c = false)
    (hread : Reading toks template.data)
    (hnodup : (placeholderNames toks).Nodup)
    (hc : compileTemplate template = Except.ok p)
    (hf : FindStringSubmatch p path.data = some subs) :
    ∃ params,
      GoMap.keys params = placeholderNames toks ∧
      fillWith params toks = path.data ∧
      (∀ name ∈ placeholderNames toks,
        ∃ v, GoMap.get? params name = some v ∧ v.data ≠ [] ∧ '/' ∉ v.data) ∧
      ∀ (r : Router) (te : Gola.Context) (m : String) (h : Handler) (ms : List MiddlewareFunc)
        (w : World),
        r.TemplateEngine = some te →
        ∃ route, r.AddRoute m template h ms =
            Except.ok { r with routes := r.routes ++ [route] } ∧
          route.pattern = p ∧
          bindParams subs route.paramNames 0 [] = some params ∧
          serveMatched { r with routes := r.routes ++ [route] } route subs
              { Method := m, Path := path } w =
            Outcome.handled
              (applyMiddlewares r.middleware (applyMiddlewares ms h)
                (requestContext te { Method := m, Path := path } params) w) := by
  have hs := scanTemplate_reading toks _ hread
  subst hs
  rw [placeholderNames_eq] at hnodup ⊢
  obtain ⟨vals, hl, hv, hs, hsubs⟩ := find_plain_sound template p path.data subs hplain hc hf
  have hb := bindParams_zip path.data (tokenNames (scanTemplate template.data)) vals [] []
    hl.symm
  simp only [List.nil_append, List.length_nil] at hb
  have hkeysz : ((tokenNames (scanTemplate template.data)).zip (vals.map String.mk)).map Prod.fst =
      tokenNames (scanTemplate template.data) := by
    rw [List.map_fst_zip]
    simp [hl]
  have hget : ∀ e ∈ (tokenNames (scanTemplate template.data)).zip (vals.map String.mk),
      GoMap.get?
        (((tokenNames (scanTemplate template.data)).zip (vals.map String.mk)).foldl
          (fun q e => GoMap.set q e.1 e.2) []) e.1 = some e.2 := by
    intro e he
    rw [get_merge _ _ _ (by rw [hkeysz]; exact hnodup)]
    have := lookup_zip _ _ e hnodup he
    simp [GoMap.get?, this]
  refine ⟨((tokenNames (scanTemplate template.data)).zip (vals.map String.mk)).foldl
    (fun q e => GoMap.set q e.1 e.2) [], ?_, ?_, ?_, ?_⟩
  · rw [keys_merge _ _ (by rw [hkeysz]; exact hnodup) (by simp [GoMap.keys])]
    simp [GoMap.keys, hkeysz]
  · rw [hs]
    apply fillWith_eq _ _ vals hl
    intro e he
    have he2 : (e.1, String.mk e.2) ∈
        (tokenNames (scanTemplate template.data)).zip (vals.map String.mk) := by
      rw [List.zip_map_right]
      exact List.mem_map.mpr ⟨e, he, rfl⟩
    exact hget _ he2
  · intro name hname
    rw [← hkeysz] at hname
    obtain ⟨e, he, hen⟩ := List.mem_map.mp hname
    have hval := hget e he
    rw [List.zip_map_right] at he
    obtain ⟨e0, he0, hee⟩ := List.mem_map.mp he
    have hv0 := hv e0.2 (List.of_mem_zip he0).2
    refine ⟨e.2, by rw [← hen]; exact hval, ?_⟩
    rw [← hee]
    exact hv0
  · intro r te m h ms w hte
    refine ⟨{ method := m, pattern := p, paramNames := tokenNames (scanTemplate template.data),
              handler := h, middlewares := ms }, ?_, rfl, by rw [hsubs]; exact hb, ?_⟩
    · simp only [Router.AddRoute, hc]
    · exact serveMatched_ok _ _ subs _ w te _ hte (by rw [hsubs]; exact hb)

/-- C6, worked instance: the template `/users/:uid/posts/:pid` and the path
`/users/7/posts/42`: the mapping is `uid = 7`, `pid = 42`. -/
theorem params_bind_placeholders_witness :
    (∀ c ∈ "/users/:uid/posts/:pid".data, isMetaChar c = false) ∧
    Reading ("/users/".data.map Token.lit ++ Token.param "uid".data ::
        ("/posts/".data.map Token.lit ++ [Token.param "pid".data]))
      "/users/:uid/posts/:pid".data ∧
    placeholderNames ("/users/".data.map Token.lit ++ Token.param "uid".data ::
        ("/posts/".data.map Token.lit ++ [Token.param "pid".data])) = ["uid", "pid"] ∧
    compileTemplate "/users/:uid/posts/:pid" = Except.ok (patternOf "/users/:uid/posts/:pid") ∧
    FindStringSubmatch (patternOf "/users/:uid/posts/:pid") "/users/7/posts/42".data =
      some ["/users/7/posts/42".data, "7".data, "42".data] ∧
    bindParams ["/users/7/posts/42".data, "7".data, "42".data] ["uid", "pid"] 0 [] =
      some [("uid", "7"), ("pid", "42")] ∧
    ∃ params,
      GoMap.keys params = placeholderNames ("/users/".data.map Token.lit ++
        Token.param "uid".data :: ("/posts/".data.map Token.lit ++ [Token.param "pid".data])) ∧
      fillWith params ("/users/".data.map Token.lit ++ Token.param "uid".data ::
        ("/posts/".data.map Token.lit ++ [Token.param "pid".data])) = "/users/7/posts/42".data ∧
      (∀ name ∈ placeholderNames ("/users/".data.map Token.lit ++ Token.param "uid".data ::
          ("/posts/".data.map Token.lit ++ [Token.param "pid".data])),
        ∃ v, GoMap.get? params name = some v ∧ v.data ≠ [] ∧ '/' ∉ v.data) ∧
      ∀ (r : Router) (te : Gola.Context) (m : String) (h : Handler) (ms : List MiddlewareFunc)
        (w : World),
        r.TemplateEngine = some te →
        ∃ route, r.AddRoute m "/users/:uid/posts/:pid" h ms =
            Except.ok { r with routes := r.routes ++ [route] } ∧
          route.pattern = patternOf "/users/:uid/posts/:pid" ∧
          bindParams ["/users/7/posts/42".data, "7".data, "42".data] route.paramNames 0 [] =
            some params ∧
          serveMatched { r with routes := r.routes ++ [route] } route
              ["/users/7/posts/42".data, "7".data, "42".data]
              { Method := m, Path := "/users/7/posts/42" } w =
            Outcome.handled
              (applyMiddlewares r.middleware (applyMiddlewares ms h)
                (requestContext te { Method := m, Path := "/users/7/posts/42" } params) w) :=
  ⟨by decide, ⟨by decide, rfl⟩, rfl, rfl, rfl, rfl,
    params_bind_placeholders "/users/:uid/posts/:pid"
      ("/users/".data.map Token.lit ++ Token.param "uid".data ::
        ("/posts/".data.map Token.lit ++ [Token.param "pid".data]))
      (patternOf "/users/:uid/posts/:pid")
      "/users/7/posts/42" ["/users/7/posts/42".data, "7".data, "42".data]
      (by decide) ⟨by decide, rfl⟩ (by decide) rfl rfl⟩

/-- C6, counterexample to the claim as stated: the template `/:id/:id` has two
placeholders but `Params` gets the single entry `id = b` for the path `/a/b`;
and in the template `/(en|fr)/:id` the first placeholder is the second capture
group, so that `id` is bound to `en` for the path `/en/7`. -/

theorem params_not_one_entry_per_placeholder :
    tokenNames (scanTemplate "/:id/:id".data) = ["id", "id"] ∧
    (compileTemplate "/:id/:id").toOption.map
        (fun p => FindStringSubmatch p "/a/b".data) =
      some (some ["/a/b".data, "a".data, "b".data]) ∧
    bindParams ["/a/b".data, "a".data, "b".data] (tokenNames (scanTemplate "/:id/:id".data)) 0 [] =
      some [("id", "b")] ∧
    tokenNames (scanTemplate "/(en|fr)/:id".data) = ["id"] ∧
    (compileTemplate "/(en|fr)/:id").toOption.map
        (fun p => FindStringSubmatch p "/en/7".data) =
      some (some ["/en/7".data, "en".data, "7".data]) ∧
    bindParams ["/en/7".data, "en".data, "7".data]
        (tokenNames (scanTemplate "/(en|fr)/:id".data)) 0 [] =
      some [("id", "en")] :=
  ⟨rfl, rfl, rfl, rfl, rfl, rfl⟩


/-! ### C7: the not-found response -/

/-- C7. `ServeHTTP` ends in the not-found response if and only if no route of
the table has both the method of the request and a pattern that accepts the
path. In that case the world is the one before the call with only
`http.NotFound` applied to the response writer: the log is unchanged and no
handler or middleware has acted. On a fresh writer the response has status
404 and the body `404 page not found`. -/

theorem not_found_iff_no_route_accepts (r : Router) (w : World) (req : Request) :
    ((∃ w1, r.ServeHTTP w req = Outcome.notFound w1) ↔ ∀ x ∈ r.routes, x.accepts req = false) ∧
    ((∃ w1, r.ServeHTTP w req = Outcome.notFound w1) ↔
      r.ServeHTTP w req = Outcome.notFound { writer := httpNotFound w.writer, log := w.log }) ∧
    (httpNotFound ResponseWriter.fresh).status = 404 ∧
    (httpNotFound ResponseWriter.fresh).body = "404 page not found\n" := by
  refine ⟨serveRoutes_notFound_iff r req w r.routes, ⟨?_, fun h => ⟨_, h⟩⟩, rfl, rfl⟩
  intro h
  exact serveRoutes_miss r req w r.routes ((serveRoutes_notFound_iff r req w r.routes).mp h)


/-! ### C8: end to end JSON response -/

/-- C8 (as amended). With the route `GET /blog/:id` whose handler calls
`ctx.JSON(200, map[string]any{"id": ctx.Param("id")})`, the request
`GET /blog/7` gets status 200, the header `Content-Type: application/json;
charset=utf-8`, and the body made of the JSON text for id 7 followed by a
newline. -/

theorem blog_id_json_end_to_end :
    ((blogRouter showIdHandler).ServeHTTP freshWorld { Method := "GET", Path := "/blog/7" }).writer?.map
        (fun w => (w.wroteHeader, w.status, GoMap.get? w.sentHeader "Content-Type", w.body)) =
      some (true, 200, some "application/json; charset=utf-8", "\x7b\"id\":\"7\"\x7d\n") := by
  rfl

/-- C8, counterexample to the claim as stated: the body is not exactly the JSON
text, since the encoder ends its output with a newline. -/

theorem blog_id_json_body_not_exact :
    ((blogRouter showIdHandler).ServeHTTP freshWorld { Method := "GET", Path := "/blog/7" }).writer?.map
        (fun w => w.body) ≠ some "\x7b\"id\":\"7\"\x7d" := by
  decide


/-! ### C9: the payload of `Context.View` -/

/-- C9 (as amended). The payload of `Context.View`. When the data is a
`map[string]any` (with distinct keys), every key of the data is in the payload
with the value of the data, a key that the data does not supply has the base
value (`Flash`, `FlashType`), and the payload has no other key. For a value of
any other dynamic type the payload is exactly `Flash`, `FlashType` and the
value under `Data`. In both cases this payload is what `View` hands to the
template engine; the data itself is only read. -/

theorem view_payload_merge (c : Gola.Context) (d : List (String × GoValue)) (data : GoValue)
    (engine : View.TemplateEngine) (w : ResponseWriter) (name : String)
    (hd : (GoMap.keys d).Nodup)
    (hdata : ∀ m, data ≠ GoValue.mapStringAny m)
    (he : c.TemplateEngine = some engine) :
    (∀ k, GoMap.get? (c.viewPayload (GoValue.mapStringAny d)) k =
        (GoMap.get? d k).or (GoMap.get? (basePayload c) k)) ∧
    (∀ k, (GoMap.get? (c.viewPayload (GoValue.mapStringAny d)) k).isSome = true ↔
        k ∈ GoMap.keys d ∨ k = "Flash" ∨ k = "FlashType") ∧
    c.viewPayload data =
      [("Flash", GoValue.str c.Flash), ("FlashType", GoValue.str c.FlashType), ("Data", data)] ∧
    c.View w name (GoValue.mapStringAny d) [] =
      engine.Render w name (GoValue.mapStringAny (c.viewPayload (GoValue.mapStringAny d))) ∧
    c.View w name data [] = engine.Render w name (GoValue.mapStringAny (c.viewPayload data)) := by
  have hmerge : ∀ k, GoMap.get? (c.viewPayload (GoValue.mapStringAny d)) k =
        (GoMap.get? d k).or (GoMap.get? (basePayload c) k) := by
    intro k
    exact get_merge d (basePayload c) k hd
  refine ⟨hmerge, ?_, ?_, ?_, ?_⟩
  · intro k
    rw [hmerge k]
    cases hk : GoMap.get? d k with
    | some v =>
      simp only [Option.or_some, Option.isSome_some, true_iff]
      left
      obtain ⟨l1, l2, hl12, _⟩ := List.lookup_eq_some_iff.mp hk
      simp [GoMap.keys, hl12]
    | none =>
      have hnot : k ∉ GoMap.keys d := by
        intro hmem
        simp only [GoMap.keys, List.mem_map] at hmem
        obtain ⟨a, ha, hak⟩ := hmem
        have h2 := (List.lookup_eq_none_iff.mp hk) a ha
        simp [hak] at h2
      simp only [Option.none_or, hnot, false_or]
      by_cases h1 : k = "Flash"
      · subst h1; simp [basePayload, GoMap.get?, lookup_cons_eq]
      · by_cases h2 : k = "FlashType"
        · subst h2
          simp [basePayload, GoMap.get?, lookup_cons_ne _ _ _ _ h1, lookup_cons_eq]
        · simp [basePayload, GoMap.get?, lookup_cons_ne _ _ _ _ h1, lookup_cons_ne _ _ _ _ h2,
            h1, h2]
  · cases data with
    | mapStringAny m => exact absurd rfl (hdata m)
    | null => rfl
    | str s => rfl
    | int n => rfl
    | bool b => rfl
    | mapStringString m => rfl
    | slice vs => rfl
    | other t => rfl
  · simp [Gola.Context.View, he, Gola.firstLayout]
  · simp [Gola.Context.View, he, Gola.firstLayout]

/-- C9, worked instance: a map that overrides `Flash`, and an integer. -/
theorem view_payload_merge_witness :
    (GoMap.keys [("title", GoValue.str "Home"), ("Flash", GoValue.str "saved")]).Nodup ∧
    (∀ m, GoValue.int 7 ≠ GoValue.mapStringAny m) ∧
    demoContext.TemplateEngine = some demoEngine ∧
    ((∀ k, GoMap.get? (demoContext.viewPayload
          (GoValue.mapStringAny [("title", GoValue.str "Home"), ("Flash", GoValue.str "saved")])) k =
        (GoMap.get? [("title", GoValue.str "Home"), ("Flash", GoValue.str "saved")] k).or
          (GoMap.get? (basePayload demoContext) k)) ∧
    (∀ k, (GoMap.get? (demoContext.viewPayload
          (GoValue.mapStringAny [("title", GoValue.str "Home"), ("Flash", GoValue.str "saved")]))
          k).isSome = true ↔
        k ∈ GoMap.keys [("title", GoValue.str "Home"), ("Flash", GoValue.str "saved")] ∨
          k = "Flash" ∨ k = "FlashType") ∧
    demoContext.viewPayload (GoValue.int 7) =
      [("Flash", GoValue.str demoContext.Flash), ("FlashType", GoValue.str demoContext.FlashType),
       ("Data", GoValue.int 7)] ∧
    demoContext.View ResponseWriter.fresh "home"
        (GoValue.mapStringAny [("title", GoValue.str "Home"), ("Flash", GoValue.str "saved")]) [] =
      demoEngine.Render ResponseWriter.fresh "home"
        (GoValue.mapStringAny (demoContext.viewPayload
          (GoValue.mapStringAny [("title", GoValue.str "Home"), ("Flash", GoValue.str "saved")]))) ∧
    demoContext.View ResponseWriter.fresh "home" (GoValue.int 7) [] =
      demoEngine.Render ResponseWriter.fresh "home"
        (GoValue.mapStringAny (demoContext.viewPayload (GoValue.int 7)))) :=
  ⟨by decide, fun _ h => GoValue.noConfusion h, rfl,
    view_payload_merge demoContext [("title", GoValue.str "Home"), ("Flash", GoValue.str "saved")]
      (GoValue.int 7) demoEngine ResponseWriter.fresh "home" (by decide)
      (fun _ h => GoValue.noConfusion h) rfl⟩

/-- C9, counterexample to the claim as stated: a `map[string]string` is a
string-keyed mapping, but its keys are not merged; it is stored under `Data`. -/

theorem view_payload_other_map_not_merged :
    GoMap.keys (demoContext.viewPayload (GoValue.mapStringString [("title", "Home")])) =
      ["Flash", "FlashType", "Data"] ∧
    GoMap.get? (demoContext.viewPayload (GoValue.mapStringString [("title", "Home")])) "title" =
      none :=
  ⟨rfl, rfl⟩


/-! ### C10: layout resolution -/

/-- C10. Layout resolution for a registered view `v`: `Context.View` with the
layout `remove` executes the entry `content`; `Context.View` with a non-empty
layout other than `remove`, and `RenderWithLayout` with a non-empty layout,
execute the entry of that name; `Context.View` with no layout or the empty
string, `RenderWithLayout` with the empty string, and `Render` execute the
entry named by `DefaultLayout`; and `RenderWithLayout` with the empty string
is `Render` for every view, registered or not. -/

theorem layout_resolution (c : Gola.Context) (e : View.TemplateEngine) (tmpl : View.TemplateSet)
    (w : ResponseWriter) (v l : String) (data : GoValue) (more : List String)
    (he : c.TemplateEngine = some e)
    (hv : GoMap.get? e.templates v = some tmpl)
    (hl : l ≠ "")
    (hr : l ≠ "remove") :
    c.View w v data ("remove" :: more) =
        View.ExecuteTemplate tmpl w "content" (GoValue.mapStringAny (c.viewPayload data)) ∧
    c.View w v data (l :: more) =
        View.ExecuteTemplate tmpl w l (GoValue.mapStringAny (c.viewPayload data)) ∧
    e.RenderWithLayout w v l data = View.ExecuteTemplate tmpl w l data ∧
    c.View w v data [] =
        View.ExecuteTemplate tmpl w e.DefaultLayout (GoValue.mapStringAny (c.viewPayload data)) ∧
    c.View w v data ("" :: more) =
        View.ExecuteTemplate tmpl w e.DefaultLayout (GoValue.mapStringAny (c.viewPayload data)) ∧
    e.RenderWithLayout w v "" data = View.ExecuteTemplate tmpl w e.DefaultLayout data ∧
    e.Render w v data = View.ExecuteTemplate tmpl w e.DefaultLayout data ∧
    ∀ (w1 : ResponseWriter) (v1 : String) (d1 : GoValue),
      e.RenderWithLayout w1 v1 "" d1 = e.Render w1 v1 d1 := by
  refine ⟨?_, ?_, ?_, ?_, ?_, ?_, ?_, ?_⟩
  · simp [Gola.Context.View, he, Gola.firstLayout, View.TemplateEngine.RenderWithoutLayout, hv]
  · simp [Gola.Context.View, he, Gola.firstLayout, View.TemplateEngine.RenderWithLayout, hv, hl, hr]
  · simp [View.TemplateEngine.RenderWithLayout, hv, hl]
  · simp [Gola.Context.View, he, Gola.firstLayout, View.TemplateEngine.Render, hv]
  · simp [Gola.Context.View, he, Gola.firstLayout, View.TemplateEngine.Render, hv]
  · simp [View.TemplateEngine.RenderWithLayout, hv]
  · simp [View.TemplateEngine.Render, hv]
  · intro w1 v1 d1
    simp only [View.TemplateEngine.RenderWithLayout, View.TemplateEngine.Render]
    cases GoMap.get? e.templates v1 with
    | none => rfl
    | some t => simp

/-- C10, worked instance: the view `home` with the layouts `app` (default) and
`member`. -/
theorem layout_resolution_witness :
    demoContext.TemplateEngine = some demoEngine ∧
    GoMap.get? demoEngine.templates "home" = some demoTemplateSet ∧
    "member" ≠ "" ∧ "member" ≠ "remove" ∧
    (demoContext.View ResponseWriter.fresh "home" GoValue.null ["remove"]).1.body = "content" ∧
    (demoContext.View ResponseWriter.fresh "home" GoValue.null ["member"]).1.body =
      "<member>content</member>" ∧
    (demoContext.View ResponseWriter.fresh "home" GoValue.null []).1.body =
      "<app>content</app>" ∧
    (demoContext.View ResponseWriter.fresh "home" GoValue.null ["remove"] =
        View.ExecuteTemplate demoTemplateSet ResponseWriter.fresh "content"
          (GoValue.mapStringAny (demoContext.viewPayload GoValue.null)) ∧
    demoContext.View ResponseWriter.fresh "home" GoValue.null ("member" :: []) =
        View.ExecuteTemplate demoTemplateSet ResponseWriter.fresh "member"
          (GoValue.mapStringAny (demoContext.viewPayload GoValue.null)) ∧
    demoEngine.RenderWithLayout ResponseWriter.fresh "home" "member" GoValue.null =
        View.ExecuteTemplate demoTemplateSet ResponseWriter.fresh "member" GoValue.null ∧
    demoContext.View ResponseWriter.fresh "home" GoValue.null [] =
        View.ExecuteTemplate demoTemplateSet ResponseWriter.fresh demoEngine.DefaultLayout
          (GoValue.mapStringAny (demoContext.viewPayload GoValue.null)) ∧
    demoContext.View ResponseWriter.fresh "home" GoValue.null ("" :: []) =
        View.ExecuteTemplate demoTemplateSet ResponseWriter.fresh demoEngine.DefaultLayout
          (GoValue.mapStringAny (demoContext.viewPayload GoValue.null)) ∧
    demoEngine.RenderWithLayout ResponseWriter.fresh "home" "" GoValue.null =
        View.ExecuteTemplate demoTemplateSet ResponseWriter.fresh demoEngine.DefaultLayout
          GoValue.null ∧
    demoEngine.Render ResponseWriter.fresh "home" GoValue.null =
        View.ExecuteTemplate demoTemplateSet ResponseWriter.fresh demoEngine.DefaultLayout
          GoValue.null ∧
    ∀ (w1 : ResponseWriter) (v1 : String) (d1 : GoValue),
      demoEngine.RenderWithLayout w1 v1 "" d1 = demoEngine.Render w1 v1 d1) :=
  ⟨rfl, rfl, by decide, by decide, rfl, rfl, rfl,
    layout_resolution demoContext demoEngine demoTemplateSet ResponseWriter.fresh "home" "member"
      GoValue.null [] rfl rfl (by decide) (by decide)⟩

end Routing

/-! ### C11, C12: rendering without an engine, and unregistered views -/

namespace Gola

/-- The status that `Render` sends when no engine is attached is the status argument. -/
theorem render_no_engine_status (c : Context) (w : ResponseWriter) (s : Nat) (view : String)
    (data : GoValue) (layout : List String) (hc : c.TemplateEngine = none)
    (hw : w.wroteHeader = false) :
    (c.Render w s view data layout).status = s ∧
      (c.RenderPartial w s view data).status = s := by
  simp [Context.Render, Context.RenderPartial, hc, httpError, ResponseWriter.WriteHeader,
    ResponseWriter.Write, ResponseWriter.setHeader, ResponseWriter.delHeader, hw]

/-- C11 (failing input). `Render` and `RenderPartial` with status 200 on a
context with no template engine attached, on a fresh response writer: the
status line is written with 200 before the engine is checked, so the later
`http.Error` with 500 is a superfluous `WriteHeader`; the client receives
status 200, the content type `text/html` and the error text as body. -/
theorem render_without_engine_sends_given_status :
    (bareContext.Render ResponseWriter.fresh 200 "home" GoValue.null []).status = 200 ∧
    GoMap.get? (bareContext.Render ResponseWriter.fresh 200 "home" GoValue.null []).sentHeader
        "Content-Type" = some "text/html; charset=utf-8" ∧
    (bareContext.Render ResponseWriter.fresh 200 "home" GoValue.null []).body =
      "Template engine not configured\n" ∧
    (bareContext.RenderPartial ResponseWriter.fresh 200 "home" GoValue.null).status = 200 ∧
    (bareContext.RenderPartial ResponseWriter.fresh 200 "home" GoValue.null).body =
      "Template engine not configured\n" ∧
    (bareContext.Render ResponseWriter.fresh 404 "home" GoValue.null []).status = 404 :=
  ⟨rfl, rfl, rfl, rfl, rfl, rfl⟩

end Gola

namespace View

/-- C12. For a view name that is not registered, `Render`, `RenderWithLayout`
and `RenderWithoutLayout` return the error `template not found: ` followed by
the view name, and the response writer is returned as it was: no byte is written. -/
theorem render_unregistered_view (e : TemplateEngine) (w : ResponseWriter)
    (name layoutName : String) (data : GoValue)
    (h : GoMap.get? e.templates name = none) :
    e.Render w name data = (w, some ("template not found: " ++ name)) ∧
    e.RenderWithLayout w name layoutName data = (w, some ("template not found: " ++ name)) ∧
    e.RenderWithoutLayout w name data = (w, some ("template not found: " ++ name)) := by
  simp [TemplateEngine.Render, TemplateEngine.RenderWithLayout,
    TemplateEngine.RenderWithoutLayout, h]

/-- C12, worked instance: the view `blog/edit` is not loaded. -/
theorem render_unregistered_view_witness :
    GoMap.get? Routing.demoEngine.templates "blog/edit" = none ∧
    (Routing.demoEngine.Render ResponseWriter.fresh "blog/edit" GoValue.null =
      (ResponseWriter.fresh, some ("template not found: " ++ "blog/edit")) ∧
    Routing.demoEngine.RenderWithLayout ResponseWriter.fresh "blog/edit" "member" GoValue.null =
      (ResponseWriter.fresh, some ("template not found: " ++ "blog/edit")) ∧
    Routing.demoEngine.RenderWithoutLayout ResponseWriter.fresh "blog/edit" GoValue.null =
      (ResponseWriter.fresh, some ("template not found: " ++ "blog/edit"))) :=
  ⟨rfl, render_unregistered_view Routing.demoEngine ResponseWriter.fresh "blog/edit" "member"
    GoValue.null rfl⟩

end View

/-! ### C19: templates that fail at request time -/

namespace Routing

/-- C19 (failing input). A template that cannot be compiled aborts at
registration: `AddRoute` with `/(` returns the error and no router. But
`AddRoute` accepts the template `/\Q:a\E`: the route has the parameter name
`a` and a pattern without capture group; the pattern matches the path
`/([^/]+)` with a submatch list of length 1, so that `matches[1]` is out of
range and `ServeHTTP` aborts at request time. -/
theorem quoted_placeholder_aborts_at_request_time :
    compileTemplate "/(" = Except.error Regexp.RegexError.invalid ∧
    ((NewRouter (some demoContext)).AddRoute "GET" "/(" (namedHandler "h") []).toOption.map
        (fun r => r.routes.length) = none ∧
    (NewRouter (some demoContext)).AddRoute "GET" quotedTemplate (namedHandler "h") [] =
      Except.ok (routerOf
        ((NewRouter (some demoContext)).AddRoute "GET" quotedTemplate (namedHandler "h") [])) ∧
    (routerOf ((NewRouter (some demoContext)).AddRoute "GET" quotedTemplate
        (namedHandler "h") [])).routes.map
        (fun x => (x.paramNames, x.pattern.numSubexp,
          Regexp.FindStringSubmatch x.pattern "/([^/]+)".data)) =
      [(["a"], 0, some ["/([^/]+)".data])] ∧
    bindParams ["/([^/]+)".data] ["a"] 0 [] = none ∧
    (routerOf ((NewRouter (some demoContext)).AddRoute "GET" quotedTemplate
        (namedHandler "h") [])).ServeHTTP freshWorld { Method := "GET", Path := "/([^/]+)" } =
      Outcome.aborted :=
  ⟨rfl, rfl, rfl, rfl, rfl, rfl⟩

end Routing

/-! ### C13 to C18: sessions -/

namespace Session
open Routing

/-- Reading a map after a deletion. -/
theorem get_delete {β : Type} (m : GoMap β) (k k1 : String) :
    GoMap.get? (GoMap.delete m k) k1 = if k1 = k then none else GoMap.get? m k1 := by
  simp only [GoMap.get?, GoMap.delete]
  induction m with
  | nil => simp
  | cons e t ih =>
    obtain ⟨k2, v2⟩ := e
    by_cases h2 : k2 = k
    · subst h2
      have hf : List.filter (fun e : String × β => decide (e.1 ≠ k2)) ((k2, v2) :: t) =
          List.filter (fun e : String × β => decide (e.1 ≠ k2)) t := by
        simp [List.filter]
      rw [hf, ih]
      by_cases h : k1 = k2
      · simp [h]
      · simp [h, lookup_cons_ne _ _ _ _ h]
    · have hf : List.filter (fun e : String × β => decide (e.1 ≠ k)) ((k2, v2) :: t) =
          (k2, v2) :: List.filter (fun e : String × β => decide (e.1 ≠ k)) t := by
        simp [List.filter, h2]
      rw [hf]
      by_cases h3 : k1 = k2
      · subst h3
        simp [lookup_cons_eq, h2]
      · rw [lookup_cons_ne _ _ _ _ h3, lookup_cons_ne _ _ _ _ h3, ih]

/-- Reading the heap after a write. -/
theorem read_write (h : Heap) (ref ref1 : MapRef) (m : GoMap GoValue) :
    (h.write ref m).read ref1 = if ref1 = ref then m else h.read ref1 :=
  rfl

/-- Reading the heap after `make`. -/
theorem read_make (h : Heap) (ref : MapRef) :
    h.make.1.read ref = if ref = h.next then [] else h.read ref :=
  rfl

/-- C13. Session mutation tracking: after `Set(k, v)`, `Get(k)` returns `v`;
after `Delete(k)`, `Get(k)` returns nil; both leave the value of every other
key `k1` unchanged, leave the identifier unchanged and leave the dirty flag
true, whatever the session was before; `Get` and `ID` return the session as
it was, data and dirty flag included. -/
theorem session_mutation_tracking {σ : Type} (s : session σ) (h : Heap) (k k1 : String)
    (v : GoValue) (hk : k1 ≠ k) :
    ((s.Set h k v).1.Get (s.Set h k v).2 k).2 = v ∧
    ((s.Delete h k).1.Get (s.Delete h k).2 k).2 = GoValue.null ∧
    ((s.Set h k v).1.Get (s.Set h k v).2 k1).2 = (s.Get h k1).2 ∧
    ((s.Delete h k).1.Get (s.Delete h k).2 k1).2 = (s.Get h k1).2 ∧
    (s.Set h k v).1.written = true ∧ (s.Delete h k).1.written = true ∧
    (s.Set h k v).1.id = s.id ∧ (s.Delete h k).1.id = s.id ∧
    (s.Set h k v).1.data = s.data ∧ (s.Delete h k).1.data = s.data ∧
    (s.Get h k).1 = s ∧ s.ID.1 = s ∧ s.ID.2 = s.id := by
  refine ⟨?_, ?_, ?_, ?_, rfl, rfl, rfl, rfl, rfl, rfl, rfl, rfl, rfl⟩
  · simp [session.Get, session.Set, read_write, get_set]
  · simp [session.Get, session.Delete, read_write, get_delete]
  · simp [session.Get, session.Set, read_write, get_set, hk]
  · simp [session.Get, session.Delete, read_write, get_delete, hk]

/-- C13, worked instance: the key `user` is set and deleted; the key `role` is untouched. -/
theorem session_mutation_tracking_witness :
    "role" ≠ "user" ∧
    (demoSession.Get demoStartHeap "user").2 = GoValue.str "ann" ∧
    ((demoSession.Set demoStartHeap "user" (GoValue.str "bob")).1.Get
        (demoSession.Set demoStartHeap "user" (GoValue.str "bob")).2 "user").2 =
      GoValue.str "bob" ∧
    ((demoSession.Delete demoStartHeap "user").1.Get
        (demoSession.Delete demoStartHeap "user").2 "user").2 = GoValue.null ∧
    ((demoSession.Set demoStartHeap "user" (GoValue.str "bob")).1.Get
        (demoSession.Set demoStartHeap "user" (GoValue.str "bob")).2 "role").2 =
      (demoSession.Get demoStartHeap "role").2 ∧
    ((demoSession.Delete demoStartHeap "user").1.Get
        (demoSession.Delete demoStartHeap "user").2 "role").2 =
      (demoSession.Get demoStartHeap "role").2 ∧
    (demoSession.Set demoStartHeap "user" (GoValue.str "bob")).1.written = true ∧
    (demoSession.Delete demoStartHeap "user").1.written = true ∧
    (demoSession.Set demoStartHeap "user" (GoValue.str "bob")).1.id = demoSession.id ∧
    (demoSession.Delete demoStartHeap "user").1.id = demoSession.id ∧
    (demoSession.Set demoStartHeap "user" (GoValue.str "bob")).1.data = demoSession.data ∧
    (demoSession.Delete demoStartHeap "user").1.data = demoSession.data ∧
    (demoSession.Get demoStartHeap "user").1 = demoSession ∧ demoSession.ID.1 = demoSession ∧
    demoSession.ID.2 = demoSession.id :=
  ⟨by decide, rfl,
    session_mutation_tracking demoSession demoStartHeap "user" "role" (GoValue.str "bob")
      (by decide)⟩

/-- Read-only calls return the session as it was. -/
theorem afterReads_same {σ : Type} (h : Heap) (calls : List ReadCall) :
    ∀ s : session σ, s.afterReads h calls = s := by
  induction calls with
  | nil => intro s; rfl
  | cons c rest ih =>
    intro s
    cases c with
    | get key => exact ih s
    | id => exact ih s

/-- A session that `Start` returns is not dirty, holds the map value the store
returned, and the writer has at most the session cookie added. -/
theorem start_started {σ : Type} (m : Manager σ) (st : σ) (h : Heap) (w : ResponseWriter)
    (r : Request) (now : Int) (entropy : List Byte) (s : session σ) (w1 : ResponseWriter)
    (st1 : σ) (h1 : Heap)
    (hs : m.Start st h w r now entropy = StartResult.started s w1 st1 h1) :
    s.written = false ∧ s.store = m.store ∧ s.id = m.sessionID r entropy ∧
    m.store.Get st h now s.id = (st1, h1, Except.ok s.data) ∧
    w1 = SetCookie w
      { Name := m.cookieName, Value := s.id, Path := "/", HttpOnly := true, Secure := true,
        SameSite := SameSite.lax, Expires := now + 24 * hour } := by
  unfold Manager.Start at hs
  cases hg : m.store.Get st h now (m.sessionID r entropy) with
  | mk st2 res1 =>
    cases res1 with
    | mk h2 res =>
      cases res with
      | error err => simp [hg] at hs
      | ok data =>
        simp only [hg, StartResult.started.injEq] at hs
        obtain ⟨hs1, hw, hst, hh⟩ := hs
        subst hs1
        subst hw
        subst hst
        subst hh
        exact ⟨rfl, rfl, rfl, hg, rfl⟩

/-- C14. A session returned by `Manager.Start` on which only `Get` and `ID`
are called is the session that was returned, and its `Save`, at any later
instant and on any state of the store and of the heap, returns nil and leaves
the state of the store and the heap as they were: the store's `Save` is not
called. -/
theorem unmodified_session_not_saved {σ : Type} (m : Manager σ) (st : σ) (h : Heap)
    (w : ResponseWriter) (r : Request) (now : Int) (entropy : List Byte) (s : session σ)
    (w1 : ResponseWriter) (st1 : σ) (h1 : Heap) (calls : List ReadCall) (st2 : σ) (h2 : Heap)
    (later : Int)
    (hs : m.Start st h w r now entropy = StartResult.started s w1 st1 h1) :
    s.afterReads h2 calls = s ∧
      (s.afterReads h2 calls).Save st2 h2 later = (s, st2, h2, none) := by
  have hw := (start_started m st h w r now entropy s w1 st1 h1 hs).1
  rw [afterReads_same]
  exact ⟨rfl, by simp [session.Save, hw]⟩

end Session

/-! ### Sessions: round trip, cookie and middleware -/

namespace Session
open Routing

/-- Assigning a key that the map does not have appends the entry. -/
theorem set_new {β : Type} (m : GoMap β) (k : String) (v : β) (h : k ∉ GoMap.keys m) :
    GoMap.set m k v = m ++ [(k, v)] := by
  induction m with
  | nil => rfl
  | cons e t ih =>
    obtain ⟨k2, v2⟩ := e
    simp only [GoMap.keys, List.map_cons, List.mem_cons, not_or] at h
    have h2 : ¬ k2 = k := fun h3 => h.1 h3.symm
    simp only [GoMap.set, h2, if_false, List.cons_append]
    rw [ih h.2]

/-- Copying a map entry by entry onto a map with other keys appends it. -/
theorem copy_append {β : Type} (d : GoMap β) :
    ∀ p : GoMap β, (GoMap.keys p ++ GoMap.keys d).Nodup →
      d.foldl (fun q e => GoMap.set q e.1 e.2) p = p ++ d := by
  induction d with
  | nil => intro p _; simp
  | cons e t ih =>
    intro p hn
    obtain ⟨k1, v1⟩ := e
    have hk : k1 ∉ GoMap.keys p := by
      intro hmem
      have := List.disjoint_of_nodup_append hn hmem
      exact this (by simp [GoMap.keys])
    simp only [List.foldl_cons]
    rw [set_new p k1 v1 hk, ih]
    · simp
    · have e1 : GoMap.keys (p ++ [(k1, v1)]) ++ GoMap.keys t =
          GoMap.keys p ++ GoMap.keys ((k1, v1) :: t) := by
        simp [GoMap.keys]
      rw [e1]
      exact hn

/-- The copy that `MemoryStore.Get` makes of a map is the map. -/
theorem copy_eq {β : Type} (d : GoMap β) (h : (GoMap.keys d).Nodup) :
    d.foldl (fun q e => GoMap.set q e.1 e.2) [] = d := by
  have := copy_append d [] (by simpa [GoMap.keys] using h)
  simpa using this

/-- An assignment keeps the keys of a map distinct. -/
theorem nodup_set {β : Type} (m : GoMap β) (k : String) (v : β) (h : (GoMap.keys m).Nodup) :
    (GoMap.keys (GoMap.set m k v)).Nodup := by
  rw [keys_set]
  by_cases hk : k ∈ GoMap.keys m
  · simpa [hk] using h
  · simp only [hk, if_false]
    exact List.Nodup.append h (by simp) (by simpa using hk)

/-- C15. Session round trip through the memory store, and where it fails. A
session with token `t`, whose data is an allocated map with distinct keys,
has `Set(k, v)` called and is saved at instant `t0`; the save succeeds. A
`Manager.Start` that follows, at any instant `t1` not later than `t0` plus 24
hours, for a request whose session cookie has the value `t`, returns a session
with identifier `t`, not dirty, whose data is the saved mapping, so that
`Get(k)` is `v`. But when `Set(k, v2)` is called on the saved session after
the `Save`, without another `Save`, the same `Start` returns a session whose
`Get(k)` is `v2`: the store holds the map of the session, not a copy. -/
theorem save_keeps_the_session_map (cookieName t : String) (data : MapRef) (written : Bool)
    (st : MemoryStore) (h : Heap) (k : String) (v v2 : GoValue) (t0 t1 : Int)
    (w : ResponseWriter) (r : Request) (entropy : List Byte)
    (hd : (GoMap.keys (h.read data)).Nodup)
    (ha : data < h.next)
    (hc : r.Cookie cookieName = some t)
    (ht : t1 ≤ t0 + 24 * hour) :
    ((memorySessionOf t data written).setThenSave st h k v t0).2.2.2 = none ∧
    ((NewManager memoryStore cookieName).Start
        ((memorySessionOf t data written).setThenSave st h k v t0).2.1
        ((memorySessionOf t data written).setThenSave st h k v t0).2.2.1
        w r t1 entropy).session?.map (fun x => (x.id, x.written)) = some (t, false) ∧
    ((NewManager memoryStore cookieName).Start
        ((memorySessionOf t data written).setThenSave st h k v t0).2.1
        ((memorySessionOf t data written).setThenSave st h k v t0).2.2.1
        w r t1 entropy).data? = some (GoMap.set (h.read data) k v) ∧
    ((NewManager memoryStore cookieName).Start
        ((memorySessionOf t data written).setThenSave st h k v t0).2.1
        ((memorySessionOf t data written).setThenSave st h k v t0).2.2.1
        w r t1 entropy).value? k = some v ∧
    ((NewManager memoryStore cookieName).Start
        ((memorySessionOf t data written).setThenSave st h k v t0).2.1
        (((memorySessionOf t data written).setThenSave st h k v t0).1.Set
          ((memorySessionOf t data written).setThenSave st h k v t0).2.2.1 k v2).2
        w r t1 entropy).session?.map (fun x => (x.id, x.written)) = some (t, false) ∧
    ((NewManager memoryStore cookieName).Start
        ((memorySessionOf t data written).setThenSave st h k v t0).2.1
        (((memorySessionOf t data written).setThenSave st h k v t0).1.Set
          ((memorySessionOf t data written).setThenSave st h k v t0).2.2.1 k v2).2
        w r t1 entropy).value? k = some v2 := by
  have hsave : (memorySessionOf t data written).setThenSave st h k v t0 =
      ({ id := t, data := data, store := memoryStore, written := false },
        { sessions := GoMap.set st.sessions t { data := data, expiration := t0 + 24 * hour } },
        h.write data (GoMap.set (h.read data) k v), none) := by
    simp [session.setThenSave, session.Save, session.Set, memorySessionOf, memoryStore,
      MemoryStore.Save]
  have hid : (NewManager memoryStore cookieName).sessionID r entropy = t := by
    simp [Manager.sessionID, NewManager, hc]
  have hne : data ≠ h.next := Nat.ne_of_lt ha
  have hstart : ∀ h1 : Heap, h1.next = h.next → (GoMap.keys (h1.read data)).Nodup →
      (NewManager memoryStore cookieName).Start
        { sessions := GoMap.set st.sessions t { data := data, expiration := t0 + 24 * hour } }
        h1 w r t1 entropy =
      StartResult.started { id := t, data := h.next, store := memoryStore, written := false }
        (SetCookie w (sessionCookie cookieName t t1))
        { sessions := GoMap.set st.sessions t { data := data, expiration := t0 + 24 * hour } }
        (h1.make.1.write h.next (h1.read data)) := by
    intro h1 hn hnd
    have hnot : ¬ (t1 > t0 + 24 * hour) := by omega
    have hrd : h1.make.1.read data = h1.read data := by
      rw [read_make, hn, if_neg hne]
    have hget : MemoryStore.Get
        { sessions := GoMap.set st.sessions t { data := data, expiration := t0 + 24 * hour } }
        h1 t1 t =
        ({ sessions := GoMap.set st.sessions t { data := data, expiration := t0 + 24 * hour } },
          h1.make.1.write h.next (h1.read data), Except.ok h.next) := by
      simp only [MemoryStore.Get, get_set, if_true, hnot, if_false, hrd]
      rw [copy_eq _ hnd]
      have e : h1.make.2 = h.next := hn
      rw [e]
    unfold Manager.Start
    rw [hid]
    have hs : (NewManager memoryStore cookieName).store.Get = MemoryStore.Get := rfl
    rw [hs, hget]
    rfl
  have hr1 : (h.write data (GoMap.set (h.read data) k v)).read data =
      GoMap.set (h.read data) k v := by
    simp [read_write]
  have hr2 : ((h.write data (GoMap.set (h.read data) k v)).write data
      (GoMap.set ((h.write data (GoMap.set (h.read data) k v)).read data) k v2)).read data =
      GoMap.set (GoMap.set (h.read data) k v) k v2 := by
    simp [read_write]
  rw [hsave]
  dsimp only
  refine ⟨rfl, ?_, ?_, ?_, ?_, ?_⟩
  · rw [hstart (h.write data (GoMap.set (h.read data) k v)) rfl
      (by rw [hr1]; exact nodup_set _ k v hd)]
    rfl
  · rw [hstart (h.write data (GoMap.set (h.read data) k v)) rfl
      (by rw [hr1]; exact nodup_set _ k v hd)]
    simp [StartResult.data?, read_write, hr1]
  · rw [hstart (h.write data (GoMap.set (h.read data) k v)) rfl
      (by rw [hr1]; exact nodup_set _ k v hd)]
    simp [StartResult.value?, session.Get, read_write, hr1, get_set]
  · simp only [session.Set]
    rw [hstart ((h.write data (GoMap.set (h.read data) k v)).write data
        (GoMap.set ((h.write data (GoMap.set (h.read data) k v)).read data) k v2)) rfl
      (by rw [hr2]; exact nodup_set _ k v2 (nodup_set _ k v hd))]
    rfl
  · simp only [session.Set]
    rw [hstart ((h.write data (GoMap.set (h.read data) k v)).write data
        (GoMap.set ((h.write data (GoMap.set (h.read data) k v)).read data) k v2)) rfl
      (by rw [hr2]; exact nodup_set _ k v2 (nodup_set _ k v hd))]
    simp [StartResult.value?, session.Get, read_write, hr2, get_set]

/-- C15, worked instance: the session `token-1` on the map object of
`demoHeap` sets `cart` to 3 and is saved at instant 100. A `Start` with the
cookie `token-1` at the last instant of the 24 hours reads `cart` as 3; after
`Set("cart", 4)` on the saved session, with no `Save`, it reads `cart` as 4. -/
theorem save_keeps_the_session_map_witness :
    (GoMap.keys (demoHeap.read 0)).Nodup ∧ (0 : MapRef) < demoHeap.next ∧
    demoCookieRequest.Cookie "go_laravel_session" = some "token-1" ∧
    (100 + 24 * hour : Int) ≤ 100 + 24 * hour ∧
    ((NewManager memoryStore "go_laravel_session").Start
        ((memorySessionOf "token-1" 0 false).setThenSave NewMemoryStore demoHeap "cart"
          (GoValue.int 3) 100).2.1
        ((memorySessionOf "token-1" 0 false).setThenSave NewMemoryStore demoHeap "cart"
          (GoValue.int 3) 100).2.2.1
        ResponseWriter.fresh demoCookieRequest (100 + 24 * hour) demoEntropy).data? =
      some [("user", GoValue.str "ann"), ("cart", GoValue.int 3)] ∧
    ((NewManager memoryStore "go_laravel_session").Start
        ((memorySessionOf "token-1" 0 false).setThenSave NewMemoryStore demoHeap "cart"
          (GoValue.int 3) 100).2.1
        ((memorySessionOf "token-1" 0 false).setThenSave NewMemoryStore demoHeap "cart"
          (GoValue.int 3) 100).2.2.1
        ResponseWriter.fresh demoCookieRequest (100 + 24 * hour) demoEntropy).value? "cart" =
      some (GoValue.int 3) ∧
    ((NewManager memoryStore "go_laravel_session").Start
        ((memorySessionOf "token-1" 0 false).setThenSave NewMemoryStore demoHeap "cart"
          (GoValue.int 3) 100).2.1
        (((memorySessionOf "token-1" 0 false).setThenSave NewMemoryStore demoHeap "cart"
          (GoValue.int 3) 100).1.Set
          ((memorySessionOf "token-1" 0 false).setThenSave NewMemoryStore demoHeap "cart"
            (GoValue.int 3) 100).2.2.1 "cart" (GoValue.int 4)).2
        ResponseWriter.fresh demoCookieRequest (100 + 24 * hour) demoEntropy).value? "cart" =
      some (GoValue.int 4) ∧
    GoValue.int 4 ≠ GoValue.int 3 :=
  ⟨by decide, by decide, rfl, Int.le_refl _,
    (save_keeps_the_session_map "go_laravel_session" "token-1" 0 false NewMemoryStore demoHeap
      "cart" (GoValue.int 3) (GoValue.int 4) 100 (100 + 24 * hour) ResponseWriter.fresh
      demoCookieRequest demoEntropy (by decide) (by decide) rfl (Int.le_refl _)).2.2.1,
    (save_keeps_the_session_map "go_laravel_session" "token-1" 0 false NewMemoryStore demoHeap
      "cart" (GoValue.int 3) (GoValue.int 4) 100 (100 + 24 * hour) ResponseWriter.fresh
      demoCookieRequest demoEntropy (by decide) (by decide) rfl (Int.le_refl _)).2.2.2.1,
    (save_keeps_the_session_map "go_laravel_session" "token-1" 0 false NewMemoryStore demoHeap
      "cart" (GoValue.int 3) (GoValue.int 4) 100 (100 + 24 * hour) ResponseWriter.fresh
      demoCookieRequest demoEntropy (by decide) (by decide) rfl (Int.le_refl _)).2.2.2.2.2,
    fun e => by injection e with e1; exact absurd e1 (by decide)⟩

theorem unmodified_session_not_saved_witness :
    demoManager.Start demoStore demoHeap ResponseWriter.fresh demoCookieRequest 10 demoEntropy =
      StartResult.started demoSession
        (SetCookie ResponseWriter.fresh (sessionCookie "go_laravel_session" "token-1" 10))
        demoStore demoStartHeap ∧
    (demoSession.afterReads demoStartHeap [ReadCall.get "user", ReadCall.id, ReadCall.get "cart"] =
        demoSession ∧
      (demoSession.afterReads demoStartHeap
          [ReadCall.get "user", ReadCall.id, ReadCall.get "cart"]).Save
        demoStore demoStartHeap 20 = (demoSession, demoStore, demoStartHeap, none)) :=
  ⟨rfl, unmodified_session_not_saved demoManager demoStore demoHeap ResponseWriter.fresh
    demoCookieRequest 10 demoEntropy demoSession _ demoStore demoStartHeap
    [ReadCall.get "user", ReadCall.id, ReadCall.get "cart"] demoStore demoStartHeap 20 rfl⟩

/-- C17, amended. When the manager's cookie name is a valid cookie name and
`Manager.Start` succeeds, the returned session is not dirty, its data is what
the store returned for its identifier, its identifier is the value of the
request's session cookie when the request has one and the freshly generated
token otherwise, and the response writer is the one passed in with exactly
one cookie added: name the manager's cookie name, value the session
identifier, path `/`, HttpOnly, Secure, SameSite Lax, expiry 24 hours after
the instant of the call. The cookie is set by `Start` itself, before any use
of the session. -/
theorem start_binds_session_and_cookie {σ : Type} (m : Manager σ) (st : σ) (h : Heap)
    (w : ResponseWriter) (r : Request) (now : Int) (entropy : List Byte) (s : session σ)
    (w1 : ResponseWriter) (st1 : σ) (h1 : Heap)
    (hv : isCookieNameValid m.cookieName = true)
    (hs : m.Start st h w r now entropy = StartResult.started s w1 st1 h1) :
    s.written = false ∧
    m.store.Get st h now s.id = (st1, h1, Except.ok s.data) ∧
    s.id = (r.Cookie m.cookieName).getD (generateSessionID entropy) ∧
    w1 = { w with cookies := w.cookies ++
      [{ Name := m.cookieName, Value := s.id, Path := "/", HttpOnly := true, Secure := true,
         SameSite := SameSite.lax, Expires := now + 24 * hour }] } ∧
    w1.cookies.length = w.cookies.length + 1 := by
  obtain ⟨h1, _, h3, h4, h5⟩ := start_started m st h w r now entropy s w1 st1 h1 hs
  have hid : s.id = (r.Cookie m.cookieName).getD (generateSessionID entropy) := by
    rw [h3]
    unfold Manager.sessionID
    cases r.Cookie m.cookieName <;> rfl
  have hw : w1 = { w with cookies := w.cookies ++
      [{ Name := m.cookieName, Value := s.id, Path := "/", HttpOnly := true, Secure := true,
         SameSite := SameSite.lax, Expires := now + 24 * hour }] } := by
    rw [h5]
    simp [SetCookie, hv]
  refine ⟨h1, h4, hid, hw, ?_⟩
  rw [hw]
  simp

theorem start_binds_session_and_cookie_witness :
    isCookieNameValid demoManager.cookieName = true ∧
    demoManager.Start demoStore demoHeap ResponseWriter.fresh demoCookieRequest 10 demoEntropy =
      StartResult.started demoSession
        (SetCookie ResponseWriter.fresh (sessionCookie "go_laravel_session" "token-1" 10))
        demoStore demoStartHeap ∧
    demoStartHeap.read demoSession.data = [("user", GoValue.str "ann")] ∧
    (demoSession.written = false ∧
    demoManager.store.Get demoStore demoHeap 10 demoSession.id =
      (demoStore, demoStartHeap, Except.ok demoSession.data) ∧
    demoSession.id =
      (demoCookieRequest.Cookie demoManager.cookieName).getD (generateSessionID demoEntropy) ∧
    SetCookie ResponseWriter.fresh (sessionCookie "go_laravel_session" "token-1" 10) =
      { ResponseWriter.fresh with cookies := ResponseWriter.fresh.cookies ++
        [{ Name := demoManager.cookieName, Value := demoSession.id, Path := "/",
           HttpOnly := true, Secure := true, SameSite := SameSite.lax,
           Expires := 10 + 24 * hour }] } ∧
    (SetCookie ResponseWriter.fresh
        (sessionCookie "go_laravel_session" "token-1" 10)).cookies.length =
      ResponseWriter.fresh.cookies.length + 1) :=
  ⟨by decide, rfl, rfl,
    start_binds_session_and_cookie demoManager demoStore demoHeap ResponseWriter.fresh
      demoCookieRequest 10 demoEntropy demoSession _ demoStore demoStartHeap (by decide) rfl⟩

/-- C17, counterexample. A manager whose cookie name is the empty string:
`Start` succeeds, with a freshly generated token of 44 characters as the
session identifier, and sets no cookie on the response, because
`http.SetCookie` drops a cookie whose name is not valid. -/
theorem start_sets_no_cookie_for_empty_name :
    ((NewManager memoryStore "").Start NewMemoryStore emptyHeap ResponseWriter.fresh
        { Method := "GET", Path := "/" } 10 demoEntropy).session?.map
        (fun s => (s.id, s.written)) =
      some ("BwcHBwcHBwcHBwcHBwcHBwcHBwcHBwcHBwcHBwcHBwc=", false) ∧
    ((NewManager memoryStore "").Start NewMemoryStore emptyHeap ResponseWriter.fresh
        { Method := "GET", Path := "/" } 10 demoEntropy).writer.cookies = [] := by
  refine ⟨?_, ?_⟩
  · decide
  · rfl

/-- The worked instance of the middleware on the memory store: the handler's
text is in the body once, with status 200 and the session cookie sent. -/
theorem session_middleware_demo_response :
    (sessionMiddleware demoManager 10 demoEntropy 20 markingHandler
        { Gola.bareContext with Request := demoCookieRequest }
        { writer := ResponseWriter.fresh, store := demoStore,
          heap := demoHeap }).writer.body = "seen" ∧
    (sessionMiddleware demoManager 10 demoEntropy 20 markingHandler
        { Gola.bareContext with Request := demoCookieRequest }
        { writer := ResponseWriter.fresh, store := demoStore,
          heap := demoHeap }).writer.status = 200 ∧
    (sessionMiddleware demoManager 10 demoEntropy 20 markingHandler
        { Gola.bareContext with Request := demoCookieRequest }
        { writer := ResponseWriter.fresh, store := demoStore,
          heap := demoHeap }).writer.sentCookies.map
        (fun c => (c.Name, c.Value)) = [("go_laravel_session", "token-1")] ∧
    (sessionMiddleware (NewManager failingStore "go_laravel_session") 10 demoEntropy 20
        markingUnitHandler Gola.bareContext
        { writer := ResponseWriter.fresh, store := (), heap := demoHeap }).writer.body =
      "Internal Server Error\n" := by
  refine ⟨?_, ?_, ?_, ?_⟩
  · decide
  · decide
  · decide
  · decide

end Session

/-! ### The memory cache -/

namespace Cache
open Routing Session

/-- C16. An entry that is still stored and is fetched at an instant after its
expiration: `MemoryCache.Get` returns `ErrKeyNotFound`, `MemoryStore.Get`
returns a new, empty mapping and no error, which is what it returns for a
token that is not stored, and neither fetch changes what is stored. -/
theorem expired_entry_is_absent (c : MemoryCache) (st : MemoryStore) (h : Heap)
    (key id : String) (item : memoryItem) (entry : memorySession) (now : Int)
    (hc : GoMap.get? c.items key = some item)
    (hs : GoMap.get? st.sessions id = some entry)
    (hce : item.expiration < now)
    (hse : entry.expiration < now) :
    c.Get now key = (c, Except.error ErrKeyNotFound) ∧
    st.Get h now id = (st, h.make.1, Except.ok h.next) ∧
    h.make.1.read h.next = [] ∧
    (∀ (st0 : MemoryStore) (id0 : String), GoMap.get? st0.sessions id0 = none →
      (st0.Get h now id0).2 = (st.Get h now id).2) ∧
    GoMap.get? (c.Get now key).1.items key = some item ∧
    GoMap.get? (st.Get h now id).1.sessions id = some entry ∧
    (∀ ref, ref ≠ h.next → (st.Get h now id).2.1.read ref = h.read ref) := by
  have e1 : c.Get now key = (c, Except.error ErrKeyNotFound) := by
    have : now > item.expiration := hce
    simp [MemoryCache.Get, hc, this]
  have e2 : st.Get h now id = (st, h.make.1, Except.ok h.next) := by
    have : now > entry.expiration := hse
    simp [MemoryStore.Get, hs, this, Heap.make]
  refine ⟨e1, e2, by simp [read_make], ?_, by rw [e1]; exact hc, by rw [e2]; exact hs, ?_⟩
  · intro st0 id0 h0
    rw [e2]
    simp [MemoryStore.Get, h0, Heap.make]
  · intro ref hr
    rw [e2]
    simp [read_make, hr]

theorem expired_entry_is_absent_witness :
    GoMap.get? demoCache.items "a" = some { value := GoValue.int 1, expiration := 50 } ∧
    GoMap.get? demoStore.sessions "token-1" = some { data := 0, expiration := 50 } ∧
    (50 : Int) < 51 ∧
    (demoCache.Get 51 "a" = (demoCache, Except.error ErrKeyNotFound) ∧
    demoStore.Get demoHeap 51 "token-1" = (demoStore, demoHeap.make.1, Except.ok demoHeap.next) ∧
    demoHeap.make.1.read demoHeap.next = [] ∧
    (∀ (st0 : MemoryStore) (id0 : String), GoMap.get? st0.sessions id0 = none →
      (st0.Get demoHeap 51 id0).2 = (demoStore.Get demoHeap 51 "token-1").2) ∧
    GoMap.get? (demoCache.Get 51 "a").1.items "a" =
      some { value := GoValue.int 1, expiration := 50 } ∧
    GoMap.get? (demoStore.Get demoHeap 51 "token-1").1.sessions "token-1" =
      some { data := 0, expiration := 50 } ∧
    (∀ ref, ref ≠ demoHeap.next →
      (demoStore.Get demoHeap 51 "token-1").2.1.read ref = demoHeap.read ref)) :=
  ⟨rfl, rfl, by decide,
    expired_entry_is_absent demoCache demoStore demoHeap "a" "token-1"
      { value := GoValue.int 1, expiration := 50 }
      { data := 0, expiration := 50 } 51 rfl rfl
      (by decide) (by decide)⟩

/-- C20. Round trip of `MemoryCache.Set` and `Get`: after `Set(k, v, ttl)` at
instant `t`, which returns nil, at every instant `t1` before `t + ttl`, so in
particular when `ttl > 0` and `t ≤ t1 < t + ttl`, the call `Get(k)` returns
`v` and no error and `Has(k)` is true; after a later `Set(k, v2, ttl2)` at instant `t2` the entry of `k` has
the value `v2` and the expiration `t2 + ttl2`; and for every key other than
`k`, at every instant, `Get` and `Has` return after the `Set` what they
returned before it. -/
theorem cache_set_get_round_trip (c : MemoryCache) (k : String) (v : GoValue) (ttl t t1 : Int)
    (v2 : GoValue) (ttl2 t2 : Int) (k1 : String) (t3 : Int)
    (hhi : t1 < t + ttl) (hne : k1 ≠ k) :
    (c.Set t k v ttl).2 = none ∧
    ((c.Set t k v ttl).1.Get t1 k).2 = Except.ok v ∧
    ((c.Set t k v ttl).1.Has t1 k).2 = true ∧
    GoMap.get? (((c.Set t k v ttl).1.Set t2 k v2 ttl2).1).items k =
      some { value := v2, expiration := t2 + ttl2 } ∧
    ((c.Set t k v ttl).1.Get t3 k1).2 = (c.Get t3 k1).2 ∧
    ((c.Set t k v ttl).1.Has t3 k1).2 = (c.Has t3 k1).2 := by
  have hnot : ¬ (t1 > t + ttl) := by omega
  refine ⟨rfl, ?_, ?_, ?_, ?_, ?_⟩
  · simp [MemoryCache.Get, MemoryCache.Set, get_set, hnot]
  · simp [MemoryCache.Has, MemoryCache.Set, get_set, hhi]
  · simp [MemoryCache.Set, get_set]
  · simp only [MemoryCache.Get, MemoryCache.Set, get_set, hne, if_false]
    cases GoMap.get? c.items k1 with
    | none => rfl
    | some item => by_cases h : t3 > item.expiration <;> simp [h]
  · simp only [MemoryCache.Has, MemoryCache.Set, get_set, hne, if_false]
    cases GoMap.get? c.items k1 with
    | none => rfl
    | some item => rfl

theorem cache_set_get_round_trip_witness :
    (129 : Int) < 100 + 30 ∧ "a" ≠ "b" ∧
    ((demoCache.Set 100 "b" (GoValue.str "x") 30).2 = none ∧
    ((demoCache.Set 100 "b" (GoValue.str "x") 30).1.Get 129 "b").2 =
      Except.ok (GoValue.str "x") ∧
    ((demoCache.Set 100 "b" (GoValue.str "x") 30).1.Has 129 "b").2 = true ∧
    GoMap.get? (((demoCache.Set 100 "b" (GoValue.str "x") 30).1.Set 110 "b"
        (GoValue.int 2) 5).1).items "b" =
      some { value := GoValue.int 2, expiration := 110 + 5 } ∧
    ((demoCache.Set 100 "b" (GoValue.str "x") 30).1.Get 40 "a").2 = (demoCache.Get 40 "a").2 ∧
    ((demoCache.Set 100 "b" (GoValue.str "x") 30).1.Has 40 "a").2 =
      (demoCache.Has 40 "a").2) :=
  ⟨by decide, by decide,
    cache_set_get_round_trip demoCache "b" (GoValue.str "x") 30 100 129 (GoValue.int 2) 5 110
      "a" 40 (by decide) (by decide)⟩

end Cache

/-! ### C21, C26: deletion and presence in the memory cache -/

namespace Cache
open Routing Session

/-- C21. `MemoryCache.Delete(k)` on a cache with no entry for `k` returns
`ErrKeyNotFound` and the cache as it was. On a cache with an entry for `k`
it returns nil and a cache without entry for `k`, on which at every instant
`Get(k)` returns `ErrKeyNotFound` and `Has(k)` is false, while every other
key has the entry it had, so that `Get` and `Has` return for it what they
returned before. -/
theorem cache_delete_removes_only_key (c : MemoryCache) (k : String) :
    (GoMap.get? c.items k = none → c.Delete k = (c, some ErrKeyNotFound)) ∧
    (∀ item, GoMap.get? c.items k = some item →
      (c.Delete k).2 = none ∧
      GoMap.get? (c.Delete k).1.items k = none ∧
      (∀ now, ((c.Delete k).1.Get now k).2 = Except.error ErrKeyNotFound ∧
        ((c.Delete k).1.Has now k).2 = false) ∧
      (∀ k1, k1 ≠ k →
        GoMap.get? (c.Delete k).1.items k1 = GoMap.get? c.items k1 ∧
        ∀ now, ((c.Delete k).1.Get now k1).2 = (c.Get now k1).2 ∧
          ((c.Delete k).1.Has now k1).2 = (c.Has now k1).2)) := by
  refine ⟨?_, ?_⟩
  · intro h
    simp [MemoryCache.Delete, h]
  · intro item h
    have hd : c.Delete k = ({ items := GoMap.delete c.items k }, none) := by
      simp [MemoryCache.Delete, h]
    rw [hd]
    refine ⟨rfl, by simp [get_delete], ?_, ?_⟩
    · intro now
      simp [MemoryCache.Get, MemoryCache.Has, get_delete]
    · intro k1 hk
      refine ⟨by simp [get_delete, hk], ?_⟩
      intro now
      simp only [MemoryCache.Get, MemoryCache.Has, get_delete, hk, if_false]
      cases GoMap.get? c.items k1 with
      | none => exact ⟨rfl, rfl⟩
      | some it => by_cases h4 : now > it.expiration <;> simp [h4]

theorem cache_delete_removes_only_key_witness :
    GoMap.get? demoCache.items "b" = none ∧
    demoCache.Delete "b" = (demoCache, some ErrKeyNotFound) ∧
    GoMap.get? demoCache.items "a" = some { value := GoValue.int 1, expiration := 50 } ∧
    ((demoCache.Delete "a").2 = none ∧
      GoMap.get? (demoCache.Delete "a").1.items "a" = none ∧
      (∀ now, ((demoCache.Delete "a").1.Get now "a").2 = Except.error ErrKeyNotFound ∧
        ((demoCache.Delete "a").1.Has now "a").2 = false) ∧
      (∀ k1, k1 ≠ "a" →
        GoMap.get? (demoCache.Delete "a").1.items k1 = GoMap.get? demoCache.items k1 ∧
        ∀ now, ((demoCache.Delete "a").1.Get now k1).2 = (demoCache.Get now k1).2 ∧
          ((demoCache.Delete "a").1.Has now k1).2 = (demoCache.Has now k1).2)) :=
  ⟨rfl, (cache_delete_removes_only_key demoCache "b").1 rfl, rfl,
    (cache_delete_removes_only_key demoCache "a").2
      { value := GoValue.int 1, expiration := 50 } rfl⟩

/-- C26, amended. For every cache state, key `k` and instant other than the
expiration instant of the entry of `k`: `Get(k)` succeeds exactly when
`Has(k)` is true, and that is exactly when `k` has an entry that expires
after the instant; `Delete(k)` returns nil exactly when `k` has an entry,
expired or not. Hence a key that `Get` and `Has` report present is one that
`Delete` finds, the three operations agree when `k` has no entry or an entry
that expires after the instant, and for an entry past its expiration `Get`
fails and `Has` is false while `Delete` returns nil. -/
theorem cache_presence_by_operation (c : MemoryCache) (k : String) (now : Int)
    (hnow : ∀ item, GoMap.get? c.items k = some item → now ≠ item.expiration) :
    (((c.Get now k).2.toOption.isSome = true) ↔ (c.Has now k).2 = true) ∧
    (((c.Has now k).2 = true) ↔
      ∃ item, GoMap.get? c.items k = some item ∧ now < item.expiration) ∧
    (((c.Delete k).2 = none) ↔ ∃ item, GoMap.get? c.items k = some item) ∧
    ((c.Has now k).2 = true → (c.Delete k).2 = none) ∧
    ((GoMap.get? c.items k = none ∨
        ∃ item, GoMap.get? c.items k = some item ∧ now < item.expiration) →
      ((c.Has now k).2 = true ↔ (c.Delete k).2 = none)) ∧
    ((∃ item, GoMap.get? c.items k = some item ∧ item.expiration < now) →
      (c.Get now k).2 = Except.error ErrKeyNotFound ∧ (c.Has now k).2 = false ∧
        (c.Delete k).2 = none) := by
  cases h : GoMap.get? c.items k with
  | none =>
    simp [MemoryCache.Get, MemoryCache.Has, MemoryCache.Delete, h, Except.toOption,
      ErrKeyNotFound]
  | some item =>
    have hne : now ≠ item.expiration := hnow item h
    by_cases h1 : now > item.expiration
    · have h3 : ¬ now < item.expiration := by omega
      simp [MemoryCache.Get, MemoryCache.Has, MemoryCache.Delete, h, Except.toOption, h1, h3]
    · have h3 : now < item.expiration := by omega
      have h4 : ¬ item.expiration < now := by omega
      simp [MemoryCache.Get, MemoryCache.Has, MemoryCache.Delete, h, Except.toOption, h1, h3, h4]

theorem cache_presence_by_operation_witness :
    (∀ item, GoMap.get? demoCache.items "a" = some item → (40 : Int) ≠ item.expiration) ∧
    (((demoCache.Get 40 "a").2.toOption.isSome = true) ↔ (demoCache.Has 40 "a").2 = true) ∧
    (demoCache.Has 40 "a").2 = true ∧
    (demoCache.Delete "a").2 = none :=
  ⟨fun item h => by
      have e : item = { value := GoValue.int 1, expiration := 50 } :=
        (Option.some.inj h).symm
      subst e
      decide,
    (cache_presence_by_operation demoCache "a" 40 (fun item h => by
      have e : item = { value := GoValue.int 1, expiration := 50 } :=
        (Option.some.inj h).symm
      subst e
      decide)).1, by decide, by decide⟩

/-- C26, counterexample. The cache whose only entry, for the key `a`,
expires at instant 50: at instant 51, after the expiration, `Get("a")` fails
and `Has("a")` is false while `Delete("a")` returns nil. -/
theorem cache_operations_disagree_on_presence :
    GoMap.get? demoCache.items "a" = some { value := GoValue.int 1, expiration := 50 } ∧
    (demoCache.Get 51 "a").2 = Except.error ErrKeyNotFound ∧
    (demoCache.Has 51 "a").2 = false ∧
    (demoCache.Delete "a").2 = none :=
  ⟨rfl, rfl, rfl, rfl⟩

end Cache

/-! ### C27, C23: saving a session, and the background sweeps -/

namespace Session
open Routing

/-- C27. `session.Save` on a dirty session passes the session's identifier,
its whole data mapping and the duration of 24 hours to the store's `Save`,
and returns what the store's `Save` returns. If that is an error, the
session is unchanged: same data, still dirty, so that a retry calls the
store again. If it is nil, the session has the same identifier and data and
is no longer dirty, and a `Save` that follows returns nil and leaves the
state of the store and the heap as they are. -/
theorem session_save_atomic {σ : Type} (s : session σ) (st : σ) (h : Heap) (now : Int)
    (hd : s.written = true) :
    (s.Save st h now).2 = s.store.Save st h now s.id s.data (24 * hour) ∧
    (∀ st1 h1 err, s.store.Save st h now s.id s.data (24 * hour) = (st1, h1, some err) →
      s.Save st h now = (s, st1, h1, some err) ∧
      ∀ later, (s.Save st h now).1.Save st1 h1 later =
        ((s.Save st1 h1 later).1, s.store.Save st1 h1 later s.id s.data (24 * hour))) ∧
    (∀ st1 h1, s.store.Save st h now s.id s.data (24 * hour) = (st1, h1, none) →
      s.Save st h now = ({ s with written := false }, st1, h1, none) ∧
      (s.Save st h now).1.id = s.id ∧
      (s.Save st h now).1.data = s.data ∧
      (s.Save st h now).1.written = false ∧
      ∀ st2 h2 later,
        (s.Save st h now).1.Save st2 h2 later = ((s.Save st h now).1, st2, h2, none)) := by
  have key : ∀ (x : session σ) (y : σ) (g : Heap) (t : Int), x.written = true →
      (x.Save y g t).2 = x.store.Save y g t x.id x.data (24 * hour) := by
    intro x y g t hx
    unfold session.Save
    rw [if_pos hx]
    cases hsv : x.store.Save y g t x.id x.data (24 * hour) with
    | mk y1 res1 =>
      cases res1 with
      | mk g1 res => cases res <;> rfl
  refine ⟨key s st h now hd, ?_, ?_⟩
  · intro st1 h1 err hs
    have e : s.Save st h now = (s, st1, h1, some err) := by
      unfold session.Save
      rw [if_pos hd, hs]
    refine ⟨e, ?_⟩
    intro later
    rw [e]
    exact Prod.ext rfl (key s st1 h1 later hd)
  · intro st1 h1 hs
    have e : s.Save st h now = ({ s with written := false }, st1, h1, none) := by
      unfold session.Save
      rw [if_pos hd, hs]
    refine ⟨e, by rw [e], by rw [e], by rw [e], ?_⟩
    intro st2 h2 later
    rw [e]
    simp [session.Save]

theorem session_save_atomic_witness :
    (demoSession.Set demoStartHeap "cart" (GoValue.int 3)).1.written = true ∧
    failingSession.written = true ∧
    failingSession.Save () demoHeap 10 = (failingSession, (), demoHeap, some "store unavailable") ∧
    (demoSession.Set demoStartHeap "cart" (GoValue.int 3)).2.read 1 =
      [("user", GoValue.str "ann"), ("cart", GoValue.int 3)] ∧
    ((demoSession.Set demoStartHeap "cart" (GoValue.int 3)).1.Save NewMemoryStore
          (demoSession.Set demoStartHeap "cart" (GoValue.int 3)).2 10 =
        ({ id := "token-1", data := 1, store := memoryStore, written := false },
          { sessions := [("token-1", { data := 1, expiration := 10 + 24 * hour })] },
          (demoSession.Set demoStartHeap "cart" (GoValue.int 3)).2, none) ∧
      ((demoSession.Set demoStartHeap "cart" (GoValue.int 3)).1.Save NewMemoryStore
          (demoSession.Set demoStartHeap "cart" (GoValue.int 3)).2 10).1.id =
        (demoSession.Set demoStartHeap "cart" (GoValue.int 3)).1.id ∧
      ((demoSession.Set demoStartHeap "cart" (GoValue.int 3)).1.Save NewMemoryStore
          (demoSession.Set demoStartHeap "cart" (GoValue.int 3)).2 10).1.data =
        (demoSession.Set demoStartHeap "cart" (GoValue.int 3)).1.data ∧
      ((demoSession.Set demoStartHeap "cart" (GoValue.int 3)).1.Save NewMemoryStore
          (demoSession.Set demoStartHeap "cart" (GoValue.int 3)).2 10).1.written = false ∧
      ∀ st2 h2 later, ((demoSession.Set demoStartHeap "cart" (GoValue.int 3)).1.Save
          NewMemoryStore (demoSession.Set demoStartHeap "cart" (GoValue.int 3)).2 10).1.Save
          st2 h2 later =
        (((demoSession.Set demoStartHeap "cart" (GoValue.int 3)).1.Save NewMemoryStore
          (demoSession.Set demoStartHeap "cart" (GoValue.int 3)).2 10).1, st2, h2, none)) :=
  ⟨rfl, rfl,
    ((session_save_atomic failingSession () demoHeap 10 rfl).2.1 () demoHeap
      "store unavailable" rfl).1,
    rfl,
    (session_save_atomic (demoSession.Set demoStartHeap "cart" (GoValue.int 3)).1 NewMemoryStore
      (demoSession.Set demoStartHeap "cart" (GoValue.int 3)).2 10 rfl).2.2
      { sessions := [("token-1", { data := 1, expiration := 10 + 24 * hour })] }
      (demoSession.Set demoStartHeap "cart" (GoValue.int 3)).2 rfl⟩

/-- Reading a map after a sweep: the entry is gone when some entry of the
swept list has that key and is expired, and is the entry of before otherwise. -/
theorem get_sweep {β : Type} (exp : β → Int) (now : Int) (k : String) (l : GoMap β) :
    ∀ m : GoMap β,
      GoMap.get? (l.foldl (fun m e => if now > exp e.2 then GoMap.delete m e.1 else m) m) k =
        if l.any (fun e => decide (e.1 = k) && decide (now > exp e.2)) = true then none
        else GoMap.get? m k := by
  induction l with
  | nil => intro m; simp
  | cons e t ih =>
    intro m
    simp only [List.foldl_cons, List.any_cons]
    rw [ih]
    by_cases ht : t.any (fun e => decide (e.1 = k) && decide (now > exp e.2)) = true
    · simp [ht]
    · by_cases he : now > exp e.2
      · by_cases hk : e.1 = k
        · simp [ht, he, hk, get_delete]
        · have hk2 : ¬ k = e.1 := fun h => hk h.symm
          simp [ht, he, hk, hk2, get_delete]
      · simp [ht, he]

/-- In a map with distinct keys, an entry of the list is the entry of its key. -/
theorem get_of_mem {β : Type} (m : GoMap β) (k : String) (v : β)
    (hn : (GoMap.keys m).Nodup) (hm : (k, v) ∈ m) : GoMap.get? m k = some v := by
  induction m with
  | nil => simp at hm
  | cons e t ih =>
    obtain ⟨k2, v2⟩ := e
    simp only [GoMap.keys, List.map_cons, List.nodup_cons] at hn
    simp only [List.mem_cons, Prod.mk.injEq] at hm
    rcases hm with ⟨h1, h2⟩ | hm
    · subst h1; subst h2
      simp [GoMap.get?, lookup_cons_eq]
    · have hne : k ≠ k2 := by
        intro h
        subst h
        exact hn.1 (List.mem_map.mpr ⟨(k, v), hm, rfl⟩)
      have := ih hn.2 hm
      simp only [GoMap.get?] at this ⊢
      rw [lookup_cons_ne _ _ _ _ hne]
      exact this

/-- The entry of a key is an entry of the list. -/
theorem mem_of_get {β : Type} (m : GoMap β) (k : String) (v : β)
    (h : GoMap.get? m k = some v) : (k, v) ∈ m := by
  induction m with
  | nil => simp [GoMap.get?] at h
  | cons e t ih =>
    obtain ⟨k2, v2⟩ := e
    by_cases hk : k = k2
    · subst hk
      simp only [GoMap.get?, lookup_cons_eq, Option.some.injEq] at h
      subst h
      simp
    · simp only [GoMap.get?] at h ih
      rw [lookup_cons_ne _ _ _ _ hk] at h
      exact List.mem_cons_of_mem _ (ih h)

/-- Reading a map with distinct keys after its sweep: expired entries are
gone, the others are as before. -/
theorem get_sweep_self {β : Type} (exp : β → Int) (now : Int) (k : String) (m : GoMap β)
    (hn : (GoMap.keys m).Nodup) :
    GoMap.get? (m.foldl (fun m e => if now > exp e.2 then GoMap.delete m e.1 else m) m) k =
      (GoMap.get? m k).filter (fun v => decide (now ≤ exp v)) := by
  rw [get_sweep]
  cases hg : GoMap.get? m k with
  | none => simp [Option.filter]
  | some v =>
    by_cases hv : now > exp v
    · have hany : m.any (fun e => decide (e.1 = k) && decide (now > exp e.2)) = true := by
        rw [List.any_eq_true]
        exact ⟨(k, v), mem_of_get m k v hg, by simp [hv]⟩
      have hv2 : ¬ now ≤ exp v := by omega
      simp [hany, Option.filter, hv2]
    · have hany : ¬ m.any (fun e => decide (e.1 = k) && decide (now > exp e.2)) = true := by
        rw [List.any_eq_true]
        rintro ⟨⟨k2, v2⟩, hmem, hp⟩
        simp only [Bool.and_eq_true, decide_eq_true_eq] at hp
        obtain ⟨h1, h2⟩ := hp
        subst h1
        have := get_of_mem m k2 v2 hn hmem
        rw [hg] at this
        have e := Option.some.inj this
        subst e
        exact hv h2
      have hv2 : now ≤ exp v := by omega
      simp [hany, Option.filter, hv2]

end Session

namespace Cache
open Routing Session

/-- C23. One pass of the sweep at the instant `now`, over a cache and over a
session store (maps with distinct keys): afterwards a key has an entry
exactly when it had one whose expiration is not before `now`, and that entry
is the one it had, value and expiration; and at every instant `t` from `now`
on, `Get` returns for every key what it returned before the pass. -/
theorem sweep_removes_exactly_expired (c : MemoryCache) (st : MemoryStore) (now : Int)
    (hc : (GoMap.keys c.items).Nodup) (hs : (GoMap.keys st.sessions).Nodup) :
    (∀ k, GoMap.get? (c.cleanup now).items k =
      (GoMap.get? c.items k).filter (fun item => decide (now ≤ item.expiration))) ∧
    (∀ k, GoMap.get? (st.cleanup now).sessions k =
      (GoMap.get? st.sessions k).filter (fun entry => decide (now ≤ entry.expiration))) ∧
    (∀ k t, now ≤ t → ((c.cleanup now).Get t k).2 = (c.Get t k).2) ∧
    (∀ h k t, now ≤ t → ((st.cleanup now).Get h t k).2 = (st.Get h t k).2) := by
  have h1 : ∀ k, GoMap.get? (c.cleanup now).items k =
      (GoMap.get? c.items k).filter (fun item => decide (now ≤ item.expiration)) :=
    fun k => get_sweep_self (fun v : memoryItem => v.expiration) now k c.items hc
  have h2 : ∀ k, GoMap.get? (st.cleanup now).sessions k =
      (GoMap.get? st.sessions k).filter (fun entry => decide (now ≤ entry.expiration)) :=
    fun k => get_sweep_self (fun v : memorySession => v.expiration) now k st.sessions hs
  refine ⟨h1, h2, ?_, ?_⟩
  · intro k t ht
    simp only [MemoryCache.Get, h1]
    cases GoMap.get? c.items k with
    | none => rfl
    | some item =>
      by_cases hv : now ≤ item.expiration
      · by_cases h3 : t > item.expiration <;> simp [Option.filter, hv, h3]
      · have : t > item.expiration := by omega
        simp [Option.filter, hv, this]
  · intro h k t ht
    simp only [MemoryStore.Get, h2]
    cases GoMap.get? st.sessions k with
    | none => rfl
    | some entry =>
      by_cases hv : now ≤ entry.expiration
      · by_cases h3 : t > entry.expiration <;> simp [Option.filter, hv, h3]
      · have : t > entry.expiration := by omega
        simp [Option.filter, hv, this]

theorem sweep_removes_exactly_expired_witness :
    (GoMap.keys demoCache.items).Nodup ∧ (GoMap.keys demoStore.sessions).Nodup ∧
    GoMap.get? (demoCache.cleanup 51).items "a" = none ∧
    GoMap.get? (demoCache.cleanup 50).items "a" =
      some { value := GoValue.int 1, expiration := 50 } ∧
    GoMap.get? (demoStore.cleanup 51).sessions "token-1" = none ∧
    (∀ k t, (51 : Int) ≤ t → ((demoCache.cleanup 51).Get t k).2 = (demoCache.Get t k).2) ∧
    (∀ h k t, (51 : Int) ≤ t →
      ((demoStore.cleanup 51).Get h t k).2 = (demoStore.Get h t k).2) :=
  ⟨by decide, by decide,
    ((sweep_removes_exactly_expired demoCache demoStore 51 (by decide) (by decide)).1 "a").trans
      rfl,
    ((sweep_removes_exactly_expired demoCache demoStore 50 (by decide) (by decide)).1 "a").trans
      rfl,
    ((sweep_removes_exactly_expired demoCache demoStore 51 (by decide) (by decide)).2.1
      "token-1").trans rfl,
    (sweep_removes_exactly_expired demoCache demoStore 51 (by decide) (by decide)).2.2.1,
    (sweep_removes_exactly_expired demoCache demoStore 51 (by decide) (by decide)).2.2.2⟩

end Cache

/-! ### C22: the session token -/

namespace Session

/-- Every encoding character is a character of the URL-safe alphabet. -/
theorem b64Char_mem (n : Nat) : b64Char n ∈ urlAlphabet := by
  unfold b64Char
  by_cases h : n < urlAlphabet.length
  · rw [List.getD_eq_getElem _ _ h]
    exact List.getElem_mem h
  · rw [List.getD_eq_default _ _ (by omega)]
    decide

/-- The padding character is not an encoding character. -/
theorem b64Char_ne_pad (n : Nat) : b64Char n ≠ '=' := by
  intro h
  have := b64Char_mem n
  rw [h] at this
  revert this
  decide

set_option maxRecDepth 100000 in
/-- The position in the alphabet of the character that encodes a six-bit value. -/
theorem indexOf_b64Char : ∀ n, n < 64 → urlAlphabet.indexOf (b64Char n) = n := by
  decide

/-- Two six-bit values with the same encoding character are equal. -/
theorem b64Char_inj (i j : Nat) (hi : i < 64) (hj : j < 64) (h : b64Char i = b64Char j) :
    i = j := by
  have e : urlAlphabet.indexOf (b64Char i) = urlAlphabet.indexOf (b64Char j) := by rw [h]
  rwa [indexOf_b64Char i hi, indexOf_b64Char j hj] at e

/-- The length of an encoding: four characters for every started group of three bytes. -/
theorem base64URL_length : ∀ b : List Byte, (base64URL b).length = 4 * ((b.length + 2) / 3)
  | [] => rfl
  | [_] => by simp [base64URL]
  | [_, _] => by simp [base64URL]
  | _ :: _ :: _ :: rest => by
    simp only [base64URL, List.length_cons, base64URL_length rest]
    omega

/-- The characters of an encoding: alphabet characters and the padding character. -/
theorem base64URL_chars : ∀ (b : List Byte) (c : Char), c ∈ base64URL b →
    c ∈ urlAlphabet ∨ c = '='
  | [], c, h => by simp [base64URL] at h
  | [_], c, h => by
    simp only [base64URL, List.mem_cons, List.mem_singleton] at h
    rcases h with h | h | h | h | h
    · exact Or.inl (h ▸ b64Char_mem _)
    · exact Or.inl (h ▸ b64Char_mem _)
    · exact Or.inr h
    · exact Or.inr h
    · simp at h
  | [_, _], c, h => by
    simp only [base64URL, List.mem_cons, List.mem_singleton] at h
    rcases h with h | h | h | h | h
    · exact Or.inl (h ▸ b64Char_mem _)
    · exact Or.inl (h ▸ b64Char_mem _)
    · exact Or.inl (h ▸ b64Char_mem _)
    · exact Or.inr h
    · simp at h
  | _ :: _ :: _ :: rest, c, h => by
    simp only [base64URL, List.mem_cons] at h
    rcases h with h | h | h | h | h
    · exact Or.inl (h ▸ b64Char_mem _)
    · exact Or.inl (h ▸ b64Char_mem _)
    · exact Or.inl (h ▸ b64Char_mem _)
    · exact Or.inl (h ▸ b64Char_mem _)
    · exact base64URL_chars rest c h

/-- Two byte sequences with the same encoding are equal. -/
theorem base64URL_inj : ∀ x y : List Byte, base64URL x = base64URL y → x = y
  | [], [], _ => rfl
  | [], [_], h => by simp [base64URL] at h
  | [], [_, _], h => by simp [base64URL] at h
  | [], _ :: _ :: _ :: _, h => by simp [base64URL] at h
  | [_], [], h => by simp [base64URL] at h
  | [a], [a1], h => by
    simp only [base64URL, List.cons.injEq, and_true] at h
    have h1 := b64Char_inj _ _ (by omega) (by omega) h.1
    have h2 := b64Char_inj _ _ (by omega) (by omega) h.2
    have : a = a1 := Fin.ext (by omega)
    rw [this]
  | [_], [_, _], h => by
    simp only [base64URL, List.cons.injEq, and_true] at h
    exact absurd h.2.2.symm (b64Char_ne_pad _)
  | [_], _ :: _ :: _ :: _, h => by
    simp only [base64URL, List.cons.injEq] at h
    exact absurd h.2.2.1.symm (b64Char_ne_pad _)
  | [_, _], [], h => by simp [base64URL] at h
  | [_, _], [_], h => by
    simp only [base64URL, List.cons.injEq, and_true] at h
    exact absurd h.2.2 (b64Char_ne_pad _)
  | [a, b], [a1, b1], h => by
    simp only [base64URL, List.cons.injEq, and_true] at h
    have h1 := b64Char_inj _ _ (by omega) (by omega) h.1
    have h2 := b64Char_inj _ _ (by omega) (by omega) h.2.1
    have h3 := b64Char_inj _ _ (by omega) (by omega) h.2.2
    have e1 : a = a1 := Fin.ext (by omega)
    have e2 : b = b1 := Fin.ext (by omega)
    rw [e1, e2]
  | [_, _], _ :: _ :: _ :: _, h => by
    simp only [base64URL, List.cons.injEq] at h
    exact absurd h.2.2.2.1.symm (b64Char_ne_pad _)
  | _ :: _ :: _ :: _, [], h => by simp [base64URL] at h
  | _ :: _ :: _ :: _, [_], h => by
    simp only [base64URL, List.cons.injEq] at h
    exact absurd h.2.2.1 (b64Char_ne_pad _)
  | _ :: _ :: _ :: _, [_, _], h => by
    simp only [base64URL, List.cons.injEq] at h
    exact absurd h.2.2.2.1 (b64Char_ne_pad _)
  | a :: b :: c :: rest, a1 :: b1 :: c1 :: rest1, h => by
    simp only [base64URL, List.cons.injEq] at h
    have h1 := b64Char_inj _ _ (by omega) (by omega) h.1
    have h2 := b64Char_inj _ _ (by omega) (by omega) h.2.1
    have h3 := b64Char_inj _ _ (by omega) (by omega) h.2.2.1
    have h4 := b64Char_inj _ _ (by omega) (by omega) h.2.2.2.1
    have e1 : a = a1 := Fin.ext (by omega)
    have e2 : b = b1 := Fin.ext (by omega)
    have e3 : c = c1 := Fin.ext (by omega)
    rw [e1, e2, e3, base64URL_inj rest rest1 h.2.2.2.2]

/-- C22. The token made from 32 bytes is 44 characters long; each of its
characters is a character of the URL-safe base64 alphabet (`A` to `Z`, `a`
to `z`, `0` to `9`, `-`, `_`) or the padding character `=`, and none is `+`
or `/`; and a sequence of bytes with the same token, of 32 bytes or of any
other length, is the same sequence. -/
theorem session_token_format (b b1 : List Byte) (hb : b.length = 32) :
    (generateSessionID b).length = 44 ∧
    (∀ c ∈ (generateSessionID b).data,
      (c ∈ "ABCDEFGHIJKLMNOPQRSTUVWXYZabcdefghijklmnopqrstuvwxyz0123456789-_".data ∨ c = '=') ∧
        c ≠ '+' ∧ c ≠ '/') ∧
    (generateSessionID b = generateSessionID b1 → b = b1) := by
  refine ⟨?_, ?_, ?_⟩
  · simp [generateSessionID, String.length, base64URL_length, hb]
  · intro c hc
    have h := base64URL_chars b c hc
    refine ⟨h, ?_, ?_⟩
    · rintro rfl
      revert h
      decide
    · rintro rfl
      revert h
      decide
  · intro h
    exact base64URL_inj b b1 (congrArg String.data h)

theorem session_token_format_witness :
    demoEntropy.length = 32 ∧
    ((generateSessionID demoEntropy).length = 44 ∧
    (∀ c ∈ (generateSessionID demoEntropy).data,
      (c ∈ "ABCDEFGHIJKLMNOPQRSTUVWXYZabcdefghijklmnopqrstuvwxyz0123456789-_".data ∨ c = '=') ∧
        c ≠ '+' ∧ c ≠ '/') ∧
    (generateSessionID demoEntropy = generateSessionID (List.replicate 32 (255 : Byte)) →
      demoEntropy = List.replicate 32 (255 : Byte))) :=
  ⟨rfl, session_token_format demoEntropy (List.replicate 32 (255 : Byte)) rfl⟩

/-- The tokens of the bytes 7 and 255, each 32 times. -/
theorem session_token_examples :
    generateSessionID demoEntropy = "BwcHBwcHBwcHBwcHBwcHBwcHBwcHBwcHBwcHBwcHBwc=" ∧
    generateSessionID (List.replicate 32 (255 : Byte)) =
      "__________________________________________8=" := by
  constructor <;> decide

end Session

/-! ### C24, C25: the migration runner -/

namespace Database

set_option maxRecDepth 100000 in
/-- C24 (failing input). The directory `database/migrations` holds the pair
`20240101120000_user_up.sql` and `20240101120000_user_down.sql` and no
migration has been applied. `GetMigrationFiles` returns both names, the down
script first; `GetPendingMigrations` keeps both; `RunMigrations` runs the
down script and then the up script, executing the statement of each, and
records both in the table. -/
theorem run_migrations_runs_down_scripts :
    GetMigrationFiles demoFiles "database/migrations" =
      Except.ok ["20240101120000_user_down.sql", "20240101120000_user_up.sql"] ∧
    GetPendingMigrations ["20240101120000_user_down.sql", "20240101120000_user_up.sql"] [] =
      ["20240101120000_user_down.sql", "20240101120000_user_up.sql"] ∧
    (RunMigrations demoFiles emptyState "database/migrations").2 = none ∧
    (RunMigrations demoFiles emptyState "database/migrations").1.out =
      ["Running migration: 20240101120000_user_down.sql",
       "Running migration: 20240101120000_user_up.sql",
       "Ran 2 migrations successfully."] ∧
    (RunMigrations demoFiles emptyState "database/migrations").1.db.executed =
      ["DROP TABLE IF EXISTS users", "CREATE TABLE users (id INT)"] ∧
    (RunMigrations demoFiles emptyState "database/migrations").1.db.rows =
      [{ ID := 1, Name := "20240101120000_user_down", Batch := 1 },
       { ID := 2, Name := "20240101120000_user_up", Batch := 1 }] := by
  refine ⟨by rfl, ?_, ?_, ?_, ?_, ?_⟩ <;> decide

set_option maxRecDepth 100000 in
/-- C25 (failing input). `RunMigrationFile` applies the file
`database/migrations/20240101120000_user_up.sql` and records the migration
under the name `20240101120000_user_up`. For that recorded migration
`RollbackMigrations` looks up the down script
`database/migrations/20240101120000_user_up_down.sql`, not the file
`20240101120000_user_down.sql` of the pair, which exists; it finds no such
file and returns an error, leaving the migration in the table. -/
theorem rollback_looks_up_wrong_down_script :
    migrationName "database/migrations/20240101120000_user_up.sql" =
      "20240101120000_user_up" ∧
    (RunMigrationFile demoFiles { emptyDb with hasTable := true }
        "database/migrations/20240101120000_user_up.sql" 1).2 = none ∧
    (RunMigrationFile demoFiles { emptyDb with hasTable := true }
        "database/migrations/20240101120000_user_up.sql" 1).1.rows =
      [{ ID := 1, Name := "20240101120000_user_up", Batch := 1 }] ∧
    downPath "database/migrations" "20240101120000_user_up" =
      "database/migrations/20240101120000_user_up_down.sql" ∧
    exists? demoFiles "database/migrations/20240101120000_user_down.sql" = true ∧
    exists? demoFiles "database/migrations/20240101120000_user_up_down.sql" = false ∧
    (RollbackMigrations demoFiles
        { db := (RunMigrationFile demoFiles { emptyDb with hasTable := true }
            "database/migrations/20240101120000_user_up.sql" 1).1, out := [] }
        "database/migrations").2 =
      some ("down migration file not found: " ++
        "database/migrations/20240101120000_user_up_down.sql") ∧
    (RollbackMigrations demoFiles
        { db := (RunMigrationFile demoFiles { emptyDb with hasTable := true }
            "database/migrations/20240101120000_user_up.sql" 1).1, out := [] }
        "database/migrations").1.db.rows =
      [{ ID := 1, Name := "20240101120000_user_up", Batch := 1 }] := by
  refine ⟨?_, ?_, ?_, ?_, ?_, ?_, ?_, ?_⟩ <;> decide

end Database

/-! ### C29, C30: the text that `RenderBlade` builds -/

namespace Views

/-- One step of the search. -/
theorem indexFrom_cons (sep : List Char) (c : Char) (t : List Char) (i : Nat) :
    Strings.indexFrom sep (c :: t) i =
      if sep.isPrefixOf (c :: t) then (i : Int) else Strings.indexFrom sep t (i + 1) := rfl

/-- A result of `Strings.indexFrom` that is not `-1` is the position of an occurrence. -/
theorem indexFrom_spec (sep : List Char) : ∀ (s : List Char) (i : Nat) (r : Int),
    Strings.indexFrom sep s i = r → 0 ≤ r →
      (i : Int) ≤ r ∧ sep.isPrefixOf (s.drop (r - i).toNat) = true := by
  intro s
  induction s with
  | nil =>
    intro i r h h0
    unfold Strings.indexFrom at h
    by_cases hs : sep = []
    · rw [if_pos hs] at h
      subst h
      subst hs
      simp
    · rw [if_neg hs] at h
      omega
  | cons c t ih =>
    intro i r h h0
    unfold Strings.indexFrom at h
    by_cases hp : sep.isPrefixOf (c :: t) = true
    · rw [if_pos hp] at h
      subst h
      simpa using hp
    · rw [if_neg hp] at h
      obtain ⟨h1, h2⟩ := ih (i + 1) r h h0
      have h3 : (i : Int) + 1 ≤ r := by exact_mod_cast h1
      refine ⟨by omega, ?_⟩
      have e : (r - (i : Int)).toNat = (r - ((i + 1 : Nat) : Int)).toNat + 1 := by
        push_cast
        omega
      rw [e, List.drop_succ_cons]
      exact h2

/-- A result of `Strings.indexFrom` is `-1` or a position from the start position on. -/
theorem indexFrom_ge (sep : List Char) : ∀ (s : List Char) (i : Nat),
    Strings.indexFrom sep s i = -1 ∨ (i : Int) ≤ Strings.indexFrom sep s i := by
  intro s
  induction s with
  | nil =>
    intro i
    unfold Strings.indexFrom
    by_cases hs : sep = []
    · simp [hs]
    · simp [hs]
  | cons c t ih =>
    intro i
    unfold Strings.indexFrom
    by_cases hp : sep.isPrefixOf (c :: t) = true
    · simp [hp]
    · rw [if_neg hp]
      rcases ih (i + 1) with h | h
      · exact Or.inl h
      · exact Or.inr (by push_cast at h; omega)

/-- The first occurrence is not after an occurrence. -/
theorem indexFrom_le (sep : List Char) : ∀ (s : List Char) (i j : Nat),
    sep.isPrefixOf (s.drop j) = true → j ≤ s.length →
      Strings.indexFrom sep s i ≤ (i : Int) + j := by
  intro s
  induction s with
  | nil =>
    intro i j hp hj
    simp only [List.length_nil, Nat.le_zero_eq] at hj
    subst hj
    unfold Strings.indexFrom
    have : sep = [] := by
      cases sep with
      | nil => rfl
      | cons a b => simp [List.isPrefixOf] at hp
    simp [this]
  | cons c t ih =>
    intro i j hp hj
    unfold Strings.indexFrom
    by_cases hq : sep.isPrefixOf (c :: t) = true
    · rw [if_pos hq]
      omega
    · rw [if_neg hq]
      cases j with
      | zero => exact absurd (by simpa using hp) hq
      | succ j1 =>
        rw [List.drop_succ_cons] at hp
        have := ih (i + 1) j1 hp (by simpa using hj)
        push_cast at this ⊢
        omega

/-- The search passes over text that does not have the first character of
the text searched for. -/
theorem indexFrom_skip (a : Char) (sepT : List Char) : ∀ (p r : List Char) (i : Nat),
    (∀ c ∈ p, c ≠ a) →
      Strings.indexFrom (a :: sepT) (p ++ r) i = Strings.indexFrom (a :: sepT) r (i + p.length) := by
  intro p
  induction p with
  | nil => intro r i _; simp
  | cons c t ih =>
    intro r i hp
    have hc : c ≠ a := hp c (List.mem_cons_self _ _)
    have hc2 : ¬ a = c := fun h => hc h.symm
    have hn : ¬ (a :: sepT).isPrefixOf (c :: (t ++ r)) = true := by
      simp [List.isPrefixOf, hc2]
    rw [List.cons_append, indexFrom_cons, if_neg hn,
      ih r (i + 1) (fun x hx => hp x (List.mem_cons_of_mem _ hx))]
    simp only [List.length_cons]
    congr 1
    omega

/-- C29. Let `s` be where the first `@section('content')` of the view starts
and `e` where its first `@endsection` starts, and let `B` be the text
strictly between the end of that marker, at `s + 19`, and `e`. The content
block that `RenderBlade` cuts out is the closing parenthesis of the marker
followed by `B`; and for a view with `@extends` and without title
declaration the template text is the layout in which every
`@yield('content')` is replaced by that parenthesis and `B`. -/
theorem content_block_starts_with_parenthesis (files : GoMap String) (view layout B : String)
    (s e : Int)
    (hx : Strings.Contains (readText files ("resources/views/" ++ view)) "@extends" = true)
    (hl : layoutName (readText files ("resources/views/" ++ view)) = some layout)
    (hs : Strings.Index (readText files ("resources/views/" ++ view)) "@section('content')" = s)
    (h0 : 0 ≤ s)
    (he : Strings.Index (readText files ("resources/views/" ++ view)) "@endsection" = e)
    (hB : Strings.slice (readText files ("resources/views/" ++ view)) (s + 19) e = some B)
    (ht : Strings.Index (readText files ("resources/views/" ++ view)) "@section('title'" = -1) :
    contentBlock (readText files ("resources/views/" ++ view)) = some (")" ++ B) ∧
    bladeSource files view =
      some (Strings.ReplaceAll (readText files ("resources/views/" ++ layout ++ ".html"))
        "@yield('content')" (")" ++ B)) := by
  have hblock : contentBlock (readText files ("resources/views/" ++ view)) =
      some (")" ++ B) := by
    generalize readText files ("resources/views/" ++ view) = content at hs he hB
    obtain ⟨n, rfl⟩ := Int.eq_ofNat_of_zero_le h0
    have hp := (indexFrom_spec _ content.data 0 _ hs h0).2
    simp only [CharP.cast_eq_zero, sub_zero, Int.toNat_ofNat] at hp
    unfold Strings.slice at hB
    by_cases hb : 0 ≤ (n : Int) + 19 ∧ (n : Int) + 19 ≤ e ∧ e ≤ (content.data.length : Int)
    · rw [if_pos hb] at hB
      obtain ⟨m, rfl⟩ := Int.eq_ofNat_of_zero_le (by omega : 0 ≤ e)
      have hB2 : B = String.mk ((content.data.drop (n + 19)).take (m - (n + 19))) := by
        have := Option.some.inj hB
        rw [← this]
        congr 1
      unfold contentBlock Strings.slice
      rw [hs, he]
      have hb2 : 0 ≤ (n : Int) + 18 ∧ (n : Int) + 18 ≤ (m : Int) ∧
          (m : Int) ≤ (content.data.length : Int) := by omega
      rw [if_pos hb2]
      obtain ⟨rest, hrest⟩ := List.isPrefixOf_iff_prefix.mp hp
      have hd18 : content.data.drop (n + 18) = ')' :: rest := by
        have : content.data.drop (n + 18) = (content.data.drop n).drop 18 := by
          rw [List.drop_drop, Nat.add_comm]
        rw [this, ← hrest]
        rfl
      have hd19 : content.data.drop (n + 19) = rest := by
        have : content.data.drop (n + 19) = (content.data.drop n).drop 19 := by
          rw [List.drop_drop, Nat.add_comm]
        rw [this, ← hrest]
        rfl
      have e1 : ((n : Int) + 18).toNat = n + 18 := by omega
      have e2 : (m : Int).toNat - (n + 18) = (m - (n + 19)) + 1 := by omega
      rw [e1, e2, hd18, List.take_succ_cons, hB2, hd19]
      rfl
    · rw [if_neg hb] at hB
      exact absurd hB (by simp)
  refine ⟨hblock, ?_⟩
  unfold bladeSource
  simp only [hx, if_true, hl, hblock, ht, ne_eq, not_true_eq_false, if_false]

set_option maxRecDepth 100000 in
theorem content_block_starts_with_parenthesis_witness :
    Strings.Contains (readText demoViews ("resources/views/" ++ "home.html")) "@extends" = true ∧
    layoutName (readText demoViews ("resources/views/" ++ "home.html")) = some "layout" ∧
    Strings.Index (readText demoViews ("resources/views/" ++ "home.html")) "@section('content')" = 19 ∧
    Strings.Index (readText demoViews ("resources/views/" ++ "home.html")) "@endsection" = 52 ∧
    Strings.slice (readText demoViews ("resources/views/" ++ "home.html")) (19 + 19) 52 =
      some "\n<p>Hello</p>\n" ∧
    Strings.Index (readText demoViews ("resources/views/" ++ "home.html")) "@section('title'" = -1 ∧
    (contentBlock (readText demoViews ("resources/views/" ++ "home.html")) =
        some (")" ++ "\n<p>Hello</p>\n") ∧
      bladeSource demoViews "home.html" =
        some (Strings.ReplaceAll (readText demoViews ("resources/views/" ++ "layout" ++ ".html"))
          "@yield('content')" (")" ++ "\n<p>Hello</p>\n"))) :=
  ⟨by decide, by decide, by decide, by decide, by decide, by decide,
    content_block_starts_with_parenthesis demoViews "home.html" "layout" "\n<p>Hello</p>\n" 19 52
      (by decide) (by decide) (by decide) (by decide) (by decide) (by decide) (by decide)⟩

set_option maxRecDepth 100000 in
/-- The worked instance of C29: the body of the layout receives the closing
parenthesis of the marker before the text of the section. -/
theorem demo_view_source :
    bladeSource demoViews "home.html" =
      some "<title>@yield('title')</title><body>)\n<p>Hello</p>\n</body>" := by
  decide

/-- The first closing parenthesis of a view that starts with `@extends('L')`
is before the end of any title declaration, and the view contains `@extends`. -/
theorem title_end_before_start (content : String) (L rest : List Char)
    (hc : content.data = "@extends('".data ++ L ++ "')".data ++ rest)
    (hL : '@' ∉ L)
    (ht : Strings.Index content "@section('title'" ≠ -1) :
    Strings.Index content ")" < Strings.Index content "@section('title'" + 17 ∧
    Strings.Contains content "@extends" = true := by
  have hform : content.data = '@' :: (("extends('".data ++ L) ++ ('\'' :: ')' :: rest)) := by
    rw [hc]; simp
  have hlen : content.data.length = 12 + L.length + rest.length := by
    rw [hform]
    simp; omega
  have hq : Strings.indexFrom ")".data content.data 0 ≤ ((0 : Nat) : Int) + (11 + L.length : Nat) := by
    apply indexFrom_le
    · have e : content.data = ("@extends('".data ++ L ++ ['\'']) ++ (')' :: rest) := by
        rw [hc]
        simp
      have hl2 : ("@extends('".data ++ L ++ ['\'']).length = 11 + L.length := by
        simp; omega
      rw [e, ← hl2, List.drop_left]
      simp [List.isPrefixOf]
    · rw [hlen]
      omega
  have hts : Strings.indexFrom "@section('title'".data content.data 0 = -1 ∨
      ((1 + (9 + L.length) : Nat) : Int) ≤
        Strings.indexFrom "@section('title'".data content.data 0 := by
    have hn : ¬ "@section('title'".data.isPrefixOf
        ('@' :: (("extends('".data ++ L) ++ ('\'' :: ')' :: rest))) = true := by
      have : "@section('title'".data = '@' :: 's' :: "ection('title'".data := rfl
      rw [this]
      have e2 : ("extends('".data ++ L) = 'e' :: ("xtends('".data ++ L) := rfl
      rw [e2]
      simp [List.isPrefixOf]
    have hskip := indexFrom_skip '@' "section('title'".data ("extends('".data ++ L)
      ('\'' :: ')' :: rest) (0 + 1) (by
        intro c hcm
        rw [List.mem_append] at hcm
        rcases hcm with h | h
        · revert c
          decide
        · rintro rfl
          exact hL h)
    have e3 : "@section('title'".data = '@' :: "section('title'".data := rfl
    have hl9 : ("extends('".data ++ L).length = 9 + L.length := by
      simp; omega
    rw [hform, indexFrom_cons, if_neg hn, e3, hskip, hl9]
    have := indexFrom_ge ('@' :: "section('title'".data) ('\'' :: ')' :: rest)
      (0 + 1 + (9 + L.length))
    rcases this with h | h
    · exact Or.inl h
    · refine Or.inr ?_
      have e4 : 0 + 1 + (9 + L.length) = 1 + (9 + L.length) := by omega
      rw [e4] at h ⊢
      exact h
  refine ⟨?_, ?_⟩
  · have ht2 : Strings.indexFrom "@section('title'".data content.data 0 ≠ -1 := ht
    have hq2 : Strings.Index content ")" ≤ ((0 : Nat) : Int) + (11 + L.length : Nat) := hq
    have hts2 : ((1 + (9 + L.length) : Nat) : Int) ≤ Strings.Index content "@section('title'" := by
      rcases hts with h | h
      · exact absurd h ht2
      · exact h
    omega
  · unfold Strings.Contains Strings.Index
    rw [hform, indexFrom_cons]
    have hp : "@extends".data.isPrefixOf
        ('@' :: (("extends('".data ++ L) ++ ('\'' :: ')' :: rest))) = true := by
      have e1 : "@extends".data = '@' :: "extends".data := rfl
      have e2 : ("extends('".data ++ L) = "extends".data ++ ('(' :: '\'' :: L) := rfl
      rw [e1, e2]
      simp [List.isPrefixOf]
    rw [if_pos hp]
    decide

/-- C30. A view that starts with `@extends('L')`, for a layout name `L`
without the character `@`, and that has a title declaration
`@section('title'`: the first closing parenthesis of the view is the one of
`@extends`, before the title declaration, so the slice of the title has its
start after its end and `RenderBlade` aborts, whatever the rest of the view,
the layout and the template engine are. -/
theorem titled_view_aborts (files : GoMap String) (view : String) (L rest : List Char)
    (hc : (readText files ("resources/views/" ++ view)).data =
      "@extends('".data ++ L ++ "')".data ++ rest)
    (hL : '@' ∉ L)
    (ht : Strings.Index (readText files ("resources/views/" ++ view)) "@section('title'" ≠ -1) :
    Strings.Index (readText files ("resources/views/" ++ view)) ")" <
      Strings.Index (readText files ("resources/views/" ++ view)) "@section('title'" + 17 ∧
    titleText (readText files ("resources/views/" ++ view)) = none ∧
    bladeSource files view = none ∧
    ∀ execute w data, RenderBlade execute files w view data = none := by
  obtain ⟨hlt, hx⟩ := title_end_before_start _ L rest hc hL ht
  have htitle : titleText (readText files ("resources/views/" ++ view)) = none := by
    unfold titleText Strings.slice
    rw [if_neg]
    omega
  have hsrc : bladeSource files view = none := by
    unfold bladeSource
    simp only [hx, if_true, htitle, ht, ne_eq, not_false_eq_true]
    cases layoutName (readText files ("resources/views/" ++ view)) with
    | none => rfl
    | some layout =>
      cases contentBlock (readText files ("resources/views/" ++ view)) with
      | none => rfl
      | some block => rfl
  refine ⟨hlt, htitle, hsrc, ?_⟩
  intro execute w data
  unfold RenderBlade
  rw [hsrc]

set_option maxRecDepth 100000 in
theorem titled_view_aborts_witness :
    (readText demoViews ("resources/views/" ++ "titled.html")).data =
      "@extends('".data ++ "layout".data ++ "')".data ++
        "\n@section('title', 'Home')\n@section('content')\n<p>Hello</p>\n@endsection\n".data ∧
    '@' ∉ "layout".data ∧
    Strings.Index (readText demoViews ("resources/views/" ++ "titled.html"))
      "@section('title'" ≠ -1 ∧
    (Strings.Index (readText demoViews ("resources/views/" ++ "titled.html")) ")" <
      Strings.Index (readText demoViews ("resources/views/" ++ "titled.html"))
        "@section('title'" + 17 ∧
    titleText (readText demoViews ("resources/views/" ++ "titled.html")) = none ∧
    bladeSource demoViews "titled.html" = none ∧
    ∀ execute w data, RenderBlade execute demoViews w "titled.html" data = none) :=
  ⟨by decide, by decide, by decide,
    titled_view_aborts demoViews "titled.html" "layout".data
      "\n@section('title', 'Home')\n@section('content')\n<p>Hello</p>\n@endsection\n".data
      (by decide) (by decide) (by decide)⟩

set_option maxRecDepth 100000 in
/-- The worked instance of C30: in the view with the title `Home` the title
declaration starts at 19 and the first closing parenthesis is at 17, so the
slice of the title would run from 36 to 17. -/
theorem demo_titled_view_positions :
    Strings.Index demoTitledView "@section('title'" = 19 ∧
    Strings.Index demoTitledView ")" = 17 ∧
    contentBlock demoTitledView = some ")\n<p>Hello</p>\n" ∧
    bladeSource demoViews "titled.html" = none := by
  refine ⟨?_, ?_, ?_, ?_⟩ <;> decide

end Views

/-! ### C28: the validator -/

namespace Validation
open Regexp Routing

end Validation

namespace Validation

/-- Splitting a run of digits from what follows it. -/
theorem span_digits (whole frac : List Char) (hw : ∀ c ∈ whole, isDigit c = true)
    (hf : ∀ c, frac.head? = some c → isDigit c = false) :
    (whole ++ frac).takeWhile isDigit = whole ∧ (whole ++ frac).dropWhile isDigit = frac := by
  induction whole with
  | nil =>
    cases frac with
    | nil => exact ⟨rfl, rfl⟩
    | cons c t =>
      have := hf c rfl
      simp [List.takeWhile_cons, List.dropWhile_cons, this]
  | cons d w ih =>
    have hd : isDigit d = true := hw d (List.mem_cons_self _ _)
    obtain ⟨h1, h2⟩ := ih (fun c hc => hw c (List.mem_cons_of_mem _ hc))
    simp [List.takeWhile_cons, List.dropWhile_cons, hd, h1, h2]

/-- The numeric texts are the texts made of an optional `-`, one or more
digits, and optionally a `.` followed by one or more digits. -/
theorem numericText_iff (s : List Char) :
    numericText s = true ↔
      ∃ sign whole frac : List Char,
        (sign = [] ∨ sign = ['-']) ∧
        whole ≠ [] ∧ (∀ c ∈ whole, isDigit c = true) ∧
        (frac = [] ∨ ∃ f, f ≠ [] ∧ (∀ c ∈ f, isDigit c = true) ∧ frac = '.' :: f) ∧
        s = sign ++ whole ++ frac := by
  constructor
  · intro h
    unfold numericText at h
    simp only [Bool.and_eq_true, Bool.or_eq_true, decide_eq_true_eq, List.all_eq_true] at h
    obtain ⟨hw, hr⟩ := h
    refine ⟨if s.head? = some '-' then ['-'] else [],
      (if s.head? = some '-' then s.tail else s).takeWhile isDigit,
      (if s.head? = some '-' then s.tail else s).dropWhile isDigit, ?_, hw, ?_, ?_, ?_⟩
    · by_cases hs : s.head? = some '-' <;> simp [hs]
    · intro c hc
      exact (List.mem_takeWhile_imp hc)
    · rcases hr with hr | ⟨⟨hdot, hne⟩, hall⟩
      · exact Or.inl hr
      · refine Or.inr ⟨_, hne, hall, ?_⟩
        cases hrest : (if s.head? = some '-' then s.tail else s).dropWhile isDigit with
        | nil => rw [hrest] at hdot; simp at hdot
        | cons c t =>
          rw [hrest] at hdot
          simp only [List.head?_cons, Option.some.injEq] at hdot
          rw [hdot]
          rfl
    · rw [List.append_assoc, List.takeWhile_append_dropWhile]
      by_cases hs : s.head? = some '-'
      · cases s with
        | nil => simp at hs
        | cons c t =>
          simp only [List.head?_cons, Option.some.injEq] at hs
          subst hs
          simp
      · simp [hs]
  · rintro ⟨sign, whole, frac, hsign, hne, hw, hfrac, rfl⟩
    have hf : ∀ c, frac.head? = some c → isDigit c = false := by
      intro c hc
      rcases hfrac with rfl | ⟨f, _, _, rfl⟩
      · simp at hc
      · simp only [List.head?_cons, Option.some.injEq] at hc
        subst hc
        decide
    obtain ⟨h1, h2⟩ := span_digits whole frac hw hf
    have hbody : (if (sign ++ whole ++ frac).head? = some '-' then (sign ++ whole ++ frac).tail
        else sign ++ whole ++ frac) = whole ++ frac := by
      rcases hsign with rfl | rfl
      · cases whole with
        | nil => exact absurd rfl hne
        | cons d w =>
          have hd : isDigit d = true := hw d (List.mem_cons_self _ _)
          have hdm : d ≠ '-' := by
            rintro rfl
            revert hd
            decide
          simp [hdm]
      · simp
    unfold numericText
    simp only [hbody, h1, h2]
    simp only [Bool.and_eq_true, Bool.or_eq_true, decide_eq_true_eq, List.all_eq_true]
    refine ⟨hne, ?_⟩
    rcases hfrac with rfl | ⟨f, hfne, hfd, rfl⟩
    · exact Or.inl rfl
    · exact Or.inr ⟨⟨rfl, hfne⟩, hfd⟩

/-- A text is blank after trimming exactly when all its characters are spaces. -/
theorem trimSpace_eq_empty_iff (s : String) :
    Strings.TrimSpace s = "" ↔ ∀ c ∈ s.data, Strings.isSpace c = true := by
  unfold Strings.TrimSpace Strings.trimChars
  constructor
  · intro h
    have h1 : ((s.data.dropWhile Strings.isSpace).reverse.dropWhile Strings.isSpace).reverse =
        [] := congrArg String.data h
    have h2 : (s.data.dropWhile Strings.isSpace).reverse.dropWhile Strings.isSpace = [] := by
      simpa using h1
    have h3 : ∀ c ∈ (s.data.dropWhile Strings.isSpace).reverse, Strings.isSpace c = true :=
      List.dropWhile_eq_nil_iff.mp h2
    have h4 : s.data.dropWhile Strings.isSpace = [] := by
      cases hd : s.data.dropWhile Strings.isSpace with
      | nil => rfl
      | cons c t =>
        have hc : Strings.isSpace c = true := h3 c (by rw [hd]; simp)
        have := List.head_dropWhile_not Strings.isSpace s.data (by rw [hd]; simp)
        simp only [hd, List.head_cons] at this
        rw [hc] at this
        simp at this
    exact List.dropWhile_eq_nil_iff.mp h4
  · intro h
    have h4 : s.data.dropWhile Strings.isSpace = [] := List.dropWhile_eq_nil_iff.mpr h
    rw [h4]
    rfl

end Validation

namespace Validation
open Regexp Routing

set_option maxRecDepth 100000 in
/-- The worked instance of C28: the name passes its three rules, the age
`4x` is not numeric, the blank note fails `required`, the rules of the
absent field `email` are skipped, and the quantity 12 passes `min:3` and
fails `max:10`. -/
theorem validate_demo :
    ((NewValidator demoData).Validate demoRules).2 = false ∧
    ((NewValidator demoData).Validate demoRules).1.Errors =
      [("age", ["The age must be a number"]), ("note", ["The note field is required"]),
       ("quantity", ["The quantity may not be greater than 10 characters"])] ∧
    failingRules demoData "age" "required|numeric|unknown" = ["numeric"] ∧
    rulePasses demoData "email" "min:3" = true ∧
    rulePasses demoData "email" "required" = false ∧
    rulesOf "min:3|max:10" = ["min:3", "max:10"] ∧
    nameOf "max:10" = "max" ∧ argumentOf "max:10" = "10" ∧ numberOf "10" = 10 ∧
    numberOf " -42 apples" = -42 ∧ numberOf "ten" = 0 ∧
    rulePasses demoData "quantity" "min:3" = true ∧
    rulePasses demoData "quantity" "max:10" = false := by
  refine ⟨?_, ?_, ?_, ?_, ?_, ?_, ?_, ?_, ?_, ?_, ?_, ?_, ?_⟩ <;> decide

end Validation

end Mygola
